import Mathlib

/-!
# Imogen: node delegate and evaluation stages

A shallow embedding of `src/NodesDelegate.h` (`TileNodeEditGraphDelegate`) and of
the parts of `src/Evaluation.h` it relies on (`Input`, `Image_t`, `EvaluationMask`,
the stages), followed by theorems about the parameter-block layout, the generated
call string and its reads, node insertion and deletion, the parameter-block
accessors, the writes of the pointer-driven ranges, the image buffer and the
evaluation mask.

Conventions of the embedding
* a byte is a `Fin 256`; a parameter block (`void* mParams`) is the list of the
  bytes of the allocated block, owned by its node;
* `size_t`, `unsigned int` and `int` indices are `Nat`/`Int`; none of the
  quantities below comes near a wrap-around;
* a C string (`const char*`) is an `Option String`, `none` being the null pointer;
* a read or write outside an allocated block or a `std::vector` has no defined
  result in C++: the functions doing one return `Option`, `none` being that case;
  so is a read of the static table of node types beyond its 18 entries, and a
  `sprintf` of more characters than `char tmps[512]` holds;
* the functions that the delegate calls and whose bodies are not part of the sources
  (`AddEvaluationTarget`, `SetEvaluationCall`, `DelEvaluationTarget` of the
  evaluation, `ImLerp` of imgui) are modelled from the specification;
* floats are stored as their 32 bits (little-endian bytes); the float constants of
  the table of node types (`0.f`, `1.f`) are the rationals they denote; the
  arithmetic on floats is IEEE 754 binary32 on the 32 bits, every operation rounded
  to the nearest float on its own, and a result that is not a number is `none`;
* `SetMouseRatios` takes as a parameter the function giving the 32 bits that `ImLerp`
  returns, so that what it writes where does not depend on the arithmetic; the
  theorems on the values written take the binary32 `ImLerp` for it.
-/

namespace Imogen

/-! ## Types of `NodesDelegate.h` and of the missing `Nodes.h` -/

/-- The enum `ConTypes` of `TileNodeEditGraphDelegate`, in declaration order. -/
inductive ConTypes where
  | Con_Float
  | Con_Float2
  | Con_Float3
  | Con_Float4
  | Con_Color4
  | Con_Int
  | Con_Ramp
  | Con_Angle
  | Con_Angle2
  | Con_Angle3
  | Con_Angle4
  | Con_Enum
  | Con_Structure
  | Con_Any
  deriving DecidableEq, Repr

open ConTypes

/-- The struct `NodeGraphDelegate::Con` (declared in `Nodes.h`, used here through
the aggregate initialisers of the table): name, type, X range, Y range, enum list.
Members left out of an initialiser are zero: null name, type 0 (`Con_Float`),
range 0. -/
structure Con where
  mName : Option String := none
  mType : ConTypes := Con_Float
  mRangeMinX : ℚ := 0
  mRangeMaxX : ℚ := 0
  mRangeMinY : ℚ := 0
  mRangeMaxY : ℚ := 0
  mEnumList : Option String := none
  deriving DecidableEq

/-- An array element that no initialiser covers (`{}`): all members zero. -/
def Con.zero : Con := {}

/-- The struct `NodeGraphDelegate::MetaNode`: name, header colour, and the three
`Con` arrays, each given by its initialisers (the array has `MaxCon` elements, the
elements after the initialisers are `Con.zero`). -/
structure MetaNode where
  mName : String
  mHeaderColor : Nat
  mInputs : List Con
  mOutputs : List Con
  mParams : List Con
  deriving DecidableEq

/-- What the program reads and these sources do not fix.
* `MaxCon`: the constant of `Nodes.h` bounding every `Con` array and every loop
  over one;
* `tmps`: the content of the local `char tmps[512]` of `ComputeFunctionCall`
  before its first `sprintf`. -/
structure Env where
  MaxCon : Nat
  tmps : String

/-- `IM_COL32(R,G,B,A)` of imgui: the four bytes packed as `A<<24 | B<<16 | G<<8 | R`. -/
def IM_COL32 (r g b a : Nat) : Nat := a * 2 ^ 24 + b * 2 ^ 16 + g * 2 ^ 8 + r

def hcTransform : Nat := IM_COL32 200 200 200 255
def hcGenerator : Nat := IM_COL32 150 200 150 255
def hcMaterial : Nat := IM_COL32 150 150 200 255
def hcBlend : Nat := IM_COL32 200 150 150 255
def hcFilter : Nat := IM_COL32 200 200 150 255

/-- An initialiser `{ "name", (int)type }`. -/
def con (name : String) (t : ConTypes) : Con := { mName := some name, mType := t }

/-- An initialiser `{ "name", (int)type, minX, maxX, minY, maxY }`. -/
def conR (name : String) (t : ConTypes) (minX maxX minY maxY : ℚ) : Con :=
  { mName := some name, mType := t, mRangeMinX := minX, mRangeMaxX := maxX,
    mRangeMinY := minY, mRangeMaxY := maxY }

/-- The static table `metaNodes[18]` of `GetMetaNodes`, entry by entry. -/
def metaNodes : List MetaNode := [
  ⟨"Circle", hcGenerator, [Con.zero], [con "Out" Con_Float4],
    [conR "Radius" Con_Float 0 1 0 0, con "T" Con_Float]⟩,
  ⟨"Transform", hcTransform, [con "In" Con_Float4], [con "Out" Con_Float4],
    [conR "Translate" Con_Float2 1 0 1 0, con "Rotation" Con_Angle, con "Scale" Con_Float]⟩,
  ⟨"Square", hcGenerator, [Con.zero], [con "Out" Con_Float4],
    [con "Width" Con_Float]⟩,
  ⟨"Checker", hcGenerator, [Con.zero], [con "Out" Con_Float4],
    []⟩,
  ⟨"Sine", hcGenerator, [con "In" Con_Float4], [con "Out" Con_Float4],
    [con "Frequency" Con_Float, con "Angle" Con_Angle]⟩,
  ⟨"SmoothStep", hcFilter, [con "In" Con_Float4], [con "Out" Con_Float4],
    [con "Low" Con_Float, con "High" Con_Float]⟩,
  ⟨"Pixelize", hcTransform, [con "In" Con_Float4], [con "Out" Con_Float4],
    [con "scale" Con_Float]⟩,
  ⟨"Blur", hcFilter, [con "In" Con_Float4], [con "Out" Con_Float4],
    [con "angle" Con_Angle, con "strength" Con_Float]⟩,
  ⟨"NormalMap", hcFilter, [con "In" Con_Float4], [con "Out" Con_Float4],
    [con "spread" Con_Float]⟩,
  ⟨"LambertMaterial", hcMaterial, [con "Diffuse" Con_Float4, con "Normal" Con_Float4],
    [con "Out" Con_Float4],
    [conR "view" Con_Float2 1 0 0 1]⟩,
  ⟨"MADD", hcBlend, [con "In" Con_Float4], [con "Out" Con_Float4],
    [con "Mul Color" Con_Color4, con "Add Color" Con_Color4]⟩,
  ⟨"Hexagon", hcGenerator, [con "In" Con_Float4], [con "Out" Con_Float4],
    []⟩,
  ⟨"Blend", hcBlend, [con "A" Con_Float4, con "B" Con_Float4], [con "Out" Con_Float4],
    [con "A" Con_Float4, con "B" Con_Float4,
     { mName := some "Operation", mType := Con_Enum,
       mEnumList := some "Add\x00Mul\x00Min\x00Max\x00" }]⟩,
  ⟨"Invert", hcFilter, [con "In" Con_Float4], [con "Out" Con_Float4],
    []⟩,
  ⟨"CircleSplatter", hcGenerator, [con "In" Con_Float4], [con "Out" Con_Float4],
    [con "Distance" Con_Float2, con "Radius" Con_Float2, con "Angle" Con_Angle2,
     con "Count" Con_Float]⟩,
  ⟨"Ramp", hcFilter, [con "In" Con_Float4], [con "Out" Con_Float4],
    [con "Ramp" Con_Ramp]⟩,
  ⟨"Tile", hcTransform, [con "In" Con_Float4], [con "Out" Con_Float4],
    [con "Scale" Con_Float, con "Offset 0" Con_Float2, con "Offset 1" Con_Float2,
     con "Overlap" Con_Float2]⟩,
  ⟨"Color", hcGenerator, [], [con "Out" Con_Float4],
    [con "Color" Con_Color4]⟩ ]

/-- The value `metaNodeCount = 18` that `GetMetaNodes` reports. -/
def metaNodeCount : Nat := 18

/-- The read `metaNodes[typeIndex]` on the pointer returned by `GetMetaNodes`: the
table entry for an index below 18; the program never checks the index, and a read
outside the 18-entry table is not defined (`none`). -/
def GetMetaNodes (typeIndex : Nat) : Option MetaNode :=
  metaNodes[typeIndex]?

/-- The read `param[i]` in a `Con` array, for `i < MaxCon`: the initialiser when
there is one, a zero element otherwise. -/
def conAt (mParams : List Con) (i : Nat) : Con :=
  match mParams[i]? with
  | some c => c
  | none => Con.zero

/-! ## `ComputeParamMemSize` -/

/-- The overload `ComputeParamMemSize(int paramType)`, with `sizeof(float) = 4`
and `sizeof(int) = 4`; a type without a `case` adds nothing. -/
def ComputeParamMemSizeOfType (paramType : ConTypes) : Nat :=
  match paramType with
  | Con_Angle | Con_Float => 4
  | Con_Angle2 | Con_Float2 => 4 * 2
  | Con_Angle3 | Con_Float3 => 4 * 3
  | Con_Angle4 | Con_Color4 | Con_Float4 => 4 * 4
  | Con_Ramp => 4 * 2 * 8
  | Con_Enum | Con_Int => 4
  | Con_Structure | Con_Any => 0

/-- The loop of `ComputeParamMemSize(size_t typeIndex)`: `left` iterations remain
(`i = MaxCon - left`), `res` is the running sum; it stops at the first null name. -/
def ComputeParamMemSize.loop (mParams : List Con) : Nat → Nat → Nat → Nat
  | 0, _, res => res
  | left + 1, i, res =>
    match (conAt mParams i).mName with
    | none => res
    | some _ =>
      ComputeParamMemSize.loop mParams left (i + 1)
        (res + ComputeParamMemSizeOfType (conAt mParams i).mType)

/-- The overload `ComputeParamMemSize(size_t typeIndex)`. -/
def ComputeParamMemSize (E : Env) (typeIndex : Nat) : Option Nat := do
  let metaNode ← GetMetaNodes typeIndex
  pure (ComputeParamMemSize.loop metaNode.mParams E.MaxCon 0 0)

/-- The named parameter fields of a node type, in declared order up to the first
unnamed one (the reading of the type descriptor that the specification uses). -/
def namedParams (m : MetaNode) : List Con :=
  m.mParams.takeWhile (fun c => c.mName.isSome)

/-- The sum of the per-field sizes of a field list. -/
def sumFieldSizes (fields : List Con) : Nat :=
  (fields.map (fun c => ComputeParamMemSizeOfType c.mType)).sum

/-! ## Parameter blocks and `sprintf` -/

/-- A byte of a parameter block. -/
abbrev Byte := Fin 256

/-- The unsigned 32-bit word whose little-endian bytes are `b0 b1 b2 b3`. -/
def word32 (b0 b1 b2 b3 : Byte) : Nat :=
  b0.val + 2 ^ 8 * b1.val + 2 ^ 16 * b2.val + 2 ^ 24 * b3.val

/-- The read `((float*)paramBuffer)[k]`, `paramBuffer` pointing `off` bytes into the
block: the 32 bits of the float, or `none` if one of its bytes is outside the block. -/
def readFloat (block : List Byte) (off k : Nat) : Option Nat := do
  let b0 ← block[off + 4 * k]?
  let b1 ← block[off + 4 * k + 1]?
  let b2 ← block[off + 4 * k + 2]?
  let b3 ← block[off + 4 * k + 3]?
  pure (word32 b0 b1 b2 b3)

/-- The value of a 32-bit word read as a two's-complement `int`. -/
def toInt32 (w : Nat) : Int := if w < 2 ^ 31 then (w : Int) else (w : Int) - 2 ^ 32

/-- The read `*(int*)paramBuffer`. -/
def readInt (block : List Byte) (off : Nat) : Option Int :=
  (readFloat block off 0).map toInt32

/-- The character of a decimal digit. -/
def digitChar (d : Nat) : Char := Char.ofNat (48 + d)

/-- The decimal digits of `n`, most significant first, computed with `fuel` steps
at most (`n + 1` steps are always enough). -/
def decimalDigits : Nat → Nat → List Char
  | 0, _ => []
  | fuel + 1, n =>
    if n < 10 then [digitChar n]
    else decimalDigits fuel (n / 10) ++ [digitChar (n % 10)]

/-- The decimal text of a natural number, as `printf` writes it. -/
def printNat (n : Nat) : String := ⟨decimalDigits (n + 1) n⟩

/-- `printf("%d", i)`: the decimal text of an `int`, with `-` for a negative one. -/
def printf_d (i : Int) : String :=
  if i < 0 then "-" ++ printNat i.natAbs else printNat i.natAbs

/-- The six digits after the decimal point for a fraction of `n` millionths. -/
def sixDigits (n : Nat) : String :=
  let ds := decimalDigits (n + 1) n
  ⟨List.replicate (6 - ds.length) '0' ++ ds⟩

/-- `printf("%f", x)` for the float with the 32 bits `bits` (IEEE 754 binary32, passed
as a `double`, which holds it exactly): sign, integer part, `.` and six decimals, the
exact value being rounded to the nearest millionth, ties to even; `inf` and `nan` for
the exponent 255. The value is `num / 2^149` with `num` as below. -/
def printf_f (bits : Nat) : String :=
  let sign := bits / 2 ^ 31 % 2
  let e := bits / 2 ^ 23 % 2 ^ 8
  let m := bits % 2 ^ 23
  let s := if sign = 1 then "-" else ""
  if e = 255 then
    s ++ (if m = 0 then "inf" else "nan")
  else
    let num := if e = 0 then m else (2 ^ 23 + m) * 2 ^ (e - 1)
    let q := num * 10 ^ 6 / 2 ^ 149
    let r := num * 10 ^ 6 % 2 ^ 149
    let n := if 2 ^ 149 < 2 * r ∨ (2 * r = 2 ^ 149 ∧ q % 2 = 1) then q + 1 else q
    s ++ printNat (n / 10 ^ 6) ++ "." ++ sixDigits (n % 10 ^ 6)

/-! ## `ComputeFunctionCall` -/

/-- The struct `ImogenNode`; `mParams` is the block that `malloc` returned. -/
structure ImogenNode where
  mType : Nat
  mEvaluationTexture : Nat
  mParams : List Byte
  deriving DecidableEq

/-- The reads `((float*)paramBuffer)[k]`, ..., `((float*)paramBuffer)[k + n - 1]`, in
this order. -/
def readFloats (block : List Byte) (off : Nat) : Nat → Nat → Option (List Nat)
  | _, 0 => some []
  | k, n + 1 => do
    let f ← readFloat block off k
    let rest ← readFloats block off (k + 1) n
    pure (f :: rest)

/-- The `sprintf` of the `Con_Ramp` case, `f` being its sixteen float arguments
(`f.getD k 0` is argument `k`). -/
def sprintfRamp (f : List Nat) : String :=
  ",vec2[](vec2(" ++ printf_f (f.getD 0 0) ++ "," ++ printf_f (f.getD 1 0)
    ++ "),vec2(" ++ printf_f (f.getD 2 0) ++ "," ++ printf_f (f.getD 3 0)
    ++ "),vec2(" ++ printf_f (f.getD 4 0) ++ "," ++ printf_f (f.getD 5 0)
    ++ "),vec2(" ++ printf_f (f.getD 6 0) ++ "," ++ printf_f (f.getD 7 0)
    ++ "),vec2(" ++ printf_f (f.getD 8 0) ++ "," ++ printf_f (f.getD 9 0)
    ++ "),vec2(" ++ printf_f (f.getD 10 0) ++ "," ++ printf_f (f.getD 11 0)
    ++ "),vec2(" ++ printf_f (f.getD 12 0) ++ "," ++ printf_f (f.getD 13 0)
    ++ "),vec2(" ++ printf_f (f.getD 14 0) ++ "," ++ printf_f (f.getD 15 0) ++ "))"

/-- The `switch` of `ComputeFunctionCall` for one parameter, the size of `tmps` left
aside: the characters that its `sprintf` formats, from the floats it reads;
`paramBuffer` points `off` bytes into `block`. A type without a `case` formats
nothing, and the characters are those that `tmps` held. -/
def ComputeFunctionCall.format (t : ConTypes) (block : List Byte) (off : Nat)
    (tmps : String) : Option String :=
  match t with
  | Con_Angle | Con_Float => do
    let f0 ← readFloat block off 0
    pure ("," ++ printf_f f0)
  | Con_Angle2 | Con_Float2 => do
    let f0 ← readFloat block off 0
    let f1 ← readFloat block off 1
    pure (",vec2(" ++ printf_f f0 ++ ", " ++ printf_f f1 ++ ")")
  | Con_Angle3 | Con_Float3 => do
    let f0 ← readFloat block off 0
    let f1 ← readFloat block off 1
    let f2 ← readFloat block off 2
    pure (",vec3(" ++ printf_f f0 ++ ", " ++ printf_f f1 ++ ", " ++ printf_f f2 ++ ")")
  | Con_Angle4 | Con_Color4 | Con_Float4 => do
    let f0 ← readFloat block off 0
    let f1 ← readFloat block off 1
    let f2 ← readFloat block off 2
    let f3 ← readFloat block off 3
    pure (",vec4(" ++ printf_f f0 ++ ", " ++ printf_f f1 ++ ", " ++ printf_f f2 ++ ", "
      ++ printf_f f3 ++ ")")
  | Con_Enum | Con_Int => do
    let i0 ← readInt block off
    pure ("," ++ printf_d i0)
  | Con_Ramp => do
    let f ← readFloats block off 0 16
    pure (sprintfRamp f)
  | Con_Structure | Con_Any => some tmps

/-- The `switch` of `ComputeFunctionCall` for one parameter: the content of `tmps`
after it, as `call += tmps` reads it. The array is `char tmps[512]`: it holds a text
of 511 characters at most and the terminating zero; `sprintf` does not look at the
size, and a longer text is written past the end of the array, which is not defined
(`none`). -/
def ComputeFunctionCall.sprintf (t : ConTypes) (block : List Byte) (off : Nat)
    (tmps : String) : Option String := do
  let text ← ComputeFunctionCall.format t block off tmps
  if text.length < 512 then some text else none

/-- The loop of `ComputeFunctionCall`: `left` iterations remain, `param` is element
`i` of the array, `paramBuffer` points `off` bytes into `block`, `tmps` and `call`
are the two strings. -/
def ComputeFunctionCall.loop (mParams : List Con) (block : List Byte) :
    Nat → Nat → Nat → String → String → Option String
  | 0, _, _, _, call => some call
  | left + 1, i, off, tmps, call =>
    match (conAt mParams i).mName with
    | none => some call
    | some _ => do
      let tmps' ← ComputeFunctionCall.sprintf (conAt mParams i).mType block off tmps
      ComputeFunctionCall.loop mParams block left (i + 1)
        (off + ComputeParamMemSizeOfType (conAt mParams i).mType) tmps' (call ++ tmps')

/-- The function `ComputeFunctionCall(index)`. -/
def ComputeFunctionCall (E : Env) (mNodes : List ImogenNode) (index : Nat) :
    Option String := do
  let node ← mNodes[index]?
  let metaNode ← GetMetaNodes node.mType
  let call := metaNode.mName ++ "(vUV"
  let call ← ComputeFunctionCall.loop metaNode.mParams node.mParams E.MaxCon 0 0 E.tmps call
  pure (call ++ ")")

/-! ### The call string as the specification describes it -/

/-- Float number `k` of a field, from the bytes of the field alone. -/
def floatOf (bytes : List Byte) (k : Nat) : Nat :=
  word32 (bytes.getD (4 * k) 0) (bytes.getD (4 * k + 1) 0) (bytes.getD (4 * k + 2) 0)
    (bytes.getD (4 * k + 3) 0)

/-- The literal of one field, from the bytes of the field: a scalar, `vec2(..)`,
`vec3(..)`, `vec4(..)`, an integer, or the 8-element `vec2[]` array of a ramp. -/
def fieldLiteral (t : ConTypes) (bytes : List Byte) : String :=
  let f := fun k => printf_f (floatOf bytes k)
  match t with
  | Con_Angle | Con_Float => f 0
  | Con_Angle2 | Con_Float2 => "vec2(" ++ f 0 ++ ", " ++ f 1 ++ ")"
  | Con_Angle3 | Con_Float3 => "vec3(" ++ f 0 ++ ", " ++ f 1 ++ ", " ++ f 2 ++ ")"
  | Con_Angle4 | Con_Color4 | Con_Float4 =>
    "vec4(" ++ f 0 ++ ", " ++ f 1 ++ ", " ++ f 2 ++ ", " ++ f 3 ++ ")"
  | Con_Enum | Con_Int => printf_d (toInt32 (floatOf bytes 0))
  | Con_Ramp =>
    "vec2[](" ++ String.intercalate ","
      ((List.range 8).map (fun j => "vec2(" ++ f (2 * j) ++ "," ++ f (2 * j + 1) ++ ")"))
      ++ ")"
  | Con_Structure | Con_Any => ""

/-- The strings in a list, one after the other. -/
def concat : List String → String
  | [] => ""
  | s :: rest => s ++ concat rest

/-- The `,`-prefixed literals of a field list over a block: each field takes its own
bytes from the front of the block, in declared order. -/
def callLiterals : List Con → List Byte → List String
  | [], _ => []
  | c :: rest, block =>
    ("," ++ fieldLiteral c.mType (block.take (ComputeParamMemSizeOfType c.mType)))
      :: callLiterals rest (block.drop (ComputeParamMemSizeOfType c.mType))

/-- The call string of a node type over a block, in the shape the specification
gives: `Name(vUV`, the literals of the named fields, `)`. -/
def callString (m : MetaNode) (block : List Byte) : String :=
  m.mName ++ "(vUV" ++ concat (callLiterals (namedParams m) block) ++ ")"

/-- A type that `ComputeFunctionCall` has a `case` for. -/
def hasLiteral (t : ConTypes) : Bool :=
  match t with
  | Con_Structure | Con_Any => false
  | _ => true


/-- An environment with `MaxCon = 32` and an empty `tmps`, for evaluating the
definitions. -/
def Env.sample : Env := ⟨32, ""⟩

/-! ## Evaluation stages (`Evaluation.h`) -/

/-- The struct `Input`: the input slots of a stage, each holding the index of the
producing stage, or -1 when unconnected. -/
structure Input where
  mInputs : List Int
  deriving DecidableEq

/-- The call `memset(p, c, n)`: the `n` bytes at `p`, each set to `c` converted to
`unsigned char`. -/
def memset (c : Int) (n : Nat) : List Byte :=
  List.replicate n (Fin.ofNat (c % 256).toNat)

/-- The elements of an `int` array of `n` elements stored in `bytes` (four bytes each,
little-endian, two's complement). -/
def intsOf (bytes : List Byte) (n : Nat) : List Int :=
  (List.range n).map (fun k => toInt32 (floatOf bytes k))

/-- The constructor `Input::Input()`: `memset(mInputs, -1, sizeof(int) * 8)` on the
array `int mInputs[8]`. -/
def Input.new : Input := ⟨intsOf (memset (-1) (4 * 8)) 8⟩

/-- The struct `EvaluationStage`, reduced to the members the delegate acts on: the
input slots, and the call string registered for the stage. -/
structure EvaluationStage where
  mInput : Input
  mCall : String
  deriving DecidableEq

/-- The struct `Evaluation`, reduced to its stages (`mStages`). -/
structure Evaluation where
  mStages : List EvaluationStage
  deriving DecidableEq

/-- Modelled from the spec: `AddEvaluationTarget` is called by `AddNode` and is not
part of these sources. It is the specification's `AddEvaluation`: it "appends a stage"
and "returns the new stage index". The new stage has no input connected and no call
string yet. -/
def AddEvaluationTarget (ev : Evaluation) : Evaluation × Nat :=
  (⟨ev.mStages ++ [⟨Input.new, ""⟩]⟩, ev.mStages.length)

/-- Modelled from the spec: `SetEvaluationCall` is called by the delegate and is not
part of these sources. It registers the "call string" of a stage, the "generated
textual invocation of a node's backend function from its current parameter buffer";
a target that is no stage is left alone. -/
def SetEvaluationCall (ev : Evaluation) (target : Nat) (call : String) : Evaluation :=
  match ev.mStages[target]? with
  | some stage => ⟨ev.mStages.set target { stage with mCall := call }⟩
  | none => ev

/-- The renumbering of one input slot when stage `target` is deleted, in the words of
the specification: a slot equal to `target` is "cleared to unconnected (sentinel)",
a slot "referencing an index greater than target" is "decremented by one". -/
def renumberInput (target : Nat) (slot : Int) : Int :=
  if slot = target then -1
  else if (target : Int) < slot then slot - 1
  else slot

/-- Modelled from the spec: `DelEvaluationTarget` (`Evaluation::UserDeleteEvaluation`,
declared in `Evaluation.h`) is called by `DeleteNode` and its body is not part of these
sources. It is the specification's `DeleteEvaluation(target)`: it "removes the stage at
target" and renumbers every input slot of every remaining stage. -/
def DelEvaluationTarget (ev : Evaluation) (target : Nat) : Evaluation :=
  ⟨(ev.mStages.eraseIdx target).map
    (fun stage => { stage with mInput := ⟨stage.mInput.mInputs.map (renumberInput target)⟩ })⟩

/-! ## The delegate -/

/-- The state of a `TileNodeEditGraphDelegate`: its nodes, the selected node
(`mSelectedNodeIndex`, a member of the base class), and the evaluation it drives. -/
structure TileNodeEditGraphDelegate where
  mNodes : List ImogenNode
  mSelectedNodeIndex : Nat
  evaluation : Evaluation
  deriving DecidableEq

/-- The function `GetParamBlock(index, paramBlockSize)`: the block the returned pointer
points to, and the value stored in `paramBlockSize`. -/
def GetParamBlock (E : Env) (d : TileNodeEditGraphDelegate) (index : Nat) :
    Option (List Byte × Nat) := do
  let node ← d.mNodes[index]?
  let paramBlockSize ← ComputeParamMemSize E node.mType
  pure (node.mParams, paramBlockSize)

/-- The call `memcpy(dst, src, n)`: the first `n` bytes of `dst` become those of `src`;
not defined when one of the two blocks has fewer than `n` bytes. -/
def memcpy (dst src : List Byte) (n : Nat) : Option (List Byte) :=
  if n ≤ dst.length ∧ n ≤ src.length then some (src.take n ++ dst.drop n) else none

/-- The function `SetParamBlock(index, paramBlock)`. -/
def SetParamBlock (E : Env) (d : TileNodeEditGraphDelegate) (index : Nat)
    (paramBlock : List Byte) : Option TileNodeEditGraphDelegate := do
  let node ← d.mNodes[index]?
  let size ← ComputeParamMemSize E node.mType
  let params ← memcpy node.mParams paramBlock size
  let mNodes := d.mNodes.set index { node with mParams := params }
  let call ← ComputeFunctionCall E mNodes index
  pure { d with
    mNodes := mNodes
    evaluation := SetEvaluationCall d.evaluation node.mEvaluationTexture call }

/-- The function `AddNode(type)`: `malloc` gives a block of `paramsSize` bytes and
`memset` zeroes it. -/
def AddNode (E : Env) (d : TileNodeEditGraphDelegate) (type : Nat) :
    Option TileNodeEditGraphDelegate := do
  let index := d.mNodes.length
  let (evaluation, target) := AddEvaluationTarget d.evaluation
  let paramsSize ← ComputeParamMemSize E type
  let node : ImogenNode := ⟨type, target, List.replicate paramsSize 0⟩
  let mNodes := d.mNodes ++ [node]
  let call ← ComputeFunctionCall E mNodes index
  pure { d with
    mNodes := mNodes
    evaluation := SetEvaluationCall evaluation node.mEvaluationTexture call }

/-- The function `DeleteNode(index)`; `erase` is not defined for an index that is no
node. -/
def DeleteNode (d : TileNodeEditGraphDelegate) (index : Nat) :
    Option TileNodeEditGraphDelegate :=
  if index < d.mNodes.length then
    some { d with
      evaluation := DelEvaluationTarget d.evaluation index
      mNodes := (d.mNodes.eraseIdx index).map (fun node =>
        if index < node.mEvaluationTexture then
          { node with mEvaluationTexture := node.mEvaluationTexture - 1 }
        else node) }
  else none

/-- A delegate without nodes. -/
def TileNodeEditGraphDelegate.empty : TileNodeEditGraphDelegate := ⟨[], 0, ⟨[]⟩⟩

/-- The type of the field that byte `p` of a block belongs to, the fields lying one
after the other from the start of the block. -/
def fieldTypeAt : List Con → Nat → Option ConTypes
  | [], _ => none
  | c :: rest, p =>
    if p < ComputeParamMemSizeOfType c.mType then some c.mType
    else fieldTypeAt rest (p - ComputeParamMemSizeOfType c.mType)

/-! ## `EvaluationMask` -/

/-- The enumerator `EvaluationC = 1 << 0`. -/
def EvaluationC : Nat := 1 <<< 0

/-- The enumerator `EvaluationGLSL = 1 << 1`. -/
def EvaluationGLSL : Nat := 1 <<< 1

/-- The enumerator `EvaluationPython = 1 << 2`. -/
def EvaluationPython : Nat := 1 <<< 2

/-- The enumerator `EvaluationGLSLCompute = 1 << 3`. -/
def EvaluationGLSLCompute : Nat := 1 <<< 3

/-- The mask (`gEvaluationMask`) of a set of backends: the bitwise OR of the flags of
the backends in the set. -/
def evaluationMaskOf (c glsl python compute : Bool) : Nat :=
  (if c then EvaluationC else 0) ||| (if glsl then EvaluationGLSL else 0)
    ||| (if python then EvaluationPython else 0)
    ||| (if compute then EvaluationGLSLCompute else 0)

/-- The test `mask & flag` of one flag of a mask. -/
def hasEvaluation (mask flag : Nat) : Bool := mask &&& flag != 0

/-- The float type with as many components as an angle type; the other types are left
as they are. -/
def asFloat (t : ConTypes) : ConTypes :=
  match t with
  | Con_Angle => Con_Float
  | Con_Angle2 => Con_Float2
  | Con_Angle3 => Con_Float3
  | Con_Angle4 => Con_Float4
  | t => t

/-! ## `Image_t` -/

/-- The struct `Image_t`, reduced to the buffer it owns and the recorded size:
`mBits` is the block `mBits` points to (`none` for `NULL`), `mDataSize` a `uint32_t`. -/
structure Image_t where
  mBits : Option (List Byte)
  mDataSize : Nat
  deriving DecidableEq

/-- The constructor `Image_t()`: `mBits(NULL), mDataSize(0)`. -/
def Image_t.new : Image_t := ⟨none, 0⟩

/-- The call `malloc(size)`: a block of `size` bytes, whose content (`content p` at
byte `p`) the program does not choose. -/
def malloc (content : Nat → Byte) (size : Nat) : List Byte :=
  (List.range size).map content

/-- The function `Image_t::Allocate(size)`, `size` being a `size_t`. When
`mDataSize != size` the old block is released by `free`, otherwise it stays allocated;
either way the members no longer refer to it afterwards: `mBits` becomes the new block
and `mDataSize = uint32_t(size)` keeps the low 32 bits of `size`. -/
def Image_t.Allocate (content : Nat → Byte) (_image : Image_t) (size : Nat) : Image_t :=
  { mBits := some (malloc content size)
    mDataSize := size % 2 ^ 32 }

/-- The function `Image_t::SetBits(bits, size)`: `Allocate(size)`, then
`memcpy(mBits, bits, size)`. -/
def Image_t.SetBits (content : Nat → Byte) (image : Image_t) (bits : List Byte)
    (size : Nat) : Option Image_t := do
  let allocated := Image_t.Allocate content image size
  let block ← allocated.mBits
  let copied ← memcpy block bits size
  pure { allocated with mBits := some copied }

/-- The function `Image_t::Free()`: `free(mBits); mBits = NULL; mDataSize = 0`. -/
def Image_t.Free (_image : Image_t) : Image_t :=
  { mBits := none, mDataSize := 0 }

/-! ## `SetMouseRatios` -/

/-- The four little-endian bytes of a 32-bit word. -/
def bytes32 (w : Nat) : List Byte :=
  [Fin.ofNat w, Fin.ofNat (w / 2 ^ 8), Fin.ofNat (w / 2 ^ 16), Fin.ofNat (w / 2 ^ 24)]

/-- The assignment of the float with the 32 bits `bits` at byte offset `o` of a block:
its four bytes replace those at `o`, ..., `o + 3`; not defined when they are not all
inside the block (`none`, which later assignments keep). -/
def storeFloat (buf : Option (List Byte)) (o : Nat) (bits : Nat) : Option (List Byte) :=
  match buf with
  | none => none
  | some block =>
    if o + 4 ≤ block.length then
      some (block.take o ++ bytes32 bits ++ block.drop (o + 4))
    else none

/-- The loop of `SetMouseRatios`, `rx` and `ry` being the 32 bits of the two float
arguments: `paramFlt[0]` is at the offset `off` of `paramBuffer`, `paramFlt[1]` at
`off + 4`. The function `ImLerp` belongs to imgui and is not part of the sources:
`lerp a b t` stands for the 32 bits of the float that `ImLerp(a, b, t)` returns for the
range bounds `a`, `b` of the table and the ratio of bits `t` (the definition `ImLerp`
further down gives them in binary32, wherever the result is a number). -/
def SetMouseRatios.loop (lerp : ℚ → ℚ → Nat → Nat) (mParams : List Con)
    (rx ry : Nat) : Nat → Nat → Nat → Option (List Byte) → Option (List Byte)
  | 0, _, _, buf => buf
  | left + 1, i, off, buf =>
    match (conAt mParams i).mName with
    | none => buf
    | some _ =>
      let buf1 :=
        if (conAt mParams i).mRangeMinX ≠ 0 ∨ (conAt mParams i).mRangeMaxX ≠ 0 then
          storeFloat buf off
            (lerp (conAt mParams i).mRangeMinX (conAt mParams i).mRangeMaxX rx)
        else buf
      let buf2 :=
        if (conAt mParams i).mRangeMinY ≠ 0 ∨ (conAt mParams i).mRangeMaxY ≠ 0 then
          storeFloat buf1 (off + 4)
            (lerp (conAt mParams i).mRangeMinY (conAt mParams i).mRangeMaxY ry)
        else buf1
      SetMouseRatios.loop lerp mParams rx ry left (i + 1)
        (off + ComputeParamMemSizeOfType (conAt mParams i).mType) buf2

/-- The function `SetMouseRatios(rx, ry)`, on the selected node. -/
def SetMouseRatios (E : Env) (lerp : ℚ → ℚ → Nat → Nat) (d : TileNodeEditGraphDelegate)
    (rx ry : Nat) : Option TileNodeEditGraphDelegate := do
  let node ← d.mNodes[d.mSelectedNodeIndex]?
  let metaNode ← GetMetaNodes node.mType
  let params ← SetMouseRatios.loop lerp metaNode.mParams rx ry E.MaxCon 0 0
    (some node.mParams)
  let mNodes := d.mNodes.set d.mSelectedNodeIndex { node with mParams := params }
  let call ← ComputeFunctionCall E mNodes d.mSelectedNodeIndex
  pure { d with
    mNodes := mNodes
    evaluation := SetEvaluationCall d.evaluation node.mEvaluationTexture call }

/-- The writes of `SetMouseRatios` field by field, over a field list: for each field
in order, the X write at the offset of the field, the Y write 4 bytes further, then
on to the next field. -/
def SetMouseRatios.onFields (lerp : ℚ → ℚ → Nat → Nat) (rx ry : Nat) :
    List Con → Nat → Option (List Byte) → Option (List Byte)
  | [], _, buf => buf
  | c :: rest, off, buf =>
    let buf1 :=
      if c.mRangeMinX ≠ 0 ∨ c.mRangeMaxX ≠ 0 then
        storeFloat buf off (lerp c.mRangeMinX c.mRangeMaxX rx)
      else buf
    let buf2 :=
      if c.mRangeMinY ≠ 0 ∨ c.mRangeMaxY ≠ 0 then
        storeFloat buf1 (off + 4) (lerp c.mRangeMinY c.mRangeMaxY ry)
      else buf1
    SetMouseRatios.onFields lerp rx ry rest (off + ComputeParamMemSizeOfType c.mType) buf2

/-- The call string registered for the evaluation target of node `index`. -/
def registeredCall (d : TileNodeEditGraphDelegate) (index : Nat) : Option String := do
  let node ← d.mNodes[index]?
  let stage ← d.evaluation.mStages[node.mEvaluationTexture]?
  pure stage.mCall

/-- A field with an X range other than (0,0): the test
`mRangeMinX != 0.f || mRangeMaxX != 0.f` of `SetMouseRatios`. -/
def hasRangeX (c : Con) : Prop := c.mRangeMinX ≠ 0 ∨ c.mRangeMaxX ≠ 0

/-- A field with a Y range other than (0,0): the test
`mRangeMinY != 0.f || mRangeMaxY != 0.f` of `SetMouseRatios`. -/
def hasRangeY (c : Con) : Prop := c.mRangeMinY ≠ 0 ∨ c.mRangeMaxY ≠ 0

instance (c : Con) : Decidable (hasRangeX c) := by unfold hasRangeX; infer_instance

instance (c : Con) : Decidable (hasRangeY c) := by unfold hasRangeY; infer_instance

/-! ## The reads of `ComputeFunctionCall` -/

/-- The bytes of the block that the read `((float*)paramBuffer)[k]` (or `*(int*)paramBuffer`
for `k = 0`) accesses, `paramBuffer` pointing `off` bytes into the block. -/
def floatReads (off k : Nat) : List Nat :=
  [off + 4 * k, off + 4 * k + 1, off + 4 * k + 2, off + 4 * k + 3]

/-- The number of floats (one `int` for an int or enum) that the `switch` of
`ComputeFunctionCall` reads for a parameter of type `t`: the elements 0, ..., n - 1
of `(float*)paramBuffer`. -/
def ComputeFunctionCall.floatsRead (t : ConTypes) : Nat :=
  match t with
  | Con_Angle | Con_Float => 1
  | Con_Angle2 | Con_Float2 => 2
  | Con_Angle3 | Con_Float3 => 3
  | Con_Angle4 | Con_Color4 | Con_Float4 => 4
  | Con_Enum | Con_Int => 1
  | Con_Ramp => 16
  | Con_Structure | Con_Any => 0

/-- The bytes of the block that the `switch` of `ComputeFunctionCall` accesses for a
parameter of type `t`, `paramBuffer` pointing `off` bytes into the block. -/
def ComputeFunctionCall.reads (t : ConTypes) (off : Nat) : List Nat :=
  (List.range (ComputeFunctionCall.floatsRead t)).flatMap (floatReads off)

/-- The loop of `ComputeFunctionCall`, keeping the pointer only: for each parameter
visited, the offset of `paramBuffer` when its `switch` runs and its type; and the
offset of `paramBuffer` when the loop ends. -/
def ComputeFunctionCall.cursor (mParams : List Con) :
    Nat → Nat → Nat → List (Nat × ConTypes) × Nat
  | 0, _, off => ([], off)
  | left + 1, i, off =>
    match (conAt mParams i).mName with
    | none => ([], off)
    | some _ =>
      let rest := ComputeFunctionCall.cursor mParams left (i + 1)
        (off + ComputeParamMemSizeOfType (conAt mParams i).mType)
      ((off, (conAt mParams i).mType) :: rest.1, rest.2)

/-- The `switch` of `ComputeFunctionCall` run at each of the given offsets, with the
given parameter types, in order, `tmps` being appended to `call` after each. -/
def ComputeFunctionCall.run (block : List Byte) :
    List (Nat × ConTypes) → String → String → Option String
  | [], _, call => some call
  | (off, t) :: rest, tmps, call => do
    let tmps' ← ComputeFunctionCall.sprintf t block off tmps
    ComputeFunctionCall.run block rest tmps' (call ++ tmps')

/-- The literals of a field list over a block fit `tmps`: with its `,` each has 511
characters at most. -/
def literalsFit (fields : List Con) (block : List Byte) : Prop :=
  ∀ s ∈ callLiterals fields block, s.length < 512

instance (fields : List Con) (block : List Byte) : Decidable (literalsFit fields block) := by
  unfold literalsFit; infer_instance

/-- The 32 bits of `FLT_MAX`, the largest finite float (about 3.4e38). -/
def FLT_MAX : Nat := 0x7F7FFFFF

/-- A block of 64 bytes holding sixteen floats, each `FLT_MAX`. -/
def rampOfMax : List Byte := (List.replicate 16 (bytes32 FLT_MAX)).flatten

/-! ## Floats: IEEE 754 binary32 on the 32 bits

A float is its 32 bits. The four operations round to nearest, a tie going to the even
fraction, each on its own (`float` expressions evaluated in `float`). When the result
is a not-a-number the 32 bits depend on the hardware: that case is `none`. -/

/-- The sign bit of a float. -/
def f32.sign (x : Nat) : Nat := x / 2 ^ 31 % 2

/-- The exponent field of a float. -/
def f32.exp (x : Nat) : Nat := x / 2 ^ 23 % 2 ^ 8

/-- The fraction field of a float. -/
def f32.man (x : Nat) : Nat := x % 2 ^ 23

/-- A float that is no number: exponent field 255, fraction not zero. -/
def f32.isNaN (x : Nat) : Bool := f32.exp x = 255 && f32.man x ≠ 0

/-- An infinite float: exponent field 255, fraction zero. -/
def f32.isInf (x : Nat) : Bool := f32.exp x = 255 && f32.man x = 0

/-- The magnitude of a finite float in units of `2^-149`: its value is
`(-1)^sign * num / 2^149`. -/
def f32.num (x : Nat) : Nat :=
  if f32.exp x = 0 then f32.man x else (2 ^ 23 + f32.man x) * 2 ^ (f32.exp x - 1)

/-- The quotient `n / d` rounded to the nearest natural number, a tie going to the even
one. -/
def roundHalfEven (n d : Nat) : Nat :=
  if d < 2 * (n % d) ∨ (2 * (n % d) = d ∧ n / d % 2 = 1) then n / d + 1 else n / d

/-- The largest `b` among `23 + k`, ..., `24` with `2^b * d ≤ n * 2^149`, and 23 when
there is none: for `n / d` at least `2^-125`, the position of its leading bit above
`2^-149`. -/
def f32.findExp (n d : Nat) : Nat → Nat
  | 0 => 23
  | k + 1 => if 2 ^ (23 + k + 1) * d ≤ n * 2 ^ 149 then 23 + k + 1 else f32.findExp n d k

/-- The 31 bits (exponent and fraction fields) of the float nearest to `n / d`, a tie
going to the even fraction; the infinite float when that float would pass the largest
finite one. -/
def f32.round (n d : Nat) : Nat :=
  let b := f32.findExp n d 254
  let bits := (b - 23) * 2 ^ 23 + roundHalfEven (n * 2 ^ 149) (d * 2 ^ (b - 23))
  if bits < 0x7F800000 then bits else 0x7F800000

/-- The float with the opposite sign. -/
def f32.neg (x : Nat) : Nat := if f32.sign x = 1 then x - 2 ^ 31 else x + 2 ^ 31

/-- The product `x * y` of two floats. -/
def f32.mul (x y : Nat) : Option Nat :=
  let s := (f32.sign x + f32.sign y) % 2 * 2 ^ 31
  if f32.isNaN x || f32.isNaN y then none
  else if f32.isInf x || f32.isInf y then
    if (f32.isInf x && f32.num y = 0) || (f32.isInf y && f32.num x = 0) then none
    else some (s + 0x7F800000)
  else some (s + f32.round (f32.num x * f32.num y) (2 ^ 298))

/-- The quotient `x / y` of two floats. -/
def f32.div (x y : Nat) : Option Nat :=
  let s := (f32.sign x + f32.sign y) % 2 * 2 ^ 31
  if f32.isNaN x || f32.isNaN y then none
  else if f32.isInf x then (if f32.isInf y then none else some (s + 0x7F800000))
  else if f32.isInf y then some s
  else if f32.num y = 0 then (if f32.num x = 0 then none else some (s + 0x7F800000))
  else some (s + f32.round (f32.num x) (f32.num y))

/-- The sum `x + y` of two floats. -/
def f32.add (x y : Nat) : Option Nat :=
  if f32.isNaN x || f32.isNaN y then none
  else if f32.isInf x then
    (if f32.isInf y && f32.sign x ≠ f32.sign y then none else some x)
  else if f32.isInf y then some y
  else if f32.sign x = f32.sign y then
    some (f32.sign x * 2 ^ 31 + f32.round (f32.num x + f32.num y) (2 ^ 149))
  else if f32.num x = f32.num y then some 0
  else if f32.num y < f32.num x then
    some (f32.sign x * 2 ^ 31 + f32.round (f32.num x - f32.num y) (2 ^ 149))
  else
    some (f32.sign y * 2 ^ 31 + f32.round (f32.num y - f32.num x) (2 ^ 149))

/-- The difference `x - y` of two floats. -/
def f32.sub (x y : Nat) : Option Nat := f32.add x (f32.neg y)

/-- The float that a literal of the rational value `q` denotes: the nearest one. -/
def f32.ofRat (q : ℚ) : Nat :=
  (if q < 0 then 2 ^ 31 else 0) + f32.round q.num.natAbs q.den

/-- Modelled from the spec: `ImLerp` belongs to imgui and its body is not part of the
sources; the specification interpolates linearly, `min + r * (max - min)`, which is
`a + (b - a) * t` of imgui, here on floats, for the range bounds `a`, `b` that the table
gives: the difference, the product and the sum are each rounded to a float. -/
def ImLerp (a b : ℚ) (t : Nat) : Option Nat := do
  let d ← f32.sub (f32.ofRat b) (f32.ofRat a)
  let p ← f32.mul d t
  f32.add (f32.ofRat a) p

/-- The constant `PI = 3.14159f`: the float nearest to 3.14159. -/
def PI : Nat := f32.round 314159 100000

/-- The function `RadToDeg`: `a * 180.f / PI`. -/
def RadToDeg (a : Nat) : Option Nat := do
  let p ← f32.mul a (f32.round 180 1)
  f32.div p PI

/-- The function `DegToRad`: `a / 180.f * PI`. -/
def DegToRad (a : Nat) : Option Nat := do
  let q ← f32.div a (f32.round 180 1)
  f32.mul q PI

/-- The `Con_Angle` case of `EditNode` on the stored float: it is turned into degrees,
handed to the widget `ImGui::InputFloat` (which may replace it by what the user
types), and turned back into radians. -/
def EditNode.angle (InputFloat : Nat → Nat) (stored : Nat) : Option Nat := do
  let shown ← RadToDeg stored
  DegToRad (InputFloat shown)

/-- The rational number that a finite float denotes. -/
def f32.toRat (x : Nat) : ℚ :=
  (if f32.sign x = 1 then -1 else 1) * (f32.num x : ℚ) / 2 ^ 149

/-- A float from zero to one: the 32 bits of `+0`, ..., `1.0` in increasing order, or
those of `-0`. -/
def f32.inUnit (t : Nat) : Prop := t ≤ 0x3F800000 ∨ t = 0x80000000

instance (t : Nat) : Decidable (f32.inUnit t) := by unfold f32.inUnit; infer_instance

/-! ## Theorems -/

theorem conAt_of_drop_cons {mParams : List Con} {i : Nat} {c : Con} {rest : List Con}
    (h : mParams.drop i = c :: rest) : conAt mParams i = c ∧ mParams.drop (i + 1) = rest := by
  have hi : i < mParams.length := by
    by_contra hge
    rw [List.drop_eq_nil_of_le (by omega)] at h
    cases h
  have hd := List.drop_eq_getElem_cons hi
  rw [hd] at h
  injection h with h1 h2
  refine ⟨?_, h2⟩
  simp [conAt, List.getElem?_eq_getElem hi, h1]

theorem conAt_of_drop_nil {mParams : List Con} {i : Nat}
    (h : mParams.drop i = []) : conAt mParams i = Con.zero := by
  have hi : mParams.length ≤ i := by
    by_contra hlt
    rw [List.drop_eq_getElem_cons (by omega)] at h
    cases h
  simp [conAt, List.getElem?_eq_none hi]

/-- The loop of `ComputeParamMemSize` adds to `res` the sizes of the named fields
from position `i` on, as soon as the remaining iterations cover them. -/
theorem ComputeParamMemSize_loop_eq (mParams : List Con) :
    ∀ (left i res : Nat),
      ((mParams.drop i).takeWhile (fun c => c.mName.isSome)).length ≤ left →
      ComputeParamMemSize.loop mParams left i res =
        res + sumFieldSizes ((mParams.drop i).takeWhile (fun c => c.mName.isSome)) := by
  intro left
  induction left with
  | zero =>
    intro i res h
    have h0 : (mParams.drop i).takeWhile (fun c => c.mName.isSome) = [] :=
      List.length_eq_zero.mp (Nat.le_zero.mp h)
    simp [ComputeParamMemSize.loop, h0, sumFieldSizes]
  | succ left ih =>
    intro i res h
    cases hd : mParams.drop i with
    | nil =>
      simp [ComputeParamMemSize.loop, conAt_of_drop_nil hd, Con.zero, sumFieldSizes]
    | cons c rest =>
      obtain ⟨hc, hrest⟩ := conAt_of_drop_cons hd
      rw [hd] at h
      cases hn : c.mName with
      | none =>
        simp [ComputeParamMemSize.loop, hc, hn, List.takeWhile, sumFieldSizes]
      | some name =>
        have htw : (c :: rest).takeWhile (fun c => c.mName.isSome)
            = c :: rest.takeWhile (fun c => c.mName.isSome) := by
          simp [List.takeWhile, hn]
        rw [htw] at h ⊢
        have hlen : ((mParams.drop (i + 1)).takeWhile (fun c => c.mName.isSome)).length ≤ left := by
          rw [hrest]; simpa using h
        have := ih (i + 1) (res + ComputeParamMemSizeOfType c.mType) hlen
        rw [hrest] at this
        simp only [ComputeParamMemSize.loop, hc, hn, this, sumFieldSizes, List.map_cons,
          List.sum_cons]
        omega

/-- An index that `GetMetaNodes` has an entry for is below 18. -/
theorem GetMetaNodes_lt {typeIndex : Nat} {m : MetaNode}
    (hm : GetMetaNodes typeIndex = some m) : typeIndex < 18 := by
  by_contra h
  rw [GetMetaNodes, List.getElem?_eq_none (by simpa [metaNodes] using h)] at hm
  cases hm

/-- Every index below 18 has an entry. -/
theorem GetMetaNodes_isSome (typeIndex : Nat) (h : typeIndex < 18) :
    ∃ m, GetMetaNodes typeIndex = some m := by
  interval_cases typeIndex <;> exact ⟨_, rfl⟩

theorem GetMetaNodes_mem {typeIndex : Nat} {m : MetaNode}
    (hm : GetMetaNodes typeIndex = some m) : m ∈ metaNodes :=
  List.getElem?_mem hm

theorem namedParams_length_le_four {typeIndex : Nat} {m : MetaNode}
    (hm : GetMetaNodes typeIndex = some m) : (namedParams m).length ≤ 4 := by
  have h : ∀ m ∈ metaNodes, (namedParams m).length ≤ 4 := by decide
  exact h m (GetMetaNodes_mem hm)

theorem ComputeParamMemSize_eq_sumFieldSizes (E : Env) (hMax : 4 ≤ E.MaxCon)
    {typeIndex : Nat} {m : MetaNode} (hm : GetMetaNodes typeIndex = some m) :
    ComputeParamMemSize E typeIndex = some (sumFieldSizes (namedParams m)) := by
  have hlen := namedParams_length_le_four hm
  have := ComputeParamMemSize_loop_eq m.mParams E.MaxCon 0 0
    (by simpa [namedParams] using le_trans hlen hMax)
  simpa [ComputeParamMemSize, hm, namedParams] using this

/-- C1. For every node type of the 18-entry table, `ComputeParamMemSize(typeIndex)`
is the sum of `ComputeParamMemSize(field type)` over the named parameter fields of
the type, in declared order up to the first unnamed field; Circle has 8 bytes,
Transform 16, Blend 36, Ramp 64 and Checker 0. -/
theorem C1_ComputeParamMemSize_sum (E : Env) (hMax : 4 ≤ E.MaxCon) :
    (∀ typeIndex, typeIndex < 18 →
      ∃ m, GetMetaNodes typeIndex = some m ∧
        ComputeParamMemSize E typeIndex = some (sumFieldSizes (namedParams m))) ∧
    ComputeParamMemSize E 0 = some 8 ∧ ComputeParamMemSize E 1 = some 16 ∧
    ComputeParamMemSize E 12 = some 36 ∧ ComputeParamMemSize E 15 = some 64 ∧
    ComputeParamMemSize E 3 = some 0 := by
  refine ⟨fun t ht => ?_, ?_, ?_, ?_, ?_, ?_⟩
  · obtain ⟨m, hm⟩ := GetMetaNodes_isSome t ht
    exact ⟨m, hm, ComputeParamMemSize_eq_sumFieldSizes E hMax hm⟩
  · obtain ⟨m, hm⟩ := GetMetaNodes_isSome 0 (by decide)
    rw [ComputeParamMemSize_eq_sumFieldSizes E hMax hm]; cases hm; rfl
  · obtain ⟨m, hm⟩ := GetMetaNodes_isSome 1 (by decide)
    rw [ComputeParamMemSize_eq_sumFieldSizes E hMax hm]; cases hm; rfl
  · obtain ⟨m, hm⟩ := GetMetaNodes_isSome 12 (by decide)
    rw [ComputeParamMemSize_eq_sumFieldSizes E hMax hm]; cases hm; rfl
  · obtain ⟨m, hm⟩ := GetMetaNodes_isSome 15 (by decide)
    rw [ComputeParamMemSize_eq_sumFieldSizes E hMax hm]; cases hm; rfl
  · obtain ⟨m, hm⟩ := GetMetaNodes_isSome 3 (by decide)
    rw [ComputeParamMemSize_eq_sumFieldSizes E hMax hm]; cases hm; rfl

theorem C1_ComputeParamMemSize_sum_witness :
    4 ≤ Env.sample.MaxCon ∧
    ((∀ typeIndex, typeIndex < 18 →
      ∃ m, GetMetaNodes typeIndex = some m ∧
        ComputeParamMemSize Env.sample typeIndex = some (sumFieldSizes (namedParams m))) ∧
    ComputeParamMemSize Env.sample 0 = some 8 ∧ ComputeParamMemSize Env.sample 1 = some 16 ∧
    ComputeParamMemSize Env.sample 12 = some 36 ∧ ComputeParamMemSize Env.sample 15 = some 64 ∧
    ComputeParamMemSize Env.sample 3 = some 0) :=
  ⟨by decide, C1_ComputeParamMemSize_sum Env.sample (by decide)⟩

theorem digitChar_toNat (d : Nat) (h : d < 10) : (digitChar d).toNat = 48 + d := by
  interval_cases d <;> rfl

/-- Reading the digits of `decimalDigits fuel n` back gives `n`, when `fuel` exceeds `n`. -/
theorem decimalDigits_foldl (fuel : Nat) :
    ∀ n, n < fuel →
      (decimalDigits fuel n).foldl (fun acc c => 10 * acc + (c.toNat - 48)) 0 = n := by
  induction fuel with
  | zero => intro n h; omega
  | succ fuel ih =>
    intro n h
    by_cases h10 : n < 10
    · simp [decimalDigits, h10, digitChar_toNat n h10]
    · have hmod : n % 10 < 10 := Nat.mod_lt _ (by decide)
      simp only [decimalDigits, h10, if_false, List.foldl_append, List.foldl_cons,
        List.foldl_nil, ih (n / 10) (by omega), digitChar_toNat _ hmod]
      omega

theorem decimalDigits_ge (fuel : Nat) :
    ∀ n, ∀ c ∈ decimalDigits fuel n, 48 ≤ c.toNat := by
  induction fuel with
  | zero => intro n c hc; simp [decimalDigits] at hc
  | succ fuel ih =>
    intro n c hc
    by_cases h10 : n < 10
    · simp only [decimalDigits, h10, if_true, List.mem_singleton] at hc
      rw [hc, digitChar_toNat n h10]; omega
    · have hmod : n % 10 < 10 := Nat.mod_lt _ (by decide)
      simp only [decimalDigits, h10, if_false, List.mem_append, List.mem_singleton] at hc
      rcases hc with hc | hc
      · exact ih _ c hc
      · rw [hc, digitChar_toNat _ hmod]; omega

theorem printNat_injective {a b : Nat} (h : printNat a = printNat b) : a = b := by
  have hd : decimalDigits (a + 1) a = decimalDigits (b + 1) b :=
    congrArg String.data h
  have := congrArg (List.foldl (fun acc c => 10 * acc + (c.toNat - 48)) 0) hd
  rwa [decimalDigits_foldl _ _ (Nat.lt_succ_self a),
    decimalDigits_foldl _ _ (Nat.lt_succ_self b)] at this

theorem minus_append_ne_printNat (s : String) (n : Nat) : "-" ++ s ≠ printNat n := by
  intro h
  have hd := congrArg String.data h
  simp only [String.data_append, printNat] at hd
  have hmem : '-' ∈ decimalDigits (n + 1) n := by
    rw [← hd]; simp
  have := decimalDigits_ge _ _ _ hmem
  revert this
  decide

theorem string_append_left_cancel {a b c : String} (h : a ++ b = a ++ c) : b = c := by
  have hd := congrArg String.data h
  simp only [String.data_append, List.append_cancel_left_eq] at hd
  exact String.ext hd

theorem string_append_right_cancel {a b c : String} (h : a ++ c = b ++ c) : a = b := by
  have hd := congrArg String.data h
  simp only [String.data_append, List.append_cancel_right_eq] at hd
  exact String.ext hd

/-- The text that `%d` prints determines the `int`. -/
theorem printf_d_injective {i j : Int} (h : printf_d i = printf_d j) : i = j := by
  unfold printf_d at h
  by_cases hi : i < 0 <;> by_cases hj : j < 0 <;> simp only [hi, hj, if_true, if_false] at h
  · have := printNat_injective (string_append_left_cancel h)
    omega
  · exact absurd h (minus_append_ne_printNat _ _)
  · exact absurd h.symm (minus_append_ne_printNat _ _)
  · have := printNat_injective h
    omega

theorem word32_lt (b0 b1 b2 b3 : Byte) : word32 b0 b1 b2 b3 < 2 ^ 32 := by
  have h0 := b0.isLt; have h1 := b1.isLt; have h2 := b2.isLt; have h3 := b3.isLt
  simp only [word32]; omega

theorem word32_injective {b0 b1 b2 b3 c0 c1 c2 c3 : Byte}
    (h : word32 b0 b1 b2 b3 = word32 c0 c1 c2 c3) :
    b0 = c0 ∧ b1 = c1 ∧ b2 = c2 ∧ b3 = c3 := by
  have h0 := b0.isLt; have h1 := b1.isLt; have h2 := b2.isLt; have h3 := b3.isLt
  have g0 := c0.isLt; have g1 := c1.isLt; have g2 := c2.isLt; have g3 := c3.isLt
  simp only [word32] at h
  refine ⟨Fin.ext ?_, Fin.ext ?_, Fin.ext ?_, Fin.ext ?_⟩ <;> omega

theorem toInt32_injective {v w : Nat} (hv : v < 2 ^ 32) (hw : w < 2 ^ 32)
    (h : toInt32 v = toInt32 w) : v = w := by
  unfold toInt32 at h
  split_ifs at h <;> omega

theorem readFloat_field (block : List Byte) (off k n : Nat) (hk : 4 * k + 4 ≤ n)
    (hn : off + n ≤ block.length) :
    readFloat block off k = some (floatOf ((block.drop off).take n) k) := by
  have h0 : off + 4 * k < block.length := by omega
  have h1 : off + 4 * k + 1 < block.length := by omega
  have h2 : off + 4 * k + 2 < block.length := by omega
  have h3 : off + 4 * k + 3 < block.length := by omega
  have g0 : 4 * k < n := by omega
  have g1 : 4 * k + 1 < n := by omega
  have g2 : 4 * k + 2 < n := by omega
  have g3 : 4 * k + 3 < n := by omega
  simp [readFloat, floatOf, List.getElem?_eq_getElem, h0, h1, h2, h3, g0, g1, g2, g3,
    List.getD_eq_getElem?_getD, List.getElem?_take, List.getElem?_drop, ← Nat.add_assoc]

theorem readFloats_field (block : List Byte) (off n : Nat) (hn : off + n ≤ block.length) :
    ∀ (cnt k : Nat), 4 * (k + cnt) ≤ n →
      readFloats block off k cnt
        = some ((List.range cnt).map (fun j => floatOf ((block.drop off).take n) (k + j))) := by
  intro cnt
  induction cnt with
  | zero => intro k _; simp [readFloats]
  | succ cnt ih =>
    intro k hk
    have h1 := readFloat_field block off k n (by omega) hn
    have h2 := ih (k + 1) (by omega)
    simp only [readFloats, h1, h2, Option.bind_eq_bind, Option.some_bind, Option.pure_def]
    simp [List.range_succ_eq_map, Nat.add_comm, Nat.add_left_comm, Function.comp_def]

theorem format_eq (t : ConTypes) (block : List Byte) (off : Nat) (tmps : String)
    (ht : hasLiteral t = true) (hn : off + ComputeParamMemSizeOfType t ≤ block.length) :
    ComputeFunctionCall.format t block off tmps
      = some ("," ++ fieldLiteral t ((block.drop off).take (ComputeParamMemSizeOfType t))) := by
  have rf : ∀ k, 4 * k + 4 ≤ ComputeParamMemSizeOfType t → readFloat block off k
      = some (floatOf ((block.drop off).take (ComputeParamMemSizeOfType t)) k) :=
    fun k hk => readFloat_field block off k _ hk hn
  have e2 : (",vec2(" : String) = "," ++ "vec2(" := by decide
  have e3 : (",vec3(" : String) = "," ++ "vec3(" := by decide
  have e4 : (",vec4(" : String) = "," ++ "vec4(" := by decide
  cases t
  case Con_Structure => cases ht
  case Con_Any => cases ht
  case Con_Ramp =>
    simp only [ComputeFunctionCall.format, fieldLiteral]
    rw [readFloats_field block off _ hn 16 0 (by decide)]
    simp only [Option.bind_eq_bind, Option.some_bind, Option.pure_def, sprintfRamp]
    simp [List.range_succ, String.intercalate, String.intercalate.go, String.append_assoc]
    rw [show (",vec2[](vec2(" : String) = "," ++ ("vec2[](" ++ "vec2(") from by decide,
      show ("),vec2(" : String) = ")" ++ ("," ++ "vec2(") from by decide,
      show ("))" : String) = ")" ++ ")" from by decide,
      show ("),": String) = ")" ++ "," from by decide]
    simp only [String.append_assoc]
  case Con_Float =>
    simp [ComputeFunctionCall.format, fieldLiteral, rf 0 (by decide)]
  case Con_Angle =>
    simp [ComputeFunctionCall.format, fieldLiteral, rf 0 (by decide)]
  case Con_Int =>
    simp [ComputeFunctionCall.format, fieldLiteral, readInt, rf 0 (by decide)]
  case Con_Enum =>
    simp [ComputeFunctionCall.format, fieldLiteral, readInt, rf 0 (by decide)]
  case Con_Float2 =>
    rw [ComputeFunctionCall.format]
    simp [fieldLiteral, rf 0 (by decide), rf 1 (by decide), String.append_assoc]
    rw [e2, String.append_assoc]
  case Con_Angle2 =>
    rw [ComputeFunctionCall.format]
    simp [fieldLiteral, rf 0 (by decide), rf 1 (by decide), String.append_assoc]
    rw [e2, String.append_assoc]
  case Con_Float3 =>
    rw [ComputeFunctionCall.format]
    simp [fieldLiteral, rf 0 (by decide), rf 1 (by decide), rf 2 (by decide),
      String.append_assoc]
    rw [e3, String.append_assoc]
  case Con_Angle3 =>
    rw [ComputeFunctionCall.format]
    simp [fieldLiteral, rf 0 (by decide), rf 1 (by decide), rf 2 (by decide),
      String.append_assoc]
    rw [e3, String.append_assoc]
  all_goals
    rw [ComputeFunctionCall.format]
    simp [fieldLiteral, rf 0 (by decide), rf 1 (by decide), rf 2 (by decide),
      rf 3 (by decide), String.append_assoc]
    rw [e4, String.append_assoc]

theorem decimalDigits_length_le (fuel : Nat) :
    ∀ (n e : Nat), 0 < e → n < 10 ^ e → (decimalDigits fuel n).length ≤ e := by
  induction fuel with
  | zero => intro n e _ _; simp [decimalDigits]
  | succ fuel ih =>
    intro n e he hn
    rw [decimalDigits]
    split
    · simpa using he
    · rename_i h10
      have he2 : 2 ≤ e := by
        by_contra hlt
        have : e = 1 := by omega
        subst this
        omega
      have hdiv : n / 10 < 10 ^ (e - 1) := by
        rw [Nat.div_lt_iff_lt_mul (by decide)]
        have : 10 ^ e = 10 ^ (e - 1) * 10 := by
          rw [← Nat.pow_succ]; congr 1; omega
        omega
      have := ih (n / 10) (e - 1) (by omega) hdiv
      simp only [List.length_append, List.length_singleton]
      omega

theorem printNat_length_le (n e : Nat) (he : 0 < e) (hn : n < 10 ^ e) :
    (printNat n).length ≤ e := by
  simpa [printNat] using decimalDigits_length_le (n + 1) n e he hn

theorem sixDigits_length_le (n : Nat) (hn : n < 10 ^ 6) : (sixDigits n).length ≤ 6 := by
  have := decimalDigits_length_le (n + 1) n 6 (by decide) hn
  simp only [sixDigits, String.length, List.length_append, List.length_replicate]
  omega

theorem printf_f_length_le (bits : Nat) : (printf_f bits).length ≤ 47 := by
  have hs : ∀ sign : Nat, (if sign = 1 then "-" else "" : String).length ≤ 1 := by
    intro sign; split <;> decide
  have hm : bits % 2 ^ 23 < 2 ^ 23 := Nat.mod_lt _ (by decide)
  have he : bits / 2 ^ 23 % 2 ^ 8 < 2 ^ 8 := Nat.mod_lt _ (by decide)
  simp only [printf_f]
  split
  · have := hs (bits / 2 ^ 31 % 2)
    simp only [String.length_append]
    have : (if bits % 2 ^ 23 = 0 then "inf" else "nan" : String).length ≤ 3 := by
      split <;> decide
    omega
  · rename_i h255
    generalize hnum : (if bits / 2 ^ 23 % 2 ^ 8 = 0 then bits % 2 ^ 23
      else (2 ^ 23 + bits % 2 ^ 23) * 2 ^ (bits / 2 ^ 23 % 2 ^ 8 - 1)) = num
    have hnumle : num < 2 ^ 24 * 2 ^ 253 := by
      rw [← hnum]
      split
      · calc bits % 2 ^ 23 < 2 ^ 23 := hm
          _ ≤ 2 ^ 24 * 2 ^ 253 := by norm_num
      · have h1 : 2 ^ (bits / 2 ^ 23 % 2 ^ 8 - 1) ≤ 2 ^ 253 :=
          Nat.pow_le_pow_right (by decide) (by omega)
        have h2 : 2 ^ 23 + bits % 2 ^ 23 < 2 ^ 24 := by omega
        calc (2 ^ 23 + bits % 2 ^ 23) * 2 ^ (bits / 2 ^ 23 % 2 ^ 8 - 1)
            ≤ (2 ^ 23 + bits % 2 ^ 23) * 2 ^ 253 := Nat.mul_le_mul_left _ h1
          _ < 2 ^ 24 * 2 ^ 253 := Nat.mul_lt_mul_of_pos_right h2 (by positivity)
    generalize hn : (if 2 ^ 149 < 2 * (num * 10 ^ 6 % 2 ^ 149) ∨
        2 * (num * 10 ^ 6 % 2 ^ 149) = 2 ^ 149 ∧ num * 10 ^ 6 / 2 ^ 149 % 2 = 1
      then num * 10 ^ 6 / 2 ^ 149 + 1 else num * 10 ^ 6 / 2 ^ 149) = n
    have hnle : n ≤ num * 10 ^ 6 / 2 ^ 149 + 1 := by
      rw [← hn]; split <;> omega
    have hq : n / 10 ^ 6 < 10 ^ 39 := by
      rw [Nat.div_lt_iff_lt_mul (by positivity)]
      have : num * 10 ^ 6 / 2 ^ 149 < 2 ^ 128 * 10 ^ 6 := by
        rw [Nat.div_lt_iff_lt_mul (by positivity)]
        calc num * 10 ^ 6 < 2 ^ 24 * 2 ^ 253 * 10 ^ 6 :=
              Nat.mul_lt_mul_of_pos_right hnumle (by positivity)
          _ = 2 ^ 128 * 10 ^ 6 * 2 ^ 149 := by norm_num
      calc n ≤ num * 10 ^ 6 / 2 ^ 149 + 1 := hnle
        _ ≤ 2 ^ 128 * 10 ^ 6 := this
        _ < 10 ^ 39 * 10 ^ 6 := by norm_num
    have h1 := printNat_length_le (n / 10 ^ 6) 39 (by decide) hq
    have h2 := sixDigits_length_le (n % 10 ^ 6) (Nat.mod_lt _ (by positivity))
    have h3 := hs (bits / 2 ^ 31 % 2)
    simp only [String.length_append]
    have : (".": String).length = 1 := by decide
    omega

theorem printf_d_length_le (w : Nat) (hw : w < 2 ^ 32) : (printf_d (toInt32 w)).length ≤ 11 := by
  have habs : (toInt32 w).natAbs < 10 ^ 10 := by
    unfold toInt32
    split <;> omega
  have := printNat_length_le _ 10 (by decide) habs
  unfold printf_d
  split
  · simp only [String.length_append]
    have : ("-" : String).length = 1 := by decide
    omega
  · omega

theorem floatOf_lt (bytes : List Byte) (k : Nat) : floatOf bytes k < 2 ^ 32 :=
  word32_lt _ _ _ _

/-- With its `,`, the literal of a field that is no ramp has 201 characters at most. -/
theorem fieldLiteral_length_le (t : ConTypes) (bytes : List Byte) (ht : t ≠ Con_Ramp) :
    ("," ++ fieldLiteral t bytes).length ≤ 201 := by
  have f := fun k => printf_f_length_le (floatOf bytes k)
  have d := printf_d_length_le (floatOf bytes 0) (floatOf_lt bytes 0)
  have c1 : (",": String).length = 1 := by decide
  have c2 : ("vec2(": String).length = 5 := by decide
  have c3 : ("vec3(": String).length = 5 := by decide
  have c4 : ("vec4(": String).length = 5 := by decide
  have c5 : (", ": String).length = 2 := by decide
  have c6 : (")": String).length = 1 := by decide
  have c7 : ("": String).length = 0 := by decide
  have f0 := f 0
  have f1 := f 1
  have f2 := f 2
  have f3 := f 3
  cases t <;> first
    | exact absurd rfl ht
    | (simp only [fieldLiteral, String.length_append, c1, c2, c3, c4, c5, c6, c7]; omega)

/-- The `switch` of `ComputeFunctionCall` on a field that lies inside the block: the
literal of the field with its `,` when this fits `tmps`, and nothing defined otherwise. -/
theorem sprintf_eq (t : ConTypes) (block : List Byte) (off : Nat) (tmps : String)
    (ht : hasLiteral t = true) (hn : off + ComputeParamMemSizeOfType t ≤ block.length) :
    ComputeFunctionCall.sprintf t block off tmps
      = if ("," ++ fieldLiteral t ((block.drop off).take (ComputeParamMemSizeOfType t))).length
          < 512
        then some ("," ++ fieldLiteral t ((block.drop off).take (ComputeParamMemSizeOfType t)))
        else none := by
  simp [ComputeFunctionCall.sprintf, format_eq t block off tmps ht hn]

theorem literalsFit_nil (block : List Byte) : literalsFit [] block := by
  simp [literalsFit, callLiterals]

theorem literalsFit_cons (c : Con) (rest : List Con) (block : List Byte) :
    literalsFit (c :: rest) block ↔
      ("," ++ fieldLiteral c.mType (block.take (ComputeParamMemSizeOfType c.mType))).length < 512 ∧
      literalsFit rest (block.drop (ComputeParamMemSizeOfType c.mType)) := by
  simp [literalsFit, callLiterals]

/-- A field list without a ramp fits `tmps` whatever the block holds. -/
theorem literalsFit_of_no_ramp (fields : List Con) :
    ∀ (block : List Byte), (∀ c ∈ fields, c.mType ≠ Con_Ramp) → literalsFit fields block := by
  induction fields with
  | nil => intro block _; exact literalsFit_nil block
  | cons c rest ih =>
    intro block h
    rw [literalsFit_cons]
    refine ⟨?_, ih _ (fun d hd => h d (List.mem_cons_of_mem _ hd))⟩
    have := fieldLiteral_length_le c.mType (block.take (ComputeParamMemSizeOfType c.mType))
      (h c (List.mem_cons_self _ _))
    omega

/-- The loop of `ComputeFunctionCall` over the named fields from position `i` on, the
block holding them from `off` on: it appends their literals to `call` when all of
them fit `tmps`, and has no defined result otherwise. -/
theorem ComputeFunctionCall_loop_eq (mParams : List Con) (block : List Byte) :
    ∀ (left i off : Nat) (tmps call : String),
      ((mParams.drop i).takeWhile (fun c => c.mName.isSome)).length ≤ left →
      (∀ c ∈ (mParams.drop i).takeWhile (fun c => c.mName.isSome), hasLiteral c.mType = true) →
      off + sumFieldSizes ((mParams.drop i).takeWhile (fun c => c.mName.isSome)) ≤ block.length →
      ComputeFunctionCall.loop mParams block left i off tmps call =
        if literalsFit ((mParams.drop i).takeWhile (fun c => c.mName.isSome)) (block.drop off)
        then some (call ++ concat (callLiterals
          ((mParams.drop i).takeWhile (fun c => c.mName.isSome)) (block.drop off)))
        else none := by
  intro left
  induction left with
  | zero =>
    intro i off tmps call h _ _
    have h0 : (mParams.drop i).takeWhile (fun c => c.mName.isSome) = [] :=
      List.length_eq_zero.mp (Nat.le_zero.mp h)
    simp [ComputeFunctionCall.loop, h0, callLiterals, concat, literalsFit_nil]
  | succ left ih =>
    intro i off tmps call h hlit hsize
    cases hd : mParams.drop i with
    | nil =>
      simp [ComputeFunctionCall.loop, conAt_of_drop_nil hd, Con.zero, callLiterals, concat,
        literalsFit_nil]
    | cons c rest =>
      obtain ⟨hc, hrest⟩ := conAt_of_drop_cons hd
      rw [hd] at h hlit hsize
      cases hn : c.mName with
      | none =>
        simp [ComputeFunctionCall.loop, hc, hn, List.takeWhile, callLiterals, concat,
          literalsFit_nil]
      | some name =>
        have htw : (c :: rest).takeWhile (fun c => c.mName.isSome)
            = c :: rest.takeWhile (fun c => c.mName.isSome) := by
          simp [List.takeWhile, hn]
        rw [htw] at h hlit hsize ⊢
        simp only [sumFieldSizes, List.map_cons, List.sum_cons] at hsize
        have hs := sprintf_eq c.mType block off tmps (hlit c (List.mem_cons_self _ _))
          (by omega)
        have hrec := ih (i + 1) (off + ComputeParamMemSizeOfType c.mType)
          ("," ++ fieldLiteral c.mType ((block.drop off).take (ComputeParamMemSizeOfType c.mType)))
          (call ++ ("," ++ fieldLiteral c.mType
            ((block.drop off).take (ComputeParamMemSizeOfType c.mType))))
          (by rw [hrest]; simpa using h)
          (by rw [hrest]; exact fun d hdm => hlit d (List.mem_cons_of_mem _ hdm))
          (by rw [hrest]; simp only [sumFieldSizes]; omega)
        rw [hrest] at hrec
        simp only [literalsFit_cons]
        by_cases hfit : ("," ++ fieldLiteral c.mType
            ((block.drop off).take (ComputeParamMemSizeOfType c.mType))).length < 512
        · rw [if_pos hfit] at hs
          simp only [ComputeFunctionCall.loop, hc, hn, hs, Option.bind_eq_bind,
            Option.some_bind, callLiterals, concat, List.drop_drop]
          rw [hrec, Nat.add_comm off]
          simp only [hfit, true_and, String.append_assoc]
        · rw [if_neg hfit] at hs
          simp only [ComputeFunctionCall.loop, hc, hn, hs, Option.bind_eq_bind,
            Option.none_bind]
          simp only [hfit, false_and, if_false]

theorem namedParams_hasLiteral {typeIndex : Nat} {m : MetaNode}
    (hm : GetMetaNodes typeIndex = some m) :
    ∀ c ∈ namedParams m, hasLiteral c.mType = true := by
  have h : ∀ m ∈ metaNodes, ∀ c ∈ namedParams m, hasLiteral c.mType = true := by decide
  exact h m (GetMetaNodes_mem hm)

/-- On a node of a table type whose block has the size of the type at least,
`ComputeFunctionCall` returns the call string of the specification when the literals
of the fields fit `tmps`, and has no defined result otherwise. -/
theorem ComputeFunctionCall_eq (E : Env) (hMax : 4 ≤ E.MaxCon)
    (mNodes : List ImogenNode) (index : Nat) (node : ImogenNode)
    (hnode : mNodes[index]? = some node) (m : MetaNode)
    (hm : GetMetaNodes node.mType = some m)
    (hblock : sumFieldSizes (namedParams m) ≤ node.mParams.length) :
    ComputeFunctionCall E mNodes index
      = if literalsFit (namedParams m) node.mParams then some (callString m node.mParams)
        else none := by
  have hlen := namedParams_length_le_four hm
  have hlit := namedParams_hasLiteral hm
  have := ComputeFunctionCall_loop_eq m.mParams node.mParams
    E.MaxCon 0 0 E.tmps (m.mName ++ "(vUV")
    (by simpa [namedParams] using le_trans hlen hMax)
    (by simpa [namedParams] using hlit)
    (by simpa [namedParams] using hblock)
  simp only [List.drop_zero] at this
  by_cases hfit : literalsFit (namedParams m) node.mParams
  · rw [if_pos (by simpa [namedParams] using hfit)] at this
    rw [if_pos hfit]
    simp [ComputeFunctionCall, hnode, hm, this, callString, namedParams,
      String.append_assoc]
  · rw [if_neg (by simpa [namedParams] using hfit)] at this
    rw [if_neg hfit]
    simp [ComputeFunctionCall, hnode, hm, this]

/-- The only field of the table that is a ramp is that of the type Ramp (index 15). -/
theorem namedParams_no_ramp {typeIndex : Nat} {m : MetaNode}
    (hm : GetMetaNodes typeIndex = some m) (h15 : typeIndex ≠ 15) :
    ∀ c ∈ namedParams m, c.mType ≠ Con_Ramp := by
  have h := GetMetaNodes_lt hm
  interval_cases typeIndex <;> first
    | exact absurd rfl h15
    | (cases hm; decide)

set_option maxRecDepth 100000 in
/-- A block of zero bytes of the size of a table type fits `tmps`. -/
theorem literalsFit_zero {typeIndex : Nat} {m : MetaNode}
    (hm : GetMetaNodes typeIndex = some m) :
    literalsFit (namedParams m) (List.replicate (sumFieldSizes (namedParams m)) 0) := by
  by_cases h15 : typeIndex = 15
  · subst h15; cases hm; decide
  · exact literalsFit_of_no_ramp _ _ (namedParams_no_ramp hm h15)

/-- On a node of a table type whose block has the size of the type at least and whose
literals fit `tmps`, `ComputeFunctionCall` returns the call string of the
specification. -/
theorem ComputeFunctionCall_eq_callString (E : Env) (hMax : 4 ≤ E.MaxCon)
    (mNodes : List ImogenNode) (index : Nat) (node : ImogenNode)
    (hnode : mNodes[index]? = some node) (m : MetaNode)
    (hm : GetMetaNodes node.mType = some m)
    (hblock : sumFieldSizes (namedParams m) ≤ node.mParams.length)
    (hfit : literalsFit (namedParams m) node.mParams) :
    ComputeFunctionCall E mNodes index = some (callString m node.mParams) := by
  rw [ComputeFunctionCall_eq E hMax mNodes index node hnode m hm hblock, if_pos hfit]

set_option maxRecDepth 100000 in
/-- C2 (failing input). A Ramp node whose sixteen floats are `FLT_MAX`: the block has
the 64 bytes of the type, the literal of its ramp field has 808 characters with its
`,`, more than the 511 that `char tmps[512]` holds, and neither the `sprintf` of the
ramp nor `ComputeFunctionCall` has a defined result, where the claim has it return
a call string of 817 characters. -/
theorem C2_ComputeFunctionCall_overflow :
    ComputeParamMemSize Env.sample 15 = some rampOfMax.length ∧
    ("," ++ fieldLiteral Con_Ramp rampOfMax).length = 808 ∧
    (callString ⟨"Ramp", hcFilter, [con "In" Con_Float4], [con "Out" Con_Float4],
      [con "Ramp" Con_Ramp]⟩ rampOfMax).length = 817 ∧
    ComputeFunctionCall.sprintf Con_Ramp rampOfMax 0 Env.sample.tmps = none ∧
    ComputeFunctionCall Env.sample [⟨15, 0, rampOfMax⟩] 0 = none := by
  decide

set_option maxRecDepth 100000 in
/-- C3 (failing input). Two Ramp nodes, in two node lists, with byte-identical blocks
of sixteen floats `FLT_MAX`: for neither does `ComputeFunctionCall` have a defined
result (the `sprintf` of the ramp writes past the end of `tmps`), where the claim has
both calls return the same string. -/
theorem C3_ComputeFunctionCall_overflow :
    GetMetaNodes 15 = some ⟨"Ramp", hcFilter, [con "In" Con_Float4], [con "Out" Con_Float4],
      [con "Ramp" Con_Ramp]⟩ ∧
    ¬ literalsFit [con "Ramp" Con_Ramp] rampOfMax ∧
    ComputeFunctionCall Env.sample [⟨15, 0, rampOfMax⟩] 0 = none ∧
    ComputeFunctionCall Env.sample [⟨3, 0, []⟩, ⟨15, 1, rampOfMax⟩] 1 = none := by
  decide

theorem intLiteral_ne (block : List Byte) (p : Nat) (v : Byte) (hlen : 4 ≤ block.length)
    (hp : p < 4) (hv : block[p]? ≠ some v) :
    printf_d (toInt32 (floatOf ((block.set p v).take 4) 0))
      ≠ printf_d (toInt32 (floatOf (block.take 4) 0)) := by
  intro h
  have hw := toInt32_injective (word32_lt _ _ _ _) (word32_lt _ _ _ _) (printf_d_injective h)
  obtain ⟨b0, b1, b2, b3, tail, rfl⟩ : ∃ b0 b1 b2 b3 tail, block = b0 :: b1 :: b2 :: b3 :: tail := by
    match block, hlen with
    | b0 :: b1 :: b2 :: b3 :: tail, _ => exact ⟨b0, b1, b2, b3, tail, rfl⟩
  obtain ⟨e0, e1, e2, e3⟩ := word32_injective hw
  interval_cases p <;> simp_all [floatOf]


theorem callLiterals_ne (fields : List Con) :
    ∀ (block : List Byte) (p : Nat) (v : Byte),
      sumFieldSizes fields ≤ block.length →
      (fieldTypeAt fields p = some Con_Int ∨ fieldTypeAt fields p = some Con_Enum) →
      block[p]? ≠ some v →
      concat (callLiterals fields (block.set p v)) ≠ concat (callLiterals fields block) := by
  induction fields with
  | nil => intro block p v _ h; simp [fieldTypeAt] at h
  | cons c rest ih =>
    intro block p v hlen hfield hv
    simp only [sumFieldSizes, List.map_cons, List.sum_cons] at hlen
    simp only [callLiterals, concat]
    by_cases hp : p < ComputeParamMemSizeOfType c.mType
    · simp only [fieldTypeAt, hp, if_true, Option.some.injEq] at hfield
      have hsz : ComputeParamMemSizeOfType c.mType = 4 := by
        rcases hfield with h | h <;> rw [h] <;> rfl
      rw [hsz] at hp hlen ⊢
      rw [List.drop_set_of_lt v block hp]
      intro h
      have h2 := string_append_left_cancel (string_append_right_cancel h)
      have hne := intLiteral_ne block p v (by omega) hp hv
      rcases hfield with hf | hf <;> rw [hf] at h2 <;> exact hne h2
    · simp only [fieldTypeAt, hp, if_false] at hfield
      have htake : (block.set p v).take (ComputeParamMemSizeOfType c.mType)
          = block.take (ComputeParamMemSizeOfType c.mType) := by
        rw [List.set_take, List.set_eq_of_length_le]
        simp only [List.length_take]; omega
      rw [htake, List.drop_set, if_neg hp]
      intro h
      have h2 := string_append_left_cancel h
      refine ih (block.drop (ComputeParamMemSizeOfType c.mType))
        (p - ComputeParamMemSizeOfType c.mType) v ?_ hfield ?_ h2
      · have : sumFieldSizes rest
            = (List.map (fun c => ComputeParamMemSizeOfType c.mType) rest).sum := rfl
        simp only [List.length_drop]; omega
      · rw [List.getElem?_drop]
        have : ComputeParamMemSizeOfType c.mType + (p - ComputeParamMemSizeOfType c.mType) = p := by
          omega
        rwa [this]

/-- C4 (as stated, refuted). On a Circle node, byte 0 belongs to the float field
`Radius`; with all bytes zero (0.0) and with byte 0 changed to 1 (the float
1.4e-45), `ComputeFunctionCall` returns the same string: `%f` shows six decimals. -/
theorem C4_float_byte_counterexample :
    (GetMetaNodes 0).map (fun m => fieldTypeAt (namedParams m) 0) = some (some Con_Float) ∧
    ([0, 0, 0, 0, 0, 0, 0, 0] : List Byte).set 0 1 = [1, 0, 0, 0, 0, 0, 0, 0] ∧
    ComputeFunctionCall Env.sample [⟨0, 0, [0, 0, 0, 0, 0, 0, 0, 0]⟩] 0
      = some "Circle(vUV,0.000000,0.000000)" ∧
    ComputeFunctionCall Env.sample [⟨0, 0, [1, 0, 0, 0, 0, 0, 0, 0]⟩] 0
      = some "Circle(vUV,0.000000,0.000000)" := by
  decide

/-- A node type with an int or enum field is not the type Ramp, and its literals fit
`tmps` whatever the block holds. -/
theorem literalsFit_of_int_field {typeIndex : Nat} {m : MetaNode}
    (hm : GetMetaNodes typeIndex = some m) (p : Nat)
    (hfield : fieldTypeAt (namedParams m) p = some Con_Int ∨
      fieldTypeAt (namedParams m) p = some Con_Enum) (block : List Byte) :
    literalsFit (namedParams m) block := by
  refine literalsFit_of_no_ramp _ _ (namedParams_no_ramp hm ?_)
  intro h15
  subst h15
  cases hm
  have hf : namedParams (metaNodes.get ⟨15, by decide⟩) = [con "Ramp" Con_Ramp] := by decide
  change fieldTypeAt (namedParams (metaNodes.get ⟨15, by decide⟩)) p = some Con_Int ∨
    fieldTypeAt (namedParams (metaNodes.get ⟨15, by decide⟩)) p = some Con_Enum at hfield
  rw [hf] at hfield
  simp only [fieldTypeAt, con] at hfield
  rcases hfield with h | h <;> split at h <;> simp [fieldTypeAt] at h

/-- C4 (amended). For every node of a table type and every parameter block (of the
size of the type at least), changing any single byte that belongs to an int or enum
field, printed with `%d`, changes the string returned by `ComputeFunctionCall`. -/
theorem C4_int_byte_changes_call (E : Env) (hMax : 4 ≤ E.MaxCon)
    (mNodes : List ImogenNode) (index : Nat) (node : ImogenNode)
    (hnode : mNodes[index]? = some node)
    (m : MetaNode) (htype : GetMetaNodes node.mType = some m)
    (size : Nat) (hsize : ComputeParamMemSize E node.mType = some size)
    (hblock : size ≤ node.mParams.length)
    (p : Nat) (v : Byte)
    (hfield : fieldTypeAt (namedParams m) p = some Con_Int ∨
      fieldTypeAt (namedParams m) p = some Con_Enum)
    (hv : node.mParams[p]? ≠ some v) :
    ∃ s s', ComputeFunctionCall E mNodes index = some s ∧
      ComputeFunctionCall E
        (mNodes.set index { node with mParams := node.mParams.set p v }) index = some s' ∧
      s' ≠ s := by
  have hi : index < mNodes.length := by
    by_contra hge
    rw [List.getElem?_eq_none (by omega)] at hnode
    cases hnode
  have hget : (mNodes.set index { node with mParams := node.mParams.set p v })[index]?
      = some { node with mParams := node.mParams.set p v } := by
    simp [hi]
  rw [ComputeParamMemSize_eq_sumFieldSizes E hMax htype] at hsize
  cases hsize
  refine ⟨_, _,
    ComputeFunctionCall_eq_callString E hMax mNodes index node hnode m htype hblock
      (literalsFit_of_int_field htype p hfield _),
    ComputeFunctionCall_eq_callString E hMax _ index _ hget m htype (by simpa using hblock)
      (literalsFit_of_int_field htype p hfield _), ?_⟩
  intro h
  simp only [callString] at h
  have h2 := string_append_left_cancel (string_append_right_cancel h)
  exact callLiterals_ne _ node.mParams p v hblock hfield hv h2

theorem C4_int_byte_changes_call_witness :
    (4 ≤ Env.sample.MaxCon ∧
      [(⟨12, 0, List.replicate 36 0⟩ : ImogenNode)][0]? = some ⟨12, 0, List.replicate 36 0⟩ ∧
      GetMetaNodes 12 = some ⟨"Blend", hcBlend, [con "A" Con_Float4, con "B" Con_Float4],
        [con "Out" Con_Float4], [con "A" Con_Float4, con "B" Con_Float4,
          { mName := some "Operation", mType := Con_Enum,
            mEnumList := some "Add\x00Mul\x00Min\x00Max\x00" }]⟩ ∧
      ComputeParamMemSize Env.sample 12 = some 36 ∧
      36 ≤ (List.replicate 36 (0 : Byte)).length ∧
      (fieldTypeAt (namedParams ⟨"Blend", hcBlend, [con "A" Con_Float4, con "B" Con_Float4],
        [con "Out" Con_Float4], [con "A" Con_Float4, con "B" Con_Float4,
          { mName := some "Operation", mType := Con_Enum,
            mEnumList := some "Add\x00Mul\x00Min\x00Max\x00" }]⟩) 32 = some Con_Int ∨
        fieldTypeAt (namedParams ⟨"Blend", hcBlend, [con "A" Con_Float4, con "B" Con_Float4],
        [con "Out" Con_Float4], [con "A" Con_Float4, con "B" Con_Float4,
          { mName := some "Operation", mType := Con_Enum,
            mEnumList := some "Add\x00Mul\x00Min\x00Max\x00" }]⟩) 32 = some Con_Enum) ∧
      (List.replicate 36 (0 : Byte))[32]? ≠ some 1) ∧
    ∃ s s', ComputeFunctionCall Env.sample [⟨12, 0, List.replicate 36 0⟩] 0 = some s ∧
      ComputeFunctionCall Env.sample
        ([(⟨12, 0, List.replicate 36 0⟩ : ImogenNode)].set 0
          ⟨12, 0, (List.replicate 36 (0 : Byte)).set 32 1⟩) 0 = some s' ∧
      s' ≠ s :=
  ⟨⟨by decide, rfl, rfl, by decide, by decide, by decide, by decide⟩,
    C4_int_byte_changes_call Env.sample (by decide) [⟨12, 0, List.replicate 36 0⟩] 0
      ⟨12, 0, List.replicate 36 0⟩ rfl _ rfl 36 (by decide) (by decide) 32 1 (by decide)
      (by decide)⟩

/-- C5 (as stated, refuted). With three stages, the first of which has its slot 0
connected to stage 2, deleting stage 1 leaves a remaining stage with an input slot
equal to 1: the slot that held 2 was decremented. -/
theorem C5_DeleteEvaluation_counterexample :
    ∃ stage ∈ (DelEvaluationTarget
        ⟨[⟨⟨[2, -1, -1, -1, -1, -1, -1, -1]⟩, ""⟩, ⟨Input.new, ""⟩, ⟨Input.new, ""⟩]⟩ 1).mStages,
      (1 : Int) ∈ stage.mInput.mInputs := by
  decide

/-- C5 (amended). After deleting stage `k`, the remaining stages are the other stages
in their order, and for each of their input slots, `x` being what the slot held: if
`x = k` the slot holds the sentinel -1, if `x > k` it holds `x - 1`, if `x < k` (the
sentinel -1 included) it is unchanged; so a slot holds `k` afterwards only if it held
`k + 1`. `DeleteNode` applies exactly this to the evaluation. -/
theorem C5_DeleteEvaluation_renumbers (ev : Evaluation) (k j s : Nat) (x : Int)
    (stage : EvaluationStage) (hj : (ev.mStages.eraseIdx k)[j]? = some stage)
    (hs : stage.mInput.mInputs[s]? = some x) :
    (DelEvaluationTarget ev k).mStages.length = (ev.mStages.eraseIdx k).length ∧
    (∃ stage' y, (DelEvaluationTarget ev k).mStages[j]? = some stage' ∧
      stage'.mInput.mInputs.length = stage.mInput.mInputs.length ∧
      stage'.mInput.mInputs[s]? = some y ∧
      (x = k → y = -1) ∧ ((k : Int) < x → y = x - 1) ∧ (x < k → y = x) ∧
      (x = -1 → y = -1) ∧ (y = k → x = k + 1)) ∧
    (∀ d d', DeleteNode d k = some d' → d'.evaluation = DelEvaluationTarget d.evaluation k) := by
  refine ⟨by simp [DelEvaluationTarget],
    ⟨{ stage with mInput := ⟨stage.mInput.mInputs.map (renumberInput k)⟩ }, renumberInput k x,
      ?_, ?_, ?_, ?_⟩, ?_⟩
  · simp only [DelEvaluationTarget, List.getElem?_map, hj, Option.map_some']
  · simp
  · simp [hs]
  · simp only [renumberInput]
    refine ⟨?_, ?_, ?_, ?_, ?_⟩ <;> intro h <;> split_ifs at * <;> omega
  · intro d d' h
    simp only [DeleteNode] at h
    split_ifs at h
    cases h
    rfl

theorem C5_DeleteEvaluation_renumbers_witness :
    ((([⟨⟨[2, -1, -1, -1, -1, -1, -1, -1]⟩, ""⟩, ⟨Input.new, ""⟩, ⟨Input.new, ""⟩] :
        List EvaluationStage).eraseIdx 1)[0]?
        = some ⟨⟨[2, -1, -1, -1, -1, -1, -1, -1]⟩, ""⟩ ∧
      ([2, -1, -1, -1, -1, -1, -1, -1] : List Int)[0]? = some 2) ∧
    ∃ (stage' : EvaluationStage) (y : Int), (DelEvaluationTarget
        ⟨[⟨⟨[2, -1, -1, -1, -1, -1, -1, -1]⟩, ""⟩, ⟨Input.new, ""⟩, ⟨Input.new, ""⟩]⟩
          1).mStages[0]? = some stage' ∧
      stage'.mInput.mInputs.length = 8 ∧
      stage'.mInput.mInputs[0]? = some y ∧
      ((2 : Int) = ((1 : Nat) : Int) → y = -1) ∧ (((1 : Nat) : Int) < 2 → y = 2 - 1) ∧
      ((2 : Int) < ((1 : Nat) : Int) → y = 2) ∧
      ((2 : Int) = -1 → y = -1) ∧ (y = ((1 : Nat) : Int) → (2 : Int) = ((1 : Nat) : Int) + 1) :=
  ⟨⟨rfl, rfl⟩,
    (C5_DeleteEvaluation_renumbers
      ⟨[⟨⟨[2, -1, -1, -1, -1, -1, -1, -1]⟩, ""⟩, ⟨Input.new, ""⟩, ⟨Input.new, ""⟩]⟩
      1 0 0 2 ⟨⟨[2, -1, -1, -1, -1, -1, -1, -1]⟩, ""⟩ rfl rfl).2.1⟩

/-- `AddNode` on a type of the table: it returns, having appended the new node with
its zeroed block and registered the call string of that block. -/
theorem AddNode_eq (E : Env) (hMax : 4 ≤ E.MaxCon) (d : TileNodeEditGraphDelegate)
    (type : Nat) (m : MetaNode) (hm : GetMetaNodes type = some m) :
    AddNode E d type = some
      { d with
        mNodes := d.mNodes ++
          [⟨type, d.evaluation.mStages.length,
            List.replicate (sumFieldSizes (namedParams m)) 0⟩]
        evaluation := SetEvaluationCall (AddEvaluationTarget d.evaluation).1
          d.evaluation.mStages.length
          (callString m (List.replicate (sumFieldSizes (namedParams m)) 0)) } := by
  have hs := ComputeFunctionCall_eq_callString E hMax
    (d.mNodes ++
      [⟨type, d.evaluation.mStages.length, List.replicate (sumFieldSizes (namedParams m)) 0⟩])
    d.mNodes.length
    ⟨type, d.evaluation.mStages.length, List.replicate (sumFieldSizes (namedParams m)) 0⟩
    (by simp) m hm (by simp) (literalsFit_zero hm)
  simp [AddNode, AddEvaluationTarget, ComputeParamMemSize_eq_sumFieldSizes E hMax hm, hs]

/-- C6. For every node list and every node type of the table, `AddNode(type)` appends
exactly one node at the end (its index is the previous node count), that node has
`mType = type` and a parameter block of exactly `ComputeParamMemSize(type)` bytes that
are all zero, and every node that was there before is unchanged. -/
theorem C6_AddNode_appends (E : Env) (hMax : 4 ≤ E.MaxCon)
    (d : TileNodeEditGraphDelegate) (type : Nat) (htype : type < 18) :
    ∃ d', AddNode E d type = some d' ∧
      d'.mNodes.length = d.mNodes.length + 1 ∧
      (∃ node, d'.mNodes[d.mNodes.length]? = some node ∧ node.mType = type ∧
        ComputeParamMemSize E type = some node.mParams.length ∧
        (∃ m, GetMetaNodes type = some m ∧
          node.mParams.length = sumFieldSizes (namedParams m)) ∧
        ∀ b ∈ node.mParams, b = 0) ∧
      (∀ i, i < d.mNodes.length → d'.mNodes[i]? = d.mNodes[i]?) ∧
      d'.mNodes.take d.mNodes.length = d.mNodes := by
  obtain ⟨m, hm⟩ := GetMetaNodes_isSome type htype
  refine ⟨_, AddNode_eq E hMax d type m hm, by simp,
    ⟨⟨type, d.evaluation.mStages.length, List.replicate (sumFieldSizes (namedParams m)) 0⟩,
      by simp, rfl, ?_, ⟨m, hm, by simp⟩, ?_⟩, ?_, by simp⟩
  · simp [ComputeParamMemSize_eq_sumFieldSizes E hMax hm]
  · intro b hb
    exact (List.mem_replicate.mp hb).2
  · intro i hi
    simp [List.getElem?_append_left hi]

theorem C6_AddNode_appends_witness :
    (4 ≤ Env.sample.MaxCon ∧ (1 : Nat) < 18) ∧
    ∃ d', AddNode Env.sample ⟨[⟨3, 0, []⟩], 0, ⟨[⟨Input.new, "Checker(vUV)"⟩]⟩⟩ 1 = some d' ∧
      d'.mNodes.length = [(⟨3, 0, []⟩ : ImogenNode)].length + 1 ∧
      (∃ node, d'.mNodes[[(⟨3, 0, []⟩ : ImogenNode)].length]? = some node ∧ node.mType = 1 ∧
        ComputeParamMemSize Env.sample 1 = some node.mParams.length ∧
        (∃ m, GetMetaNodes 1 = some m ∧
          node.mParams.length = sumFieldSizes (namedParams m)) ∧
        ∀ b ∈ node.mParams, b = 0) ∧
      (∀ i, i < [(⟨3, 0, []⟩ : ImogenNode)].length →
        d'.mNodes[i]? = [(⟨3, 0, []⟩ : ImogenNode)][i]?) ∧
      d'.mNodes.take [(⟨3, 0, []⟩ : ImogenNode)].length = [⟨3, 0, []⟩] :=
  ⟨⟨by decide, by decide⟩,
    C6_AddNode_appends Env.sample (by decide)
      ⟨[⟨3, 0, []⟩], 0, ⟨[⟨Input.new, "Checker(vUV)"⟩]⟩⟩ 1 (by decide)⟩

/-- C7 (as stated, refuted). `AddNode(18)`, with a type index that is no entry of the
18-entry table: nothing compares the index with the 18 entries, `ComputeParamMemSize`
reads `metaNodes[18]` outside the table, and `AddNode` has no defined result; in
particular it does not return with the node list unchanged. -/
theorem C7_AddNode_unknown_type_counterexample :
    GetMetaNodes 18 = none ∧
    ComputeParamMemSize Env.sample 18 = none ∧
    AddNode Env.sample TileNodeEditGraphDelegate.empty 18 = none ∧
    ¬ ∃ d', AddNode Env.sample TileNodeEditGraphDelegate.empty 18 = some d' ∧
      d'.mNodes = TileNodeEditGraphDelegate.empty.mNodes := by
  refine ⟨by decide, by decide, by decide, ?_⟩
  rintro ⟨d', h, _⟩
  have h0 : AddNode Env.sample TileNodeEditGraphDelegate.empty 18 = none := by decide
  rw [h0] at h
  cases h

/-- C7 (amended). `AddNode` checks nothing and has no error result: it is defined
exactly for the type indices of the table. For a type index below 18 it returns and
the node list has one more node; for a type index that is no entry of the table (18 or
more) the read `metaNodes[type]` of `ComputeParamMemSize` is outside the table and
`AddNode` has no defined result. -/
theorem C7_AddNode_unchecked (E : Env) (hMax : 4 ≤ E.MaxCon)
    (d : TileNodeEditGraphDelegate) (type : Nat) :
    ((∃ d', AddNode E d type = some d') ↔ type < 18) ∧
    (type < 18 → ∃ d', AddNode E d type = some d' ∧
      d'.mNodes.length = d.mNodes.length + 1) ∧
    (18 ≤ type → GetMetaNodes type = none ∧ ComputeParamMemSize E type = none ∧
      AddNode E d type = none) := by
  have hge : 18 ≤ type → GetMetaNodes type = none ∧ ComputeParamMemSize E type = none ∧
      AddNode E d type = none := by
    intro h
    have hg : GetMetaNodes type = none :=
      List.getElem?_eq_none (by simpa [metaNodes] using h)
    have hc : ComputeParamMemSize E type = none := by simp [ComputeParamMemSize, hg]
    exact ⟨hg, hc, by simp [AddNode, hc]⟩
  have hlt : type < 18 → ∃ d', AddNode E d type = some d' ∧
      d'.mNodes.length = d.mNodes.length + 1 := by
    intro h
    obtain ⟨m, hm⟩ := GetMetaNodes_isSome type h
    exact ⟨_, AddNode_eq E hMax d type m hm, by simp⟩
  refine ⟨⟨?_, ?_⟩, hlt, hge⟩
  · rintro ⟨d', h⟩
    by_contra hn
    rw [(hge (by omega)).2.2] at h
    cases h
  · intro h
    obtain ⟨d', h1, _⟩ := hlt h
    exact ⟨d', h1⟩

theorem C7_AddNode_unchecked_witness :
    4 ≤ Env.sample.MaxCon ∧
    (((∃ d', AddNode Env.sample TileNodeEditGraphDelegate.empty 20 = some d') ↔ 20 < 18) ∧
    (20 < 18 → ∃ d', AddNode Env.sample TileNodeEditGraphDelegate.empty 20 = some d' ∧
      d'.mNodes.length = TileNodeEditGraphDelegate.empty.mNodes.length + 1) ∧
    (18 ≤ 20 → GetMetaNodes 20 = none ∧ ComputeParamMemSize Env.sample 20 = none ∧
      AddNode Env.sample TileNodeEditGraphDelegate.empty 20 = none)) :=
  ⟨by decide, C7_AddNode_unchecked Env.sample (by decide) TileNodeEditGraphDelegate.empty 20⟩

/-- C11. `ComputeParamMemSize(paramType)` returns 4 for float and angle, 8 for float2
and angle2, 12 for float3 and angle3, 16 for float4, color4 and angle4, 4 for int and
enum, and 64 for ramp (8 control points of two floats each). -/
theorem C11_ComputeParamMemSize_of_type :
    ComputeParamMemSizeOfType Con_Float = 4 ∧ ComputeParamMemSizeOfType Con_Angle = 4 ∧
    ComputeParamMemSizeOfType Con_Float2 = 8 ∧ ComputeParamMemSizeOfType Con_Angle2 = 8 ∧
    ComputeParamMemSizeOfType Con_Float3 = 12 ∧ ComputeParamMemSizeOfType Con_Angle3 = 12 ∧
    ComputeParamMemSizeOfType Con_Float4 = 16 ∧ ComputeParamMemSizeOfType Con_Color4 = 16 ∧
    ComputeParamMemSizeOfType Con_Angle4 = 16 ∧
    ComputeParamMemSizeOfType Con_Int = 4 ∧ ComputeParamMemSizeOfType Con_Enum = 4 ∧
    ComputeParamMemSizeOfType Con_Ramp = 64 ∧ ComputeParamMemSizeOfType Con_Ramp = 8 * (2 * 4) := by
  decide

/-- C12. A newly constructed `Input` has exactly 8 input slots and every one of them
holds the unconnected sentinel -1: `memset` with -1 fills the 32 bytes with the byte
0xFF, and four bytes 0xFF are the 32-bit two's-complement integer -1. -/
theorem C12_Input_new :
    Input.new.mInputs.length = 8 ∧
    (∀ slot ∈ Input.new.mInputs, slot = -1) ∧
    Input.new.mInputs = [-1, -1, -1, -1, -1, -1, -1, -1] ∧
    memset (-1) (4 * 8) = List.replicate 32 0xFF ∧
    toInt32 (word32 0xFF 0xFF 0xFF 0xFF) = -1 ∧
    (∀ k, k < 8 → readInt (memset (-1) (4 * 8)) (4 * k) = some (-1)) := by
  decide

/-- C16. The four evaluation-mask flags `EvaluationC`, `EvaluationGLSL`,
`EvaluationPython` and `EvaluationGLSLCompute` are the distinct single bits 1, 2, 4
and 8, pairwise disjoint under bitwise AND; the mask of a set of backends (the bitwise
OR of its flags) tells for each flag, by `mask & flag`, whether the backend is in the
set, so that different sets have different masks. -/
theorem C16_EvaluationMask_flags :
    (EvaluationC = 1 ∧ EvaluationGLSL = 2 ∧ EvaluationPython = 4 ∧
      EvaluationGLSLCompute = 8) ∧
    (EvaluationC &&& EvaluationGLSL = 0 ∧ EvaluationC &&& EvaluationPython = 0 ∧
      EvaluationC &&& EvaluationGLSLCompute = 0 ∧ EvaluationGLSL &&& EvaluationPython = 0 ∧
      EvaluationGLSL &&& EvaluationGLSLCompute = 0 ∧
      EvaluationPython &&& EvaluationGLSLCompute = 0) ∧
    (∀ c glsl python compute : Bool,
      hasEvaluation (evaluationMaskOf c glsl python compute) EvaluationC = c ∧
      hasEvaluation (evaluationMaskOf c glsl python compute) EvaluationGLSL = glsl ∧
      hasEvaluation (evaluationMaskOf c glsl python compute) EvaluationPython = python ∧
      hasEvaluation (evaluationMaskOf c glsl python compute) EvaluationGLSLCompute = compute) ∧
    (∀ c glsl python compute c' glsl' python' compute' : Bool,
      evaluationMaskOf c glsl python compute = evaluationMaskOf c' glsl' python' compute' →
      c = c' ∧ glsl = glsl' ∧ python = python' ∧ compute = compute') := by
  decide

theorem sprintf_asFloat (t : ConTypes) (block : List Byte) (off : Nat) (tmps : String) :
    ComputeFunctionCall.sprintf (asFloat t) block off tmps
      = ComputeFunctionCall.sprintf t block off tmps := by
  cases t <;> rfl

theorem conAt_map_asFloat (mParams : List Con) (i : Nat) :
    conAt (mParams.map (fun c => { c with mType := asFloat c.mType })) i
      = { conAt mParams i with mType := asFloat (conAt mParams i).mType } := by
  simp only [conAt, List.getElem?_map]
  cases mParams[i]? <;> rfl

theorem ComputeFunctionCall_loop_asFloat (mParams : List Con) (block : List Byte) :
    ∀ (left i off : Nat) (tmps call : String),
      ComputeFunctionCall.loop (mParams.map (fun c => { c with mType := asFloat c.mType }))
          block left i off tmps call
        = ComputeFunctionCall.loop mParams block left i off tmps call := by
  intro left
  induction left with
  | zero => intro i off tmps call; rfl
  | succ left ih =>
    intro i off tmps call
    have hsize : ComputeParamMemSizeOfType (asFloat (conAt mParams i).mType)
        = ComputeParamMemSizeOfType (conAt mParams i).mType := by
      cases (conAt mParams i).mType <;> rfl
    simp only [ComputeFunctionCall.loop, conAt_map_asFloat, sprintf_asFloat, hsize, ih]

/-- C14. `ComputeFunctionCall` applies no degree/radian conversion to angle fields:
for every block and offset, the `switch` writes for an angle, angle2, angle3 or angle4
field exactly the text it writes for a float, float2, float3 or float4 field over the
same bytes, the literal is `%f` of the stored 32 bits, and the cursor advances by the
same size; so the whole loop returns the same string when every angle type of the
field list is replaced by the float type. -/
theorem C14_angle_fields_as_float (block : List Byte) (off : Nat) (tmps : String) :
    (ComputeFunctionCall.sprintf Con_Angle block off tmps
        = ComputeFunctionCall.sprintf Con_Float block off tmps ∧
      ComputeFunctionCall.sprintf Con_Angle2 block off tmps
        = ComputeFunctionCall.sprintf Con_Float2 block off tmps ∧
      ComputeFunctionCall.sprintf Con_Angle3 block off tmps
        = ComputeFunctionCall.sprintf Con_Float3 block off tmps ∧
      ComputeFunctionCall.sprintf Con_Angle4 block off tmps
        = ComputeFunctionCall.sprintf Con_Float4 block off tmps) ∧
    (ComputeFunctionCall.sprintf Con_Angle block off tmps
        = (readFloat block off 0).map (fun bits => "," ++ printf_f bits)) ∧
    (∀ bytes : List Byte,
      fieldLiteral Con_Angle bytes = fieldLiteral Con_Float bytes ∧
      fieldLiteral Con_Angle2 bytes = fieldLiteral Con_Float2 bytes ∧
      fieldLiteral Con_Angle3 bytes = fieldLiteral Con_Float3 bytes ∧
      fieldLiteral Con_Angle4 bytes = fieldLiteral Con_Float4 bytes ∧
      fieldLiteral Con_Angle bytes = printf_f (floatOf bytes 0)) ∧
    (∀ t, ComputeParamMemSizeOfType (asFloat t) = ComputeParamMemSizeOfType t) ∧
    (∀ (mParams : List Con) (left i : Nat) (call : String),
      ComputeFunctionCall.loop (mParams.map (fun c => { c with mType := asFloat c.mType }))
          block left i off tmps call
        = ComputeFunctionCall.loop mParams block left i off tmps call) := by
  refine ⟨⟨rfl, rfl, rfl, rfl⟩, ?_, fun bytes => ⟨rfl, rfl, rfl, rfl, rfl⟩, ?_, ?_⟩
  · simp only [ComputeFunctionCall.sprintf, ComputeFunctionCall.format]
    cases readFloat block off 0 with
    | none => rfl
    | some bits =>
      have h := printf_f_length_le bits
      have h1 : ("," ++ printf_f bits).length < 512 := by
        simp only [String.length_append]
        have : (",": String).length = 1 := by decide
        omega
      simp only [Option.bind_eq_bind, Option.some_bind, Option.pure_def, if_pos h1,
        Option.map_some']
  · intro t; cases t <;> rfl
  · intro mParams left i call
    exact ComputeFunctionCall_loop_asFloat mParams block left i off tmps call

/-- C17. `DeleteNode` keeps the relation between nodes and stages: when node `i` has
`mEvaluationTexture = i` for every `i`, and `index` is a node, `DeleteNode(index)`
returns; the list is one shorter, the nodes before `index` are unchanged, the node
that was at `index` is gone and each node after it has moved down by one, keeping its
type and its block, with `mEvaluationTexture` decremented by exactly one; so node `i`
has `mEvaluationTexture = i` again for every `i`. -/
theorem C17_DeleteNode_keeps_indices (d : TileNodeEditGraphDelegate) (index : Nat)
    (hinv : ∀ (i : Nat) (node : ImogenNode), d.mNodes[i]? = some node → node.mEvaluationTexture = i)
    (hindex : index < d.mNodes.length) :
    ∃ d', DeleteNode d index = some d' ∧
      d'.mNodes.length + 1 = d.mNodes.length ∧
      d'.mNodes.map (fun node => (node.mType, node.mParams))
        = (d.mNodes.eraseIdx index).map (fun node => (node.mType, node.mParams)) ∧
      (∀ i, i < index → d'.mNodes[i]? = d.mNodes[i]?) ∧
      (∀ (i : Nat) (node : ImogenNode), index ≤ i → d.mNodes[i + 1]? = some node →
        d'.mNodes[i]? = some { node with mEvaluationTexture := node.mEvaluationTexture - 1 } ∧
        node.mEvaluationTexture - 1 + 1 = node.mEvaluationTexture) ∧
      (∀ (i : Nat) (node' : ImogenNode), d'.mNodes[i]? = some node' → node'.mEvaluationTexture = i) := by
  have key : ∀ i, ((d.mNodes.eraseIdx index).map (fun node =>
        if index < node.mEvaluationTexture then
          { node with mEvaluationTexture := node.mEvaluationTexture - 1 }
        else node))[i]?
      = if i < index then d.mNodes[i]?
        else (d.mNodes[i + 1]?).map
          (fun node => { node with mEvaluationTexture := node.mEvaluationTexture - 1 }) := by
    intro i
    rw [List.getElem?_map, List.getElem?_eraseIdx]
    by_cases hi : i < index
    · simp only [hi, if_true]
      cases hn : d.mNodes[i]? with
      | none => rfl
      | some node =>
        have := hinv i node hn
        simp only [Option.map_some', this, if_neg (Nat.lt_asymm hi)]
    · simp only [hi, if_false]
      cases hn : d.mNodes[i + 1]? with
      | none => rfl
      | some node =>
        have := hinv (i + 1) node hn
        have hlt : index < i + 1 := by omega
        simp only [Option.map_some', this, hlt, if_true]
  refine ⟨{ d with
      evaluation := DelEvaluationTarget d.evaluation index
      mNodes := (d.mNodes.eraseIdx index).map (fun node =>
        if index < node.mEvaluationTexture then
          { node with mEvaluationTexture := node.mEvaluationTexture - 1 }
        else node) },
    by simp only [DeleteNode, hindex, if_true], ?_, ?_, ?_, ?_, ?_⟩
  · simp only [List.length_map, List.length_eraseIdx, hindex, if_true]
    omega
  · simp only [List.map_map]
    apply List.map_congr_left
    intro node _
    simp only [Function.comp]
    split <;> rfl
  · intro i hi
    simp only [key, hi, if_true]
  · intro i node hi hn
    have hne : ¬ i < index := by omega
    have := hinv (i + 1) node hn
    refine ⟨by simp only [key, hne, if_false, hn, Option.map_some'], by omega⟩
  · intro i node' hn
    simp only [key] at hn
    by_cases hi : i < index
    · simp only [hi, if_true] at hn
      exact hinv i node' hn
    · simp only [hi, if_false] at hn
      cases hm : d.mNodes[i + 1]? with
      | none => simp [hm] at hn
      | some node =>
        simp only [hm, Option.map_some', Option.some.injEq] at hn
        have := hinv (i + 1) node hm
        rw [← hn]
        simp only [this]
        omega

theorem C17_DeleteNode_keeps_indices_witness :
    ((∀ (i : Nat) (node : ImogenNode), ([⟨3, 0, []⟩, ⟨2, 1, [0, 0, 128, 63]⟩, ⟨11, 2, []⟩] : List ImogenNode)[i]?
        = some node → node.mEvaluationTexture = i) ∧
      1 < ([⟨3, 0, []⟩, ⟨2, 1, [0, 0, 128, 63]⟩, ⟨11, 2, []⟩] : List ImogenNode).length) ∧
    DeleteNode ⟨[⟨3, 0, []⟩, ⟨2, 1, [0, 0, 128, 63]⟩, ⟨11, 2, []⟩], 0,
        ⟨[⟨Input.new, "Checker(vUV)"⟩, ⟨Input.new, "Square(vUV,1.000000)"⟩,
          ⟨⟨[1, -1, -1, -1, -1, -1, -1, -1]⟩, "Hexagon(vUV)"⟩]⟩⟩ 1
      = some ⟨[⟨3, 0, []⟩, ⟨11, 1, []⟩], 0,
        ⟨[⟨Input.new, "Checker(vUV)"⟩, ⟨Input.new, "Hexagon(vUV)"⟩]⟩⟩ ∧
    ∃ d', DeleteNode ⟨[⟨3, 0, []⟩, ⟨2, 1, [0, 0, 128, 63]⟩, ⟨11, 2, []⟩], 0,
        ⟨[⟨Input.new, "Checker(vUV)"⟩, ⟨Input.new, "Square(vUV,1.000000)"⟩,
          ⟨⟨[1, -1, -1, -1, -1, -1, -1, -1]⟩, "Hexagon(vUV)"⟩]⟩⟩ 1 = some d' ∧
      d'.mNodes.length + 1 = 3 ∧
      (∀ (i : Nat) (node' : ImogenNode), d'.mNodes[i]? = some node' → node'.mEvaluationTexture = i) := by
  have hinv : ∀ (i : Nat) (node : ImogenNode),
      ([⟨3, 0, []⟩, ⟨2, 1, [0, 0, 128, 63]⟩, ⟨11, 2, []⟩] : List ImogenNode)[i]?
        = some node → node.mEvaluationTexture = i := by
    intro i node h
    rcases i with _ | _ | _ | i <;> simp at h <;> subst h <;> rfl
  obtain ⟨d', h1, h2, _, _, _, h6⟩ := C17_DeleteNode_keeps_indices
    ⟨[⟨3, 0, []⟩, ⟨2, 1, [0, 0, 128, 63]⟩, ⟨11, 2, []⟩], 0,
      ⟨[⟨Input.new, "Checker(vUV)"⟩, ⟨Input.new, "Square(vUV,1.000000)"⟩,
        ⟨⟨[1, -1, -1, -1, -1, -1, -1, -1]⟩, "Hexagon(vUV)"⟩]⟩⟩ 1 hinv (by decide)
  exact ⟨⟨hinv, by decide⟩, by decide, d', h1, h2, h6⟩

/-- C13 (as stated, refuted). `Allocate(4294967296)` on a new image leaves a buffer of
4294967296 bytes while the recorded size `mDataSize`, a `uint32_t`, is 0. -/
theorem C13_Allocate_counterexample :
    (Image_t.Allocate (fun _ => 0) Image_t.new (2 ^ 32)).mDataSize = 0 ∧
    (Image_t.Allocate (fun _ => 0) Image_t.new (2 ^ 32)).mBits.map List.length
      = some (2 ^ 32) ∧
    (0 : Nat) ≠ 2 ^ 32 := by
  refine ⟨by simp [Image_t.Allocate], ?_, by norm_num⟩
  simp only [Image_t.Allocate, malloc, Option.map_some', List.length_map, List.length_range]

/-- C13 (amended). For every image and every requested size below 2^32: after
`Allocate(size)` the recorded size `mDataSize` equals `size`, the number of bytes of
the owned buffer; after `SetBits(bits, size)`, `bits` having `size` bytes at least, the
same holds and the buffer holds the first `size` bytes of `bits`; after `Free()` the
image owns no buffer and `mDataSize` is 0. -/
theorem C13_Image_data_size (content : Nat → Byte) (image : Image_t) (size : Nat)
    (bits : List Byte) (hsize : size < 2 ^ 32) (hbits : size ≤ bits.length) :
    ((Image_t.Allocate content image size).mDataSize = size ∧
      ∃ block, (Image_t.Allocate content image size).mBits = some block ∧
        block.length = size) ∧
    (∃ image', Image_t.SetBits content image bits size = some image' ∧
      image'.mDataSize = size ∧ image'.mBits = some (bits.take size) ∧
      (bits.take size).length = size) ∧
    ((Image_t.Free image).mBits = none ∧ (Image_t.Free image).mDataSize = 0) := by
  have hmod : size % 2 ^ 32 = size := Nat.mod_eq_of_lt hsize
  refine ⟨⟨hmod, _, rfl, by simp [malloc]⟩, ?_, rfl, rfl⟩
  have hcpy : memcpy (malloc content size) bits size = some (bits.take size) := by
    have hdrop : (malloc content size).drop size = [] :=
      List.drop_eq_nil_of_le (by simp [malloc])
    simp [memcpy, malloc, hbits, hdrop]
  refine ⟨{ mBits := some (bits.take size), mDataSize := size % 2 ^ 32 }, ?_, hmod, rfl,
    by simp [hbits]⟩
  simp [Image_t.SetBits, Image_t.Allocate, hcpy]

theorem C13_Image_data_size_witness :
    ((3 : Nat) < 2 ^ 32 ∧ 3 ≤ [(10 : Byte), 20, 30, 40].length) ∧
    (((Image_t.Allocate (fun _ => 7) ⟨some [1, 2], 2⟩ 3).mDataSize = 3 ∧
      ∃ block, (Image_t.Allocate (fun _ => 7) ⟨some [1, 2], 2⟩ 3).mBits = some block ∧
        block.length = 3) ∧
    (∃ image', Image_t.SetBits (fun _ => 7) ⟨some [1, 2], 2⟩ [10, 20, 30, 40] 3 = some image' ∧
      image'.mDataSize = 3 ∧ image'.mBits = some ([(10 : Byte), 20, 30, 40].take 3) ∧
      ([(10 : Byte), 20, 30, 40].take 3).length = 3) ∧
    ((Image_t.Free ⟨some [1, 2], 2⟩).mBits = none ∧
      (Image_t.Free ⟨some [1, 2], 2⟩).mDataSize = 0)) :=
  ⟨⟨by decide, by decide⟩,
    C13_Image_data_size (fun _ => 7) ⟨some [1, 2], 2⟩ 3 [10, 20, 30, 40] (by decide)
      (by decide)⟩

theorem SetMouseRatios_loop_eq (lerp : ℚ → ℚ → Nat → Nat) (mParams : List Con)
    (rx ry : Nat) :
    ∀ (left i off : Nat) (buf : Option (List Byte)),
      ((mParams.drop i).takeWhile (fun c => c.mName.isSome)).length ≤ left →
      SetMouseRatios.loop lerp mParams rx ry left i off buf =
        SetMouseRatios.onFields lerp rx ry
          ((mParams.drop i).takeWhile (fun c => c.mName.isSome)) off buf := by
  intro left
  induction left with
  | zero =>
    intro i off buf h
    have h0 : (mParams.drop i).takeWhile (fun c => c.mName.isSome) = [] :=
      List.length_eq_zero.mp (Nat.le_zero.mp h)
    simp [SetMouseRatios.loop, h0, SetMouseRatios.onFields]
  | succ left ih =>
    intro i off buf h
    cases hd : mParams.drop i with
    | nil =>
      simp [SetMouseRatios.loop, conAt_of_drop_nil hd, Con.zero, SetMouseRatios.onFields]
    | cons c rest =>
      obtain ⟨hc, hrest⟩ := conAt_of_drop_cons hd
      rw [hd] at h
      cases hn : c.mName with
      | none =>
        simp [SetMouseRatios.loop, hc, hn, List.takeWhile, SetMouseRatios.onFields]
      | some name =>
        have htw : (c :: rest).takeWhile (fun c => c.mName.isSome)
            = c :: rest.takeWhile (fun c => c.mName.isSome) := by
          simp [List.takeWhile, hn]
        rw [htw] at h ⊢
        simp only [SetMouseRatios.loop, hc, hn, SetMouseRatios.onFields]
        rw [ih (i + 1) _ _ (by rw [hrest]; simpa using h), hrest]

theorem storeFloat_spec (block : List Byte) (o : Nat) (bits : Nat)
    (h : o + 4 ≤ block.length) :
    ∃ block', storeFloat (some block) o bits = some block' ∧
      block'.length = block.length ∧
      ∀ p, block'[p]? ≠ block[p]? → o ≤ p ∧ p < o + 4 := by
  refine ⟨block.take o ++ bytes32 bits ++ block.drop (o + 4),
    by simp [storeFloat, h], ?_, ?_⟩
  · simp only [List.length_append, List.length_take, List.length_drop, bytes32,
      List.length_cons, List.length_nil]
    omega
  · intro p hp
    by_contra hcon
    apply hp
    by_cases hlt : p < o
    · rw [List.append_assoc, List.getElem?_append_left (by simp; omega),
        List.getElem?_take_of_lt hlt]
    · have hge : o + 4 ≤ p := by omega
      rw [List.getElem?_append_right (by simp [bytes32]; omega), List.getElem?_drop]
      congr 1
      simp [bytes32]
      omega

theorem sumFieldSizes_cons (c : Con) (rest : List Con) :
    sumFieldSizes (c :: rest) = ComputeParamMemSizeOfType c.mType + sumFieldSizes rest := rfl

theorem sumFieldSizes_take_add_le (fields : List Con) :
    ∀ (j : Nat) (c : Con), fields[j]? = some c →
      sumFieldSizes (fields.take j) + ComputeParamMemSizeOfType c.mType
        ≤ sumFieldSizes fields := by
  induction fields with
  | nil => intro j c h; simp at h
  | cons c0 rest ih =>
    intro j c h
    cases j with
    | zero =>
      simp only [List.getElem?_cons_zero, Option.some.injEq] at h
      subst h
      simp only [List.take_zero, sumFieldSizes_cons]
      simp [sumFieldSizes]
    | succ j =>
      simp only [List.getElem?_cons_succ] at h
      have := ih j c h
      simp only [List.take_succ_cons, sumFieldSizes_cons]
      omega

/-- The writes of `SetMouseRatios` on a block of bytes, field by field: when every
field with an X range has 4 bytes at least, every field with a Y range 8 bytes at least,
and the block holds the fields, all writes are inside the block, and a byte that differs
afterwards is in the first float of a field with an X range or in the second float of a
field with a Y range. -/
theorem SetMouseRatios_onFields_bytes (lerp : ℚ → ℚ → Nat → Nat) (rx ry : Nat)
    (fields : List Con) :
    ∀ (off : Nat) (block : List Byte),
      (∀ c ∈ fields, (hasRangeX c → 4 ≤ ComputeParamMemSizeOfType c.mType) ∧
        (hasRangeY c → 8 ≤ ComputeParamMemSizeOfType c.mType)) →
      off + sumFieldSizes fields ≤ block.length →
      ∃ block', SetMouseRatios.onFields lerp rx ry fields off (some block)
          = some block' ∧
        block'.length = block.length ∧
        ∀ p, block'[p]? ≠ block[p]? →
          ∃ j c, fields[j]? = some c ∧
            ((hasRangeX c ∧ off + sumFieldSizes (fields.take j) ≤ p ∧
                p < off + sumFieldSizes (fields.take j) + 4) ∨
              (hasRangeY c ∧ off + sumFieldSizes (fields.take j) + 4 ≤ p ∧
                p < off + sumFieldSizes (fields.take j) + 8)) := by
  induction fields with
  | nil =>
    intro off block _ _
    exact ⟨block, rfl, rfl, fun p hp => absurd rfl hp⟩
  | cons c rest ih =>
    intro off block hsz hlen
    rw [sumFieldSizes_cons] at hlen
    obtain ⟨hx, hy⟩ := hsz c (List.mem_cons_self _ _)
    -- the X write
    have h1 : ∃ b1, (if c.mRangeMinX ≠ 0 ∨ c.mRangeMaxX ≠ 0 then
          storeFloat (some block) off (lerp c.mRangeMinX c.mRangeMaxX rx)
        else some block) = some b1 ∧ b1.length = block.length ∧
        ∀ p, b1[p]? ≠ block[p]? → hasRangeX c ∧ off ≤ p ∧ p < off + 4 := by
      by_cases hX : c.mRangeMinX ≠ 0 ∨ c.mRangeMaxX ≠ 0
      · have := hx hX
        obtain ⟨b1, e1, l1, f1⟩ := storeFloat_spec block off
          (lerp c.mRangeMinX c.mRangeMaxX rx) (by omega)
        exact ⟨b1, by rw [if_pos hX, e1], l1, fun p hp => ⟨hX, f1 p hp⟩⟩
      · exact ⟨block, by rw [if_neg hX], rfl, fun p hp => absurd rfl hp⟩
    obtain ⟨b1, e1, l1, f1⟩ := h1
    -- the Y write
    have h2 : ∃ b2, (if c.mRangeMinY ≠ 0 ∨ c.mRangeMaxY ≠ 0 then
          storeFloat (some b1) (off + 4) (lerp c.mRangeMinY c.mRangeMaxY ry)
        else some b1) = some b2 ∧ b2.length = b1.length ∧
        ∀ p, b2[p]? ≠ b1[p]? → hasRangeY c ∧ off + 4 ≤ p ∧ p < off + 8 := by
      by_cases hY : c.mRangeMinY ≠ 0 ∨ c.mRangeMaxY ≠ 0
      · have := hy hY
        obtain ⟨b2, e2, l2, f2⟩ := storeFloat_spec b1 (off + 4)
          (lerp c.mRangeMinY c.mRangeMaxY ry) (by omega)
        exact ⟨b2, by rw [if_pos hY, e2], l2, fun p hp => ⟨hY, by have := f2 p hp; omega⟩⟩
      · exact ⟨b1, by rw [if_neg hY], rfl, fun p hp => absurd rfl hp⟩
    obtain ⟨b2, e2, l2, f2⟩ := h2
    obtain ⟨b', e', l', f'⟩ := ih (off + ComputeParamMemSizeOfType c.mType) b2
      (fun d hd => hsz d (List.mem_cons_of_mem _ hd)) (by omega)
    refine ⟨b', ?_, by omega, ?_⟩
    · simp only [SetMouseRatios.onFields, e1, e2, e']
    · intro p hp
      by_cases hp2 : b'[p]? = b2[p]?
      · by_cases hp1 : b2[p]? = b1[p]?
        · have hne : b1[p]? ≠ block[p]? := fun h => hp (by rw [hp2, hp1, h])
          obtain ⟨hX, ha, hb⟩ := f1 p hne
          exact ⟨0, c, List.getElem?_cons_zero, Or.inl ⟨hX, by simpa [sumFieldSizes] using ha,
            by simpa [sumFieldSizes] using hb⟩⟩
        · obtain ⟨hY, ha, hb⟩ := f2 p hp1
          exact ⟨0, c, List.getElem?_cons_zero, Or.inr ⟨hY, by simpa [sumFieldSizes] using ha,
            by simpa [sumFieldSizes] using hb⟩⟩
      · obtain ⟨j, c', hj, hcase⟩ := f' p hp2
        refine ⟨j + 1, c', by simpa using hj, ?_⟩
        simp only [List.take_succ_cons, sumFieldSizes_cons]
        rcases hcase with ⟨hX, ha, hb⟩ | ⟨hY, ha, hb⟩
        · exact Or.inl ⟨hX, by omega, by omega⟩
        · exact Or.inr ⟨hY, by omega, by omega⟩

theorem namedParams_range_sizes {typeIndex : Nat} {m : MetaNode}
    (hm : GetMetaNodes typeIndex = some m) :
    ∀ c ∈ namedParams m,
      (hasRangeX c → 4 ≤ ComputeParamMemSizeOfType c.mType) ∧
      (hasRangeY c → 8 ≤ ComputeParamMemSizeOfType c.mType) := by
  have h : ∀ m ∈ metaNodes, ∀ c ∈ namedParams m,
      (hasRangeX c → 4 ≤ ComputeParamMemSizeOfType c.mType) ∧
      (hasRangeY c → 8 ≤ ComputeParamMemSizeOfType c.mType) := by
    simp [metaNodes, namedParams, con, conR, hasRangeX, hasRangeY, ComputeParamMemSizeOfType]
  exact h m (GetMetaNodes_mem hm)

theorem SetEvaluationCall_mCall (ev : Evaluation) (target : Nat) (call : String)
    (h : target < ev.mStages.length) :
    ∃ stage, (SetEvaluationCall ev target call).mStages[target]? = some stage ∧
      stage.mCall = call := by
  have hs : ev.mStages[target]? = some ev.mStages[target] := List.getElem?_eq_getElem h
  exact ⟨{ ev.mStages[target] with mCall := call }, by simp [SetEvaluationCall, hs, h], rfl⟩

theorem getElem?_lt_length {α : Type} {l : List α} {i : Nat} {a : α}
    (h : l[i]? = some a) : i < l.length := by
  by_contra hge
  rw [List.getElem?_eq_none (by omega)] at h
  cases h

/-- `SetMouseRatios` on a selected node of a table type, with the block `AddNode` gave
it: the loop returns a block of the same length, differing only in the floats of the
ranged axes; then the call string of the new block is computed and registered, when
its literals fit `tmps`. -/
theorem SetMouseRatios_eq (E : Env) (hMax : 4 ≤ E.MaxCon) (lerp : ℚ → ℚ → Nat → Nat)
    (d : TileNodeEditGraphDelegate) (rx ry : Nat) (node : ImogenNode)
    (hsel : d.mNodes[d.mSelectedNodeIndex]? = some node)
    (m : MetaNode) (htype : GetMetaNodes node.mType = some m)
    (hsize : node.mParams.length = sumFieldSizes (namedParams m)) :
    ∃ block',
      SetMouseRatios.loop lerp m.mParams rx ry E.MaxCon 0 0 (some node.mParams)
        = some block' ∧
      block'.length = node.mParams.length ∧
      (∀ p, block'[p]? ≠ node.mParams[p]? →
        ∃ j c, (namedParams m)[j]? = some c ∧
          ((hasRangeX c ∧
              0 + sumFieldSizes ((namedParams m).take j) ≤ p ∧
              p < 0 + sumFieldSizes ((namedParams m).take j) + 4) ∨
            (hasRangeY c ∧
              0 + sumFieldSizes ((namedParams m).take j) + 4 ≤ p ∧
              p < 0 + sumFieldSizes ((namedParams m).take j) + 8))) ∧
      SetMouseRatios E lerp d rx ry =
        if literalsFit (namedParams m) block' then
          some { d with
            mNodes := d.mNodes.set d.mSelectedNodeIndex { node with mParams := block' }
            evaluation := SetEvaluationCall d.evaluation node.mEvaluationTexture
              (callString m block') }
        else none := by
  have hlen := namedParams_length_le_four htype
  have hrange := namedParams_range_sizes htype
  have hloop := SetMouseRatios_loop_eq lerp m.mParams
    rx ry E.MaxCon 0 0 (some node.mParams) (by simpa [namedParams] using le_trans hlen hMax)
  simp only [List.drop_zero] at hloop
  obtain ⟨block', e', l', f'⟩ := SetMouseRatios_onFields_bytes lerp rx ry
    (namedParams m) 0 node.mParams hrange (by omega)
  have hi := getElem?_lt_length hsel
  have hget : (d.mNodes.set d.mSelectedNodeIndex { node with mParams := block' })[
      d.mSelectedNodeIndex]? = some { node with mParams := block' } := by
    simp [hi]
  have hcall := ComputeFunctionCall_eq E hMax _ d.mSelectedNodeIndex _ hget m htype
    (by simp only [l', hsize]; exact le_refl _)
  have hloop' : SetMouseRatios.loop lerp m.mParams
      rx ry E.MaxCon 0 0 (some node.mParams) = some block' := by
    rw [hloop]; exact e'
  refine ⟨block', hloop', l', f', ?_⟩
  by_cases hfit : literalsFit (namedParams m) block'
  · rw [if_pos hfit] at hcall
    rw [if_pos hfit]
    simp [SetMouseRatios, hsel, htype, hloop', hcall]
  · rw [if_neg hfit] at hcall
    rw [if_neg hfit]
    simp [SetMouseRatios, hsel, htype, hloop', hcall]

/-- C19. `SetMouseRatios` writes only the first float of the fields whose X range is
not (0,0) and the second float of the fields whose Y range is not (0,0). For every
node type of the table (every field of which with a Y range has two floats at least),
the selected node having a block of `ComputeParamMemSize(type)` bytes, and all `rx`,
`ry`: the loop of `SetMouseRatios` returns a block of the same length (every write is
inside the block), and every byte of it that differs from the block before is in the
first float of a field with an X range or in the second float of a field with a Y
range, inside that field and inside the block. The function then computes the call
string of the new block and registers it: it returns exactly when `ComputeFunctionCall`
does, which is the case when the literals of the new block fit `tmps`; and when it
returns, the selected node has the new block, its type and its evaluation target are
unchanged, and so are the other nodes. -/
theorem C19_SetMouseRatios_frame (E : Env) (hMax : 4 ≤ E.MaxCon)
    (lerp : ℚ → ℚ → Nat → Nat)
    (d : TileNodeEditGraphDelegate) (rx ry : Nat) (node : ImogenNode)
    (hsel : d.mNodes[d.mSelectedNodeIndex]? = some node)
    (m : MetaNode) (htype : GetMetaNodes node.mType = some m)
    (hsize : ComputeParamMemSize E node.mType = some node.mParams.length) :
    (∀ c ∈ namedParams m, hasRangeY c → 2 * 4 ≤ ComputeParamMemSizeOfType c.mType) ∧
    ∃ block',
      SetMouseRatios.loop lerp m.mParams rx ry E.MaxCon 0 0 (some node.mParams)
        = some block' ∧
      block'.length = node.mParams.length ∧
      (∀ p, block'[p]? ≠ node.mParams[p]? →
        ∃ j c, (namedParams m)[j]? = some c ∧
          ((hasRangeX c ∧
              sumFieldSizes ((namedParams m).take j) ≤ p ∧
              p < sumFieldSizes ((namedParams m).take j) + 4) ∨
            (hasRangeY c ∧
              sumFieldSizes ((namedParams m).take j) + 4 ≤ p ∧
              p < sumFieldSizes ((namedParams m).take j) + 8)) ∧
          p < sumFieldSizes ((namedParams m).take j) + ComputeParamMemSizeOfType c.mType ∧
          p < node.mParams.length) ∧
      SetMouseRatios E lerp d rx ry =
        (ComputeFunctionCall E
          (d.mNodes.set d.mSelectedNodeIndex { node with mParams := block' })
          d.mSelectedNodeIndex).map (fun call => { d with
            mNodes := d.mNodes.set d.mSelectedNodeIndex { node with mParams := block' }
            evaluation := SetEvaluationCall d.evaluation node.mEvaluationTexture call }) ∧
      (literalsFit (namedParams m) block' →
        ∃ d', SetMouseRatios E lerp d rx ry = some d') ∧
      (∀ d', SetMouseRatios E lerp d rx ry = some d' →
        d'.mNodes[d.mSelectedNodeIndex]? = some { node with mParams := block' } ∧
        ∀ i, i ≠ d.mSelectedNodeIndex → d'.mNodes[i]? = d.mNodes[i]?) := by
  have hrange := namedParams_range_sizes htype
  have hcpms := ComputeParamMemSize_eq_sumFieldSizes E hMax htype
  rw [hcpms] at hsize
  have hsize' : node.mParams.length = sumFieldSizes (namedParams m) :=
    (Option.some.inj hsize).symm
  obtain ⟨block', hloop, l', f', hset⟩ :=
    SetMouseRatios_eq E hMax lerp d rx ry node hsel m htype hsize'
  have hi := getElem?_lt_length hsel
  have hmap : SetMouseRatios E lerp d rx ry =
      (ComputeFunctionCall E
        (d.mNodes.set d.mSelectedNodeIndex { node with mParams := block' })
        d.mSelectedNodeIndex).map (fun call => { d with
          mNodes := d.mNodes.set d.mSelectedNodeIndex { node with mParams := block' }
          evaluation := SetEvaluationCall d.evaluation node.mEvaluationTexture call }) := by
    simp only [SetMouseRatios, hsel, htype, hloop, Option.bind_eq_bind, Option.some_bind,
      Option.pure_def]
    cases ComputeFunctionCall E
      (d.mNodes.set d.mSelectedNodeIndex { node with mParams := block' })
      d.mSelectedNodeIndex <;> rfl
  refine ⟨fun c hc hY => (hrange c hc).2 hY, block', hloop, l', ?_, hmap, ?_, ?_⟩
  · intro p hp
    obtain ⟨j, c, hj, hcase⟩ := f' p hp
    have hmem : c ∈ namedParams m := List.getElem?_mem hj
    have hle := sumFieldSizes_take_add_le _ j c hj
    obtain ⟨hx, hy⟩ := hrange c hmem
    simp only [Nat.zero_add] at hcase
    have hbound : p < sumFieldSizes ((namedParams m).take j)
        + ComputeParamMemSizeOfType c.mType := by
      rcases hcase with ⟨hX, _, hb⟩ | ⟨hY, _, hb⟩
      · have h4 := hx hX
        omega
      · have h8 := hy hY
        omega
    exact ⟨j, c, hj, hcase, hbound, by omega⟩
  · intro hfit
    rw [hset, if_pos hfit]
    exact ⟨_, rfl⟩
  · intro d' hd'
    rw [hset] at hd'
    split at hd'
    · cases hd'
      refine ⟨by simp [hi], ?_⟩
      intro i hne
      simp [List.getElem?_set_ne (Ne.symm hne)]
    · cases hd'

theorem C19_SetMouseRatios_frame_witness :
    (4 ≤ Env.sample.MaxCon ∧
      ([⟨9, 0, List.replicate 8 0⟩] : List ImogenNode)[0]? = some ⟨9, 0, List.replicate 8 0⟩ ∧
      GetMetaNodes 9 = some ⟨"LambertMaterial", hcMaterial,
        [con "Diffuse" Con_Float4, con "Normal" Con_Float4], [con "Out" Con_Float4],
        [conR "view" Con_Float2 1 0 0 1]⟩ ∧
      ComputeParamMemSize Env.sample 9 = some (List.replicate 8 (0 : Byte)).length) ∧
    ((∀ c ∈ namedParams ⟨"LambertMaterial", hcMaterial,
        [con "Diffuse" Con_Float4, con "Normal" Con_Float4], [con "Out" Con_Float4],
        [conR "view" Con_Float2 1 0 0 1]⟩,
      hasRangeY c → 2 * 4 ≤ ComputeParamMemSizeOfType c.mType) ∧
    ∃ block',
      SetMouseRatios.loop (fun _ _ t => t) [conR "view" Con_Float2 1 0 0 1]
        0x3E800000 0x3F000000 Env.sample.MaxCon 0 0 (some (List.replicate 8 0))
        = some block' ∧
      block'.length = (List.replicate 8 (0 : Byte)).length ∧
      (∀ p, block'[p]? ≠ (List.replicate 8 (0 : Byte))[p]? →
        ∃ j c, (namedParams ⟨"LambertMaterial", hcMaterial,
            [con "Diffuse" Con_Float4, con "Normal" Con_Float4], [con "Out" Con_Float4],
            [conR "view" Con_Float2 1 0 0 1]⟩)[j]? = some c ∧
          ((hasRangeX c ∧
              sumFieldSizes ((namedParams ⟨"LambertMaterial", hcMaterial,
                [con "Diffuse" Con_Float4, con "Normal" Con_Float4], [con "Out" Con_Float4],
                [conR "view" Con_Float2 1 0 0 1]⟩).take j) ≤ p ∧
              p < sumFieldSizes ((namedParams ⟨"LambertMaterial", hcMaterial,
                [con "Diffuse" Con_Float4, con "Normal" Con_Float4], [con "Out" Con_Float4],
                [conR "view" Con_Float2 1 0 0 1]⟩).take j) + 4) ∨
            (hasRangeY c ∧
              sumFieldSizes ((namedParams ⟨"LambertMaterial", hcMaterial,
                [con "Diffuse" Con_Float4, con "Normal" Con_Float4], [con "Out" Con_Float4],
                [conR "view" Con_Float2 1 0 0 1]⟩).take j) + 4 ≤ p ∧
              p < sumFieldSizes ((namedParams ⟨"LambertMaterial", hcMaterial,
                [con "Diffuse" Con_Float4, con "Normal" Con_Float4], [con "Out" Con_Float4],
                [conR "view" Con_Float2 1 0 0 1]⟩).take j) + 8)) ∧
          p < sumFieldSizes ((namedParams ⟨"LambertMaterial", hcMaterial,
              [con "Diffuse" Con_Float4, con "Normal" Con_Float4], [con "Out" Con_Float4],
              [conR "view" Con_Float2 1 0 0 1]⟩).take j)
            + ComputeParamMemSizeOfType c.mType ∧
          p < (List.replicate 8 (0 : Byte)).length) ∧
      SetMouseRatios Env.sample (fun _ _ t => t)
          ⟨[⟨9, 0, List.replicate 8 0⟩], 0, ⟨[⟨Input.new, ""⟩]⟩⟩ 0x3E800000 0x3F000000 =
        (ComputeFunctionCall Env.sample
          (([⟨9, 0, List.replicate 8 0⟩] : List ImogenNode).set 0 ⟨9, 0, block'⟩) 0).map
          (fun call => ⟨([⟨9, 0, List.replicate 8 0⟩] : List ImogenNode).set 0 ⟨9, 0, block'⟩,
            0, SetEvaluationCall ⟨[⟨Input.new, ""⟩]⟩ 0 call⟩) ∧
      (literalsFit (namedParams ⟨"LambertMaterial", hcMaterial,
          [con "Diffuse" Con_Float4, con "Normal" Con_Float4], [con "Out" Con_Float4],
          [conR "view" Con_Float2 1 0 0 1]⟩) block' →
        ∃ d', SetMouseRatios Env.sample (fun _ _ t => t)
          ⟨[⟨9, 0, List.replicate 8 0⟩], 0, ⟨[⟨Input.new, ""⟩]⟩⟩ 0x3E800000 0x3F000000
            = some d') ∧
      (∀ d', SetMouseRatios Env.sample (fun _ _ t => t)
          ⟨[⟨9, 0, List.replicate 8 0⟩], 0, ⟨[⟨Input.new, ""⟩]⟩⟩ 0x3E800000 0x3F000000
            = some d' →
        d'.mNodes[0]? = some ⟨9, 0, block'⟩ ∧
        ∀ i, i ≠ 0 → d'.mNodes[i]? = ([⟨9, 0, List.replicate 8 0⟩] : List ImogenNode)[i]?)) :=
  ⟨⟨by decide, rfl, rfl, by decide⟩,
    C19_SetMouseRatios_frame Env.sample (by decide) (fun _ _ t => t)
      ⟨[⟨9, 0, List.replicate 8 0⟩], 0, ⟨[⟨Input.new, ""⟩]⟩⟩ 0x3E800000 0x3F000000
      ⟨9, 0, List.replicate 8 0⟩ rfl _ rfl (by decide)⟩

theorem memcpy_eq (dst src : List Byte) (n : Nat) (hdst : dst.length = n)
    (hsrc : n ≤ src.length) : memcpy dst src n = some (src.take n) := by
  have hdrop : dst.drop n = [] := List.drop_eq_nil_of_le (by omega)
  simp [memcpy, hdst, hsrc, hdrop]

/-- `SetParamBlock` on a node of a table type that has the block `AddNode` gave it,
with a block of the size of the type at least: the bytes are copied, and the call
string of the new block is registered when its literals fit `tmps`; otherwise there
is no defined result. -/
theorem SetParamBlock_eq (E : Env) (hMax : 4 ≤ E.MaxCon) (d : TileNodeEditGraphDelegate)
    (index : Nat) (node : ImogenNode) (paramBlock : List Byte)
    (hnode : d.mNodes[index]? = some node)
    (m : MetaNode) (htype : GetMetaNodes node.mType = some m)
    (hsize : node.mParams.length = sumFieldSizes (namedParams m))
    (hblock : sumFieldSizes (namedParams m) ≤ paramBlock.length) :
    SetParamBlock E d index paramBlock =
      if literalsFit (namedParams m) (paramBlock.take (sumFieldSizes (namedParams m))) then
        some { d with
          mNodes := d.mNodes.set index { node with
            mParams := paramBlock.take (sumFieldSizes (namedParams m)) }
          evaluation := SetEvaluationCall d.evaluation node.mEvaluationTexture
            (callString m (paramBlock.take (sumFieldSizes (namedParams m)))) }
      else none := by
  have hi := getElem?_lt_length hnode
  have hcpy := memcpy_eq node.mParams paramBlock _ hsize hblock
  have hget : (d.mNodes.set index { node with
      mParams := paramBlock.take (sumFieldSizes (namedParams m)) })[index]?
      = some { node with mParams := paramBlock.take (sumFieldSizes (namedParams m)) } := by
    simp [hi]
  have hcall := ComputeFunctionCall_eq E hMax _ index _ hget m htype
    (by simp [List.length_take, hblock])
  by_cases hfit : literalsFit (namedParams m) (paramBlock.take (sumFieldSizes (namedParams m)))
  · rw [if_pos hfit] at hcall
    rw [if_pos hfit]
    simp [SetParamBlock, hnode, ComputeParamMemSize_eq_sumFieldSizes E hMax htype, hcpy, hcall]
  · rw [if_neg hfit] at hcall
    rw [if_neg hfit]
    simp [SetParamBlock, hnode, ComputeParamMemSize_eq_sumFieldSizes E hMax htype, hcpy, hcall]

theorem registeredCall_of_set (d : TileNodeEditGraphDelegate) (index : Nat)
    (node' : ImogenNode) (call : String) (mNodes : List ImogenNode) (ev : Evaluation)
    (hget : mNodes[index]? = some node')
    (htarget : node'.mEvaluationTexture < ev.mStages.length) :
    registeredCall { d with
      mNodes := mNodes
      evaluation := SetEvaluationCall ev node'.mEvaluationTexture call } index = some call := by
  obtain ⟨stage, hs, hc⟩ := SetEvaluationCall_mCall ev node'.mEvaluationTexture call htarget
  simp [registeredCall, hget, hs, hc]

/-- When the literals of the new block fit `tmps`, `SetParamBlock` returns, and then
`GetParamBlock` reports the size of the type and returns the first bytes of the block
that was passed; the other nodes are unchanged. -/
theorem SetParamBlock_GetParamBlock (E : Env) (hMax : 4 ≤ E.MaxCon)
    (d : TileNodeEditGraphDelegate)
    (index : Nat) (node : ImogenNode) (paramBlock : List Byte)
    (hnode : d.mNodes[index]? = some node)
    (m : MetaNode) (htype : GetMetaNodes node.mType = some m)
    (hsize : node.mParams.length = sumFieldSizes (namedParams m))
    (hblock : sumFieldSizes (namedParams m) ≤ paramBlock.length)
    (hfit : literalsFit (namedParams m) (paramBlock.take (sumFieldSizes (namedParams m)))) :
    ∃ d', SetParamBlock E d index paramBlock = some d' ∧
      GetParamBlock E d' index
        = some (paramBlock.take (sumFieldSizes (namedParams m)),
            sumFieldSizes (namedParams m)) ∧
      (∀ j, j ≠ index → d'.mNodes[j]? = d.mNodes[j]?) ∧
      registeredCall d' index = (if node.mEvaluationTexture < d.evaluation.mStages.length
        then ComputeFunctionCall E d'.mNodes index else none) := by
  have hi := getElem?_lt_length hnode
  have hget : (d.mNodes.set index { node with
      mParams := paramBlock.take (sumFieldSizes (namedParams m)) })[index]?
      = some { node with mParams := paramBlock.take (sumFieldSizes (namedParams m)) } := by
    simp [hi]
  refine ⟨_, by rw [SetParamBlock_eq E hMax d index node paramBlock hnode m htype hsize hblock,
    if_pos hfit], ?_, ?_, ?_⟩
  · simp [GetParamBlock, hget, ComputeParamMemSize_eq_sumFieldSizes E hMax htype]
  · intro j hj
    simp [List.getElem?_set_ne (Ne.symm hj)]
  · have hcall := ComputeFunctionCall_eq_callString E hMax _ index _ hget m htype
      (by simp [List.length_take, hblock]) hfit
    split
    · rename_i htarget
      rw [hcall]
      exact registeredCall_of_set d index
        { node with mParams := paramBlock.take (sumFieldSizes (namedParams m)) } _ _ _
        hget htarget
    · rename_i htarget
      have hnone : d.evaluation.mStages[node.mEvaluationTexture]? = none :=
        List.getElem?_eq_none (by omega)
      simp [registeredCall, hget, SetEvaluationCall, hnone]

set_option maxRecDepth 100000 in
/-- C8 (failing input). A Ramp node with the zeroed block of 64 bytes that `AddNode`
gave it, and a block of sixteen floats `FLT_MAX`: `memcpy` copies the 64 bytes, then
the `sprintf` of the ramp in `ComputeFunctionCall` writes 808 characters into
`char tmps[512]`, and `SetParamBlock` has no defined result; the claim has
`GetParamBlock` return the copied bytes afterwards. -/
theorem C8_SetParamBlock_overflow :
    (AddNode Env.sample TileNodeEditGraphDelegate.empty 15).map
      (fun d => (d.mNodes, SetParamBlock Env.sample d 0 rampOfMax))
      = some ([⟨15, 0, List.replicate 64 0⟩], none) ∧
    ComputeParamMemSize Env.sample 15 = some 64 ∧ rampOfMax.length = 64 ∧
    memcpy (List.replicate 64 0) rampOfMax 64 = some rampOfMax ∧
    ComputeFunctionCall Env.sample
      (([⟨15, 0, List.replicate 64 0⟩] : List ImogenNode).set 0 ⟨15, 0, rampOfMax⟩) 0 = none := by
  decide

/-- `AddNode` on a type of the table registers the call string of the zeroed block for
the new node. -/
theorem AddNode_registeredCall (E : Env) (hMax : 4 ≤ E.MaxCon)
    (d : TileNodeEditGraphDelegate) (type : Nat) (htype : type < 18) :
    ∃ d' call, AddNode E d type = some d' ∧
      ComputeFunctionCall E d'.mNodes d.mNodes.length = some call ∧
      d'.evaluation = SetEvaluationCall (AddEvaluationTarget d.evaluation).1
        (AddEvaluationTarget d.evaluation).2 call ∧
      registeredCall d' d.mNodes.length = some call := by
  obtain ⟨m, hm⟩ := GetMetaNodes_isSome type htype
  have hget : (d.mNodes ++ [(⟨type, d.evaluation.mStages.length,
      List.replicate (sumFieldSizes (namedParams m)) 0⟩ : ImogenNode)])[d.mNodes.length]?
      = some ⟨type, d.evaluation.mStages.length,
        List.replicate (sumFieldSizes (namedParams m)) 0⟩ := by simp
  have hcall := ComputeFunctionCall_eq_callString E hMax _ d.mNodes.length _ hget m hm
    (by simp) (literalsFit_zero hm)
  refine ⟨_, _, AddNode_eq E hMax d type m hm, hcall, rfl, ?_⟩
  exact registeredCall_of_set d d.mNodes.length
    ⟨type, d.evaluation.mStages.length, List.replicate (sumFieldSizes (namedParams m)) 0⟩
    _ _ _ hget (by simp [AddEvaluationTarget])

set_option maxRecDepth 100000 in
/-- C15 (failing input). A delegate with a Checker node and a Ramp node, as two calls
of `AddNode` leave it: the call string registered for the Ramp node is that of its
zeroed block. `SetParamBlock` on the Ramp node with sixteen floats `FLT_MAX` copies the
bytes and then has no defined result, `ComputeFunctionCall` on the block as it is
after the write being undefined (808 characters written into `char tmps[512]`): no
call string is registered for the new block. Likewise for `SetMouseRatios` on a
selected Ramp node holding these floats. -/
theorem C15_call_registered_overflow :
    ((AddNode Env.sample TileNodeEditGraphDelegate.empty 3).bind
        (fun d => AddNode Env.sample d 15)).map
      (fun d => (d.mNodes.map (fun node => node.mType),
        registeredCall d 1 == ComputeFunctionCall Env.sample d.mNodes 1,
        SetParamBlock Env.sample d 1 rampOfMax,
        ComputeFunctionCall Env.sample (d.mNodes.set 1 ⟨15, 1, rampOfMax⟩) 1))
      = some ([3, 15], true, none, none) ∧
    SetMouseRatios Env.sample (fun _ _ t => t)
      ⟨[⟨15, 0, rampOfMax⟩], 0, ⟨[⟨Input.new, ""⟩]⟩⟩ 0 0 = none := by
  decide

theorem ComputeFunctionCall_loop_eq_run (mParams : List Con) (block : List Byte) :
    ∀ (left i off : Nat) (tmps call : String),
      ComputeFunctionCall.loop mParams block left i off tmps call
        = ComputeFunctionCall.run block (ComputeFunctionCall.cursor mParams left i off).1
            tmps call := by
  intro left
  induction left with
  | zero => intro i off tmps call; rfl
  | succ left ih =>
    intro i off tmps call
    cases hn : (conAt mParams i).mName with
    | none => simp [ComputeFunctionCall.loop, ComputeFunctionCall.cursor, hn,
        ComputeFunctionCall.run]
    | some name =>
      simp only [ComputeFunctionCall.loop, ComputeFunctionCall.cursor, hn,
        ComputeFunctionCall.run, ih]

theorem ComputeFunctionCall_cursor_eq (mParams : List Con) :
    ∀ (left i off : Nat),
      ((mParams.drop i).takeWhile (fun c => c.mName.isSome)).length ≤ left →
      (ComputeFunctionCall.cursor mParams left i off).2
          = off + sumFieldSizes ((mParams.drop i).takeWhile (fun c => c.mName.isSome)) ∧
      ∀ j, (ComputeFunctionCall.cursor mParams left i off).1[j]?
          = (((mParams.drop i).takeWhile (fun c => c.mName.isSome))[j]?).map
              (fun c => (off + sumFieldSizes
                (((mParams.drop i).takeWhile (fun c => c.mName.isSome)).take j), c.mType)) := by
  intro left
  induction left with
  | zero =>
    intro i off h
    have h0 : (mParams.drop i).takeWhile (fun c => c.mName.isSome) = [] :=
      List.length_eq_zero.mp (Nat.le_zero.mp h)
    simp [ComputeFunctionCall.cursor, h0, sumFieldSizes]
  | succ left ih =>
    intro i off h
    cases hd : mParams.drop i with
    | nil =>
      simp [ComputeFunctionCall.cursor, conAt_of_drop_nil hd, Con.zero, sumFieldSizes]
    | cons c rest =>
      obtain ⟨hc, hrest⟩ := conAt_of_drop_cons hd
      rw [hd] at h
      cases hn : c.mName with
      | none =>
        simp [ComputeFunctionCall.cursor, hc, hn, List.takeWhile, sumFieldSizes]
      | some name =>
        have htw : (c :: rest).takeWhile (fun c => c.mName.isSome)
            = c :: rest.takeWhile (fun c => c.mName.isSome) := by
          simp [List.takeWhile, hn]
        rw [htw] at h ⊢
        obtain ⟨ih2, ihj⟩ := ih (i + 1) (off + ComputeParamMemSizeOfType c.mType)
          (by rw [hrest]; simpa using h)
        rw [hrest] at ih2 ihj
        simp only [ComputeFunctionCall.cursor, hc, hn]
        refine ⟨by rw [ih2, sumFieldSizes_cons]; omega, ?_⟩
        intro j
        cases j with
        | zero => simp [sumFieldSizes]
        | succ j =>
          simp only [List.getElem?_cons_succ, ihj, List.take_succ_cons, sumFieldSizes_cons,
            Nat.add_assoc]

theorem floatsRead_mul (t : ConTypes) :
    4 * ComputeFunctionCall.floatsRead t = ComputeParamMemSizeOfType t := by
  cases t <;> rfl

theorem mem_reads_iff (t : ConTypes) (off p : Nat) :
    p ∈ ComputeFunctionCall.reads t off ↔ off ≤ p ∧ p < off + ComputeParamMemSizeOfType t := by
  rw [← floatsRead_mul]
  simp only [ComputeFunctionCall.reads, List.mem_flatMap, List.mem_range, floatReads,
    List.mem_cons, List.mem_singleton, List.not_mem_nil, or_false]
  constructor
  · rintro ⟨k, hk, h⟩
    omega
  · intro h
    refine ⟨(p - off) / 4, by omega, ?_⟩
    omega

/-- The bytes of `ComputeFunctionCall.reads` are what the `switch` accesses: when they
are inside the block its reads are defined and the text is formatted, and the text is
the same on every block that has the same bytes there. -/
theorem format_reads (t : ConTypes) (off : Nat) (block block' : List Byte) (tmps : String)
    (h : ∀ p ∈ ComputeFunctionCall.reads t off, p < block.length ∧ block'[p]? = block[p]?) :
    ∃ s, ComputeFunctionCall.format t block off tmps = some s ∧
      ComputeFunctionCall.format t block' off tmps = some s := by
  cases ht : hasLiteral t with
  | false =>
    cases t <;> first | exact ⟨tmps, rfl, rfl⟩ | simp [hasLiteral] at ht
  | true =>
    have hpos : 0 < ComputeParamMemSizeOfType t := by
      cases t <;> first | decide | simp [hasLiteral] at ht
    have hlast := h (off + ComputeParamMemSizeOfType t - 1)
      ((mem_reads_iff t off _).2 (by omega))
    have hlen : off + ComputeParamMemSizeOfType t ≤ block.length := by omega
    have hlen' : off + ComputeParamMemSizeOfType t ≤ block'.length := by
      have h1 := hlast.2
      rw [List.getElem?_eq_getElem hlast.1] at h1
      have := getElem?_lt_length h1
      omega
    have hfield : (block'.drop off).take (ComputeParamMemSizeOfType t)
        = (block.drop off).take (ComputeParamMemSizeOfType t) := by
      apply List.ext_getElem?
      intro q
      simp only [List.getElem?_take, List.getElem?_drop]
      split
      · exact (h (off + q) ((mem_reads_iff t off _).2 (by omega))).2
      · rfl
    exact ⟨_, format_eq t block off tmps ht hlen,
      by rw [format_eq t block' off tmps ht hlen', hfield]⟩

/-- C18. For every node type of the table, the loop of `ComputeFunctionCall` is the
`switch` run once per named parameter field, in order, field `j` at the byte offset
that is the sum of the sizes of the fields before it; the bytes a `switch` accesses are
those of `ComputeFunctionCall.reads` (when they are inside the block the reads are
defined, and the text formatted depends on these bytes only), which lie inside the
field's own `ComputeParamMemSize(field type)` bytes and inside the first
`ComputeParamMemSize(type)` bytes; the pointer ends at exactly
`ComputeParamMemSize(type)`; so on a block of `ComputeParamMemSize(type)` bytes every
read of every `switch` is inside the block, and `ComputeFunctionCall` has a defined
result unless a text does not fit `tmps`; on the zeroed block that `AddNode` allocates
it returns. -/
theorem C18_ComputeFunctionCall_reads (E : Env) (hMax : 4 ≤ E.MaxCon) (type : Nat)
    (m : MetaNode) (htype : GetMetaNodes type = some m)
    (size : Nat) (hsize : ComputeParamMemSize E type = some size) :
    (∀ (block : List Byte) (tmps call : String),
      ComputeFunctionCall.loop m.mParams block E.MaxCon 0 0 tmps call
        = ComputeFunctionCall.run block
            (ComputeFunctionCall.cursor m.mParams E.MaxCon 0 0).1 tmps call) ∧
    (∀ j, (ComputeFunctionCall.cursor m.mParams E.MaxCon 0 0).1[j]?
        = ((namedParams m)[j]?).map
            (fun c => (sumFieldSizes ((namedParams m).take j), c.mType))) ∧
    (∀ (t : ConTypes) (off : Nat) (block block' : List Byte) (tmps : String),
      (∀ p ∈ ComputeFunctionCall.reads t off, p < block.length ∧ block'[p]? = block[p]?) →
      ∃ s, ComputeFunctionCall.format t block off tmps = some s ∧
        ComputeFunctionCall.format t block' off tmps = some s) ∧
    (∀ (off : Nat) (t : ConTypes),
      (off, t) ∈ (ComputeFunctionCall.cursor m.mParams E.MaxCon 0 0).1 →
      ∀ p ∈ ComputeFunctionCall.reads t off,
        off ≤ p ∧ p < off + ComputeParamMemSizeOfType t ∧ p < size) ∧
    (ComputeFunctionCall.cursor m.mParams E.MaxCon 0 0).2 = size ∧
    (∀ (mNodes : List ImogenNode) (index : Nat) (node : ImogenNode),
      mNodes[index]? = some node → node.mType = type → node.mParams.length = size →
      (∀ (off : Nat) (t : ConTypes) (tmps : String),
        (off, t) ∈ (ComputeFunctionCall.cursor m.mParams E.MaxCon 0 0).1 →
        (∀ p ∈ ComputeFunctionCall.reads t off, p < node.mParams.length) ∧
        ∃ s, ComputeFunctionCall.format t node.mParams off tmps = some s) ∧
      ComputeFunctionCall E mNodes index
        = if literalsFit (namedParams m) node.mParams
          then some (callString m node.mParams) else none) ∧
    (∀ d : TileNodeEditGraphDelegate, ∃ d' node, AddNode E d type = some d' ∧
      d'.mNodes[d.mNodes.length]? = some node ∧
      node.mParams.length = size ∧
      ∃ s, ComputeFunctionCall E d'.mNodes d.mNodes.length = some s) := by
  have hlen := namedParams_length_le_four htype
  have hcpms := ComputeParamMemSize_eq_sumFieldSizes E hMax htype
  rw [hcpms] at hsize
  cases hsize
  obtain ⟨hend, hj⟩ := ComputeFunctionCall_cursor_eq m.mParams E.MaxCon 0 0
    (by simpa [namedParams] using le_trans hlen hMax)
  simp only [List.drop_zero, Nat.zero_add] at hend hj
  have hin : ∀ (off : Nat) (t : ConTypes),
      (off, t) ∈ (ComputeFunctionCall.cursor m.mParams E.MaxCon 0 0).1 →
      ∀ p ∈ ComputeFunctionCall.reads t off,
        off ≤ p ∧ p < off + ComputeParamMemSizeOfType t ∧
          p < sumFieldSizes (namedParams m) := by
    intro off t hmem p hp
    obtain ⟨j, hjm⟩ := List.mem_iff_getElem?.mp hmem
    rw [hj j] at hjm
    cases hc : (m.mParams.takeWhile (fun c => c.mName.isSome))[j]? with
    | none => simp [hc] at hjm
    | some c =>
      simp only [hc, Option.map_some', Option.some.injEq, Prod.mk.injEq] at hjm
      obtain ⟨ho, ht⟩ := hjm
      have hle := sumFieldSizes_take_add_le _ j c hc
      have hb := (mem_reads_iff t off p).1 hp
      simp only [namedParams]
      subst ht
      omega
  refine ⟨fun block tmps call => ComputeFunctionCall_loop_eq_run _ block _ 0 0 tmps call,
    hj, format_reads, hin, by rw [hend]; rfl, ?_, ?_⟩
  · intro mNodes index node hnode ht hsz
    subst ht
    refine ⟨?_, ComputeFunctionCall_eq E hMax mNodes index node hnode m htype (by omega)⟩
    intro off t tmps hmem
    have hb : ∀ p ∈ ComputeFunctionCall.reads t off, p < node.mParams.length := by
      intro p hp
      have := (hin off t hmem p hp).2.2
      omega
    obtain ⟨s, hs, _⟩ := format_reads t off node.mParams node.mParams tmps
      (fun p hp => ⟨hb p hp, rfl⟩)
    exact ⟨hb, s, hs⟩
  · intro d
    have hget : (d.mNodes ++ [(⟨type, d.evaluation.mStages.length,
        List.replicate (sumFieldSizes (namedParams m)) 0⟩ : ImogenNode)])[d.mNodes.length]?
        = some ⟨type, d.evaluation.mStages.length,
          List.replicate (sumFieldSizes (namedParams m)) 0⟩ := by simp
    have hcall := ComputeFunctionCall_eq_callString E hMax _ d.mNodes.length _ hget m htype
      (by simp) (literalsFit_zero htype)
    exact ⟨_, _, AddNode_eq E hMax d type m htype, hget, by simp, _, hcall⟩

theorem C18_ComputeFunctionCall_reads_witness :
    (4 ≤ Env.sample.MaxCon ∧
      GetMetaNodes 16 = some ⟨"Tile", hcTransform, [con "In" Con_Float4],
        [con "Out" Con_Float4],
        [con "Scale" Con_Float, con "Offset 0" Con_Float2, con "Offset 1" Con_Float2,
          con "Overlap" Con_Float2]⟩ ∧
      ComputeParamMemSize Env.sample 16 = some 28) ∧
    (ComputeFunctionCall.cursor
        [con "Scale" Con_Float, con "Offset 0" Con_Float2, con "Offset 1" Con_Float2,
          con "Overlap" Con_Float2] Env.sample.MaxCon 0 0
      = ([(0, Con_Float), (4, Con_Float2), (12, Con_Float2), (20, Con_Float2)], 28)) ∧
    (∀ (off : Nat) (t : ConTypes),
      (off, t) ∈ (ComputeFunctionCall.cursor
        [con "Scale" Con_Float, con "Offset 0" Con_Float2, con "Offset 1" Con_Float2,
          con "Overlap" Con_Float2] Env.sample.MaxCon 0 0).1 →
      ∀ p ∈ ComputeFunctionCall.reads t off,
        off ≤ p ∧ p < off + ComputeParamMemSizeOfType t ∧ p < 28) :=
  ⟨⟨by decide, rfl, by decide⟩, by decide,
    (C18_ComputeFunctionCall_reads Env.sample (by decide) 16 _ rfl 28 (by decide)).2.2.2.1⟩

theorem roundHalfEven_spec (n d : Nat) (hd : 0 < d) :
    2 * (roundHalfEven n d * d) ≤ 2 * n + d ∧ 2 * n ≤ 2 * (roundHalfEven n d * d) + d := by
  have h1 := Nat.div_add_mod n d
  have h2 := Nat.mod_lt n hd
  have h3 : d * (n / d) = n / d * d := Nat.mul_comm _ _
  unfold roundHalfEven
  split
  · rename_i h
    rw [Nat.add_mul]
    rcases h with h | ⟨h, _⟩ <;> omega
  · rename_i h
    have : ¬ d < 2 * (n % d) := fun hh => h (Or.inl hh)
    omega

theorem roundHalfEven_exact (n d q : Nat) (hd : 0 < d) (h : n = q * d) :
    roundHalfEven n d = q := by
  subst h
  have h0 : q * d % d = 0 := Nat.mul_mod_left _ _
  have h1 : q * d / d = q := Nat.mul_div_cancel _ hd
  unfold roundHalfEven
  rw [h0, h1]
  simp
  omega

theorem findExp_spec (n d : Nat) :
    ∀ k, 23 ≤ f32.findExp n d k ∧ f32.findExp n d k ≤ 23 + k ∧
      (23 < f32.findExp n d k → 2 ^ f32.findExp n d k * d ≤ n * 2 ^ 149) ∧
      (∀ b, f32.findExp n d k < b → b ≤ 23 + k → ¬ 2 ^ b * d ≤ n * 2 ^ 149) := by
  intro k
  induction k with
  | zero =>
    refine ⟨by simp [f32.findExp], by simp [f32.findExp], ?_, ?_⟩
    · intro h; simp [f32.findExp] at h
    · intro b h1 h2; simp [f32.findExp] at h1; omega
  | succ k ih =>
    obtain ⟨i1, i2, i3, i4⟩ := ih
    unfold f32.findExp
    split
    · rename_i h
      refine ⟨by omega, by omega, fun _ => h, ?_⟩
      intro b h1 h2; omega
    · rename_i h
      refine ⟨i1, by omega, i3, ?_⟩
      intro b h1 h2
      by_cases hb : b = 23 + k + 1
      · subst hb; exact h
      · exact i4 b h1 (by omega)
/-- The fields of the bits that `f32.round` assembles, and the magnitude they stand
for. -/
theorem f32_num_bits (E0 kk : Nat) (hkk : kk ≤ 2 ^ 24) (hnorm : 1 ≤ E0 → 2 ^ 23 ≤ kk)
    (hfin : E0 * 2 ^ 23 + kk < 0x7F800000) :
    f32.num (E0 * 2 ^ 23 + kk) = kk * 2 ^ E0 ∧ f32.sign (E0 * 2 ^ 23 + kk) = 0 ∧
      f32.exp (E0 * 2 ^ 23 + kk) ≠ 255 := by
  have hs : f32.sign (E0 * 2 ^ 23 + kk) = 0 := by
    unfold f32.sign; omega
  by_cases h1 : kk < 2 ^ 23
  · have hE : E0 = 0 := by
      by_contra hne
      have := hnorm (by omega)
      omega
    have he : f32.exp (E0 * 2 ^ 23 + kk) = 0 := by unfold f32.exp; omega
    have hm : f32.man (E0 * 2 ^ 23 + kk) = kk := by unfold f32.man; omega
    refine ⟨?_, hs, by omega⟩
    unfold f32.num
    rw [he, hm, if_pos rfl, hE, Nat.pow_zero, Nat.mul_one]
  · by_cases h2 : kk < 2 ^ 24
    · have he : f32.exp (E0 * 2 ^ 23 + kk) = E0 + 1 := by unfold f32.exp; omega
      have hm : f32.man (E0 * 2 ^ 23 + kk) = kk - 2 ^ 23 := by unfold f32.man; omega
      refine ⟨?_, hs, by omega⟩
      have h3 : 2 ^ 23 + (kk - 2 ^ 23) = kk := by omega
      unfold f32.num
      rw [he, hm, if_neg (by omega), h3, Nat.add_sub_cancel]
    · have hk : kk = 2 ^ 24 := by omega
      have he : f32.exp (E0 * 2 ^ 23 + kk) = E0 + 2 := by unfold f32.exp; omega
      have hm : f32.man (E0 * 2 ^ 23 + kk) = 0 := by unfold f32.man; omega
      refine ⟨?_, hs, by omega⟩
      unfold f32.num
      rw [he, hm, if_neg (by omega)]
      have h3 : E0 + 2 - 1 = E0 + 1 := by omega
      rw [h3, Nat.pow_succ, hk]
      ring
set_option exponentiation.threshold 1000 in
/-- What `f32.round n d` is for `n / d` below `2^127`: with `b` the exponent found and
`kk` the rounded quotient, the bits are finite, their magnitude is `kk * 2^(b-23)`
units, and it is within half a unit `2^(b-23)` in the last place of `n / d`. -/
theorem f32_round_spec (n d : Nat) (hd : 0 < d) (hhi : n * 2 ^ 149 < 2 ^ 276 * d) :
    ∃ b kk, 23 ≤ b ∧ b ≤ 275 ∧ kk ≤ 2 ^ 24 ∧ (23 < b → 2 ^ 23 ≤ kk) ∧
      (23 < b → 2 ^ b * d ≤ n * 2 ^ 149) ∧ n * 2 ^ 149 < 2 ^ (b + 1) * d ∧
      f32.round n d = (b - 23) * 2 ^ 23 + kk ∧ f32.round n d < 0x7F800000 ∧
      f32.num (f32.round n d) = kk * 2 ^ (b - 23) ∧
      f32.sign (f32.round n d) = 0 ∧ f32.exp (f32.round n d) ≠ 255 ∧
      2 * (f32.num (f32.round n d) * d) ≤ 2 * (n * 2 ^ 149) + d * 2 ^ (b - 23) ∧
      2 * (n * 2 ^ 149) ≤ 2 * (f32.num (f32.round n d) * d) + d * 2 ^ (b - 23) := by
  obtain ⟨hb1, hb2, hb3, hb4⟩ := findExp_spec n d 254
  generalize hb : f32.findExp n d 254 = b at hb1 hb2 hb3 hb4
  -- the exponent is at most 275
  have hb275 : b ≤ 275 := by
    by_contra hgt
    have h1 := hb3 (by omega)
    have h2 : 2 ^ 276 * d ≤ 2 ^ b * d :=
      Nat.mul_le_mul_right _ (Nat.pow_le_pow_right (by decide) (by omega))
    omega
  have hup : n * 2 ^ 149 < 2 ^ (b + 1) * d := by
    by_contra hge
    exact hb4 (b + 1) (by omega) (by omega) (by omega)
  have hpd : 0 < d * 2 ^ (b - 23) := Nat.mul_pos hd (by positivity)
  have e1 : 2 ^ (b + 1) * d = 2 ^ 24 * (d * 2 ^ (b - 23)) := by
    have : b + 1 = 24 + (b - 23) := by omega
    rw [this, Nat.pow_add]; ring
  have e2 : 2 ^ b * d = 2 ^ 23 * (d * 2 ^ (b - 23)) := by
    have : b = 23 + (b - 23) := by omega
    rw [this, Nat.pow_add]
    have h0 : 23 + (b - 23) - 23 = b - 23 := by omega
    rw [h0]; ring
  obtain ⟨r1, r2⟩ := roundHalfEven_spec (n * 2 ^ 149) (d * 2 ^ (b - 23)) hpd
  generalize hkk : roundHalfEven (n * 2 ^ 149) (d * 2 ^ (b - 23)) = kk at r1 r2
  rw [e1] at hup
  have hk24 : kk ≤ 2 ^ 24 := by
    have h1 : 2 * kk * (d * 2 ^ (b - 23)) < (2 ^ 25 + 1) * (d * 2 ^ (b - 23)) := by
      have : 2 * kk * (d * 2 ^ (b - 23)) = 2 * (kk * (d * 2 ^ (b - 23))) := by ring
      rw [this, Nat.add_mul]
      omega
    have := Nat.lt_of_mul_lt_mul_right h1
    omega
  have hk23 : 23 < b → 2 ^ 23 ≤ kk := by
    intro h
    have h0 := hb3 h
    rw [e2] at h0
    have h1 : (2 ^ 24 - 1) * (d * 2 ^ (b - 23)) < (2 * kk + 1) * (d * 2 ^ (b - 23)) := by
      have : (2 * kk + 1) * (d * 2 ^ (b - 23))
          = 2 * (kk * (d * 2 ^ (b - 23))) + d * 2 ^ (b - 23) := by ring
      rw [this, Nat.sub_mul]
      omega
    have := Nat.lt_of_mul_lt_mul_right h1
    omega
  have hfin : (b - 23) * 2 ^ 23 + kk < 0x7F800000 := by omega
  have hr : f32.round n d = (b - 23) * 2 ^ 23 + kk := by
    unfold f32.round
    simp only [hb, hkk]
    rw [if_pos hfin]
  obtain ⟨n1, n2, n3⟩ := f32_num_bits (b - 23) kk hk24 (fun h => hk23 (by omega)) hfin
  have hN : f32.num (f32.round n d) * d = kk * (d * 2 ^ (b - 23)) := by
    rw [hr, n1]; ring
  refine ⟨b, kk, hb1, hb275, hk24, hk23, hb3, by rw [e1]; exact hup, hr, by rw [hr]; exact hfin,
    by rw [hr, n1], by rw [hr]; exact n2, by rw [hr]; exact n3, ?_, ?_⟩
  · rw [hN]; exact r1
  · rw [hN]; exact r2
theorem f32_bits_eq (y : Nat) (hy : y < 2 ^ 31) : y = f32.exp y * 2 ^ 23 + f32.man y := by
  unfold f32.exp f32.man; omega

/-- A quotient that is the value of a finite float is rounded to that float. -/
theorem f32_round_exact (n d y : Nat) (hd : 0 < d) (hy : y < 0x7F800000)
    (h : n * 2 ^ 149 = f32.num y * d) : f32.round n d = y := by
  obtain ⟨hb1, hb2, hb3, hb4⟩ := findExp_spec n d 254
  generalize hb : f32.findExp n d 254 = b at hb1 hb2 hb3 hb4
  have hyb := f32_bits_eq y (by omega)
  have hm : f32.man y < 2 ^ 23 := Nat.mod_lt _ (by decide)
  have hE : f32.exp y ≤ 254 := by unfold f32.exp; omega
  rw [h] at hb3 hb4
  by_cases h0 : f32.exp y = 0
  · -- a subnormal float, or zero
    have hN : f32.num y = f32.man y := by unfold f32.num; rw [if_pos h0]
    have hb23 : b = 23 := by
      by_contra hne
      have h1 := hb3 (by omega)
      rw [hN] at h1
      have h2 := Nat.le_of_mul_le_mul_right h1 hd
      have h3 : 2 ^ 24 ≤ 2 ^ b := Nat.pow_le_pow_right (by decide) (by omega)
      omega
    have hq : roundHalfEven (n * 2 ^ 149) (d * 2 ^ (b - 23)) = f32.man y := by
      apply roundHalfEven_exact _ _ _ (Nat.mul_pos hd (by positivity))
      rw [h, hN, hb23]; simp
    unfold f32.round
    simp only [hb, hq]
    have hv : (b - 23) * 2 ^ 23 + f32.man y = y := by rw [hb23]; omega
    rw [hv, if_pos hy]
  · -- a normal float
    have hN : f32.num y = (2 ^ 23 + f32.man y) * 2 ^ (f32.exp y - 1) := by
      unfold f32.num; rw [if_neg h0]
    have hlo : 2 ^ (f32.exp y + 22) ≤ f32.num y := by
      rw [hN]
      have : f32.exp y + 22 = 23 + (f32.exp y - 1) := by omega
      rw [this, Nat.pow_add]
      exact Nat.mul_le_mul_right _ (by omega)
    have hhi : f32.num y < 2 ^ (f32.exp y + 23) := by
      rw [hN]
      have : f32.exp y + 23 = 24 + (f32.exp y - 1) := by omega
      rw [this, Nat.pow_add]
      exact Nat.mul_lt_mul_of_pos_right (by omega) (by positivity)
    have hbE : b = f32.exp y + 22 := by
      apply Nat.le_antisymm
      · by_contra hgt
        have h1 := hb3 (by omega)
        have h2 := Nat.le_of_mul_le_mul_right h1 hd
        have h3 : 2 ^ (f32.exp y + 23) ≤ 2 ^ b := Nat.pow_le_pow_right (by decide) (by omega)
        omega
      · by_contra hlt
        exact hb4 (f32.exp y + 22) (by omega) (by omega) (Nat.mul_le_mul_right _ hlo)
    have hq : roundHalfEven (n * 2 ^ 149) (d * 2 ^ (b - 23)) = 2 ^ 23 + f32.man y := by
      apply roundHalfEven_exact _ _ _ (Nat.mul_pos hd (by positivity))
      rw [h, hN, hbE]
      have : f32.exp y + 22 - 23 = f32.exp y - 1 := by omega
      rw [this]; ring
    unfold f32.round
    simp only [hb, hq]
    have hv : (b - 23) * 2 ^ 23 + (2 ^ 23 + f32.man y) = y := by rw [hbE]; omega
    rw [hv, if_pos hy]
/-- For `n / d` in the range of the normal floats (from `2^-125`, below `2^127`), the
float nearest to it is finite and differs from it by no more than `2^-24` of it. -/
theorem f32_round_rel (n d : Nat) (hd : 0 < d) (hlo : 2 ^ 24 * d ≤ n * 2 ^ 149)
    (hhi : n * 2 ^ 149 < 2 ^ 276 * d) :
    f32.round n d < 0x7F800000 ∧ f32.sign (f32.round n d) = 0 ∧
      f32.exp (f32.round n d) ≠ 255 ∧
      2 ^ 24 * (f32.num (f32.round n d) * d) ≤ (2 ^ 24 + 1) * (n * 2 ^ 149) ∧
      (2 ^ 24 - 1) * (n * 2 ^ 149) ≤ 2 ^ 24 * (f32.num (f32.round n d) * d) := by
  obtain ⟨b, kk, hb1, hb2, hk1, hk2, hb3, hb4, hr, hfin, hnum, hs, he, r1, r2⟩ :=
    f32_round_spec n d hd hhi
  have hb24 : 23 < b := by
    by_contra hle
    have hb23 : b = 23 := by omega
    rw [hb23] at hb4
    have : (2 : Nat) ^ (23 + 1) = 2 ^ 24 := rfl
    rw [this] at hb4
    omega
  have h3 := hb3 hb24
  have e2 : 2 ^ b * d = 2 ^ 23 * (d * 2 ^ (b - 23)) := by
    have : b = 23 + (b - 23) := by omega
    rw [this, Nat.pow_add]
    have h0 : 23 + (b - 23) - 23 = b - 23 := by omega
    rw [h0]; ring
  rw [e2] at h3
  refine ⟨hfin, hs, he, ?_, ?_⟩
  · generalize f32.num (f32.round n d) * d = X at r1 r2
    generalize d * 2 ^ (b - 23) = D at r1 r2 h3
    generalize n * 2 ^ 149 = M at r1 r2 h3
    omega
  · generalize f32.num (f32.round n d) * d = X at r1 r2
    generalize d * 2 ^ (b - 23) = D at r1 r2 h3
    generalize n * 2 ^ 149 = M at r1 r2 h3
    omega

theorem f32_num_bounds (x : Nat) (h0 : f32.exp x ≠ 0) :
    2 ^ (f32.exp x + 22) ≤ f32.num x ∧ f32.num x < 2 ^ (f32.exp x + 23) := by
  have hm : f32.man x < 2 ^ 23 := Nat.mod_lt _ (by decide)
  have hN : f32.num x = (2 ^ 23 + f32.man x) * 2 ^ (f32.exp x - 1) := by
    unfold f32.num; rw [if_neg h0]
  constructor
  · rw [hN]
    have : f32.exp x + 22 = 23 + (f32.exp x - 1) := by omega
    rw [this, Nat.pow_add]
    exact Nat.mul_le_mul_right _ (by omega)
  · rw [hN]
    have : f32.exp x + 23 = 24 + (f32.exp x - 1) := by omega
    rw [this, Nat.pow_add]
    exact Nat.mul_lt_mul_of_pos_right (by omega) (by positivity)

/-- The fields of a float put together from a sign bit and the 31 other bits. -/
theorem f32_fields (s r : Nat) (hs : s ≤ 1) (hr : r < 2 ^ 31) :
    f32.sign (s * 2 ^ 31 + r) = s ∧ f32.exp (s * 2 ^ 31 + r) = f32.exp r ∧
      f32.man (s * 2 ^ 31 + r) = f32.man r ∧ f32.num (s * 2 ^ 31 + r) = f32.num r := by
  have h1 : f32.sign (s * 2 ^ 31 + r) = s := by unfold f32.sign; omega
  have h2 : f32.exp (s * 2 ^ 31 + r) = f32.exp r := by unfold f32.exp; omega
  have h3 : f32.man (s * 2 ^ 31 + r) = f32.man r := by unfold f32.man; omega
  refine ⟨h1, h2, h3, ?_⟩
  unfold f32.num
  rw [h2, h3]

set_option exponentiation.threshold 1000 in
theorem f32_mul_finite (x y : Nat) (hx : f32.exp x ≠ 255) (hy : f32.exp y ≠ 255) :
    f32.mul x y = some ((f32.sign x + f32.sign y) % 2 * 2 ^ 31
      + f32.round (f32.num x * f32.num y) (2 ^ 298)) := by
  simp [f32.mul, f32.isNaN, f32.isInf, hx, hy]

theorem f32_div_finite (x y : Nat) (hx : f32.exp x ≠ 255) (hy : f32.exp y ≠ 255)
    (hy0 : f32.num y ≠ 0) :
    f32.div x y = some ((f32.sign x + f32.sign y) % 2 * 2 ^ 31
      + f32.round (f32.num x) (f32.num y)) := by
  simp [f32.div, f32.isNaN, f32.isInf, hx, hy, hy0]

set_option exponentiation.threshold 1000 in
theorem c180_eq : f32.round 180 1 = 0x43340000 := by decide

set_option exponentiation.threshold 1000 in
theorem PI_eq : PI = 0x40490FD0 := by decide

theorem num_c180 : f32.num 0x43340000 = 180 * 2 ^ 149 := by decide

theorem num_PI : f32.num 0x40490FD0 = 13176784 * 2 ^ 127 := by decide

theorem exp_ge_of_num_ge (x k : Nat) (h : 2 ^ (k + 22) ≤ f32.num x) (hk : 1 ≤ k) :
    k ≤ f32.exp x := by
  by_contra hlt
  by_cases h0 : f32.exp x = 0
  · have hm : f32.man x < 2 ^ 23 := Nat.mod_lt _ (by decide)
    have hN : f32.num x = f32.man x := by unfold f32.num; rw [if_pos h0]
    have : 2 ^ 23 ≤ 2 ^ (k + 22) := Nat.pow_le_pow_right (by decide) (by omega)
    omega
  · have := (f32_num_bounds x h0).2
    have h2 : 2 ^ (f32.exp x + 23) ≤ 2 ^ (k + 22) :=
      Nat.pow_le_pow_right (by decide) (by omega)
    omega

theorem exp_le_of_num_lt (x k : Nat) (h : f32.num x < 2 ^ (k + 23)) : f32.exp x ≤ k := by
  by_contra hgt
  have h0 : f32.exp x ≠ 0 := by omega
  have := (f32_num_bounds x h0).1
  have h2 : 2 ^ (k + 23) ≤ 2 ^ (f32.exp x + 22) :=
    Nat.pow_le_pow_right (by decide) (by omega)
  omega

set_option exponentiation.threshold 1000 in
theorem RadToDeg_spec (a : Nat) (h1 : 10 ≤ f32.exp a) (h2 : f32.exp a ≤ 240) :
    ∃ d, RadToDeg a = some d ∧ d < 2 ^ 32 ∧ f32.sign d = f32.sign a ∧ f32.exp d ≠ 255 ∧
      2 ^ 48 * (f32.num d * (13176784 * 2 ^ 127))
        ≤ (2 ^ 24 + 1) ^ 2 * (f32.num a * (180 * 2 ^ 149)) ∧
      (2 ^ 24 - 1) ^ 2 * (f32.num a * (180 * 2 ^ 149))
        ≤ 2 ^ 48 * (f32.num d * (13176784 * 2 ^ 127)) := by
  obtain ⟨b1, b2⟩ := f32_num_bounds a (by omega)
  have p1 : 2 ^ 32 ≤ 2 ^ (f32.exp a + 22) := Nat.pow_le_pow_right (by decide) (by omega)
  have p2 : 2 ^ (f32.exp a + 23) ≤ 2 ^ 263 := Nat.pow_le_pow_right (by decide) (by omega)
  have hsa : f32.sign a ≤ 1 := by unfold f32.sign; omega
  -- a * 180.f
  have hm := f32_mul_finite a 0x43340000 (by omega) (by decide)
  rw [num_c180, show f32.sign 0x43340000 = 0 from by decide] at hm
  obtain ⟨f1, s1, e1, u1, l1⟩ := f32_round_rel (f32.num a * (180 * 2 ^ 149)) (2 ^ 298)
    (by positivity) (by omega) (by omega)
  generalize hr1 : f32.round (f32.num a * (180 * 2 ^ 149)) (2 ^ 298) = r1 at hm f1 s1 e1 u1 l1
  have hs1 : (f32.sign a + 0) % 2 = f32.sign a := by omega
  rw [hs1] at hm
  obtain ⟨g1, g2, g3, g4⟩ := f32_fields (f32.sign a) r1 hsa (by omega)
  -- ... / PI
  have hN1 : 0 < f32.num r1 := by
    by_contra h0
    have : f32.num r1 = 0 := by omega
    rw [this] at l1
    omega
  have hd := f32_div_finite (f32.sign a * 2 ^ 31 + r1) 0x40490FD0 (by rw [g2]; exact e1)
    (by decide) (by decide)
  rw [g1, g4, num_PI, show f32.sign 0x40490FD0 = 0 from by decide, hs1] at hd
  obtain ⟨f2, s2, e2, u2, l2⟩ := f32_round_rel (f32.num r1) (13176784 * 2 ^ 127)
    (by positivity) (by omega) (by omega)
  generalize hr2 : f32.round (f32.num r1) (13176784 * 2 ^ 127) = r2 at hd f2 s2 e2 u2 l2
  obtain ⟨k1, k2, k3, k4⟩ := f32_fields (f32.sign a) r2 hsa (by omega)
  refine ⟨f32.sign a * 2 ^ 31 + r2, ?_, by omega, k1, by rw [k2]; exact e2, ?_, ?_⟩
  · simp only [RadToDeg, c180_eq, PI_eq, hm, hd, Option.bind_eq_bind, Option.some_bind]
  · rw [k4]; omega
  · rw [k4]; omega
set_option exponentiation.threshold 1000 in
theorem DegToRad_spec (d : Nat) (h1 : 10 ≤ f32.exp d) (h2 : f32.exp d ≤ 240) :
    ∃ r, DegToRad d = some r ∧ r < 2 ^ 32 ∧ f32.sign r = f32.sign d ∧ f32.exp r ≠ 255 ∧
      2 ^ 48 * (f32.num r * (180 * 2 ^ 149))
        ≤ (2 ^ 24 + 1) ^ 2 * (f32.num d * (13176784 * 2 ^ 127)) ∧
      (2 ^ 24 - 1) ^ 2 * (f32.num d * (13176784 * 2 ^ 127))
        ≤ 2 ^ 48 * (f32.num r * (180 * 2 ^ 149)) := by
  obtain ⟨b1, b2⟩ := f32_num_bounds d (by omega)
  have p1 : 2 ^ 32 ≤ 2 ^ (f32.exp d + 22) := Nat.pow_le_pow_right (by decide) (by omega)
  have p2 : 2 ^ (f32.exp d + 23) ≤ 2 ^ 263 := Nat.pow_le_pow_right (by decide) (by omega)
  have hsd : f32.sign d ≤ 1 := by unfold f32.sign; omega
  have hs1 : (f32.sign d + 0) % 2 = f32.sign d := by omega
  -- d / 180.f
  have hq := f32_div_finite d 0x43340000 (by omega) (by decide) (by decide)
  rw [num_c180, show f32.sign 0x43340000 = 0 from by decide, hs1] at hq
  obtain ⟨f1, s1, e1, u1, l1⟩ := f32_round_rel (f32.num d) (180 * 2 ^ 149)
    (by positivity) (by omega) (by omega)
  generalize hr1 : f32.round (f32.num d) (180 * 2 ^ 149) = r1 at hq f1 s1 e1 u1 l1
  obtain ⟨g1, g2, g3, g4⟩ := f32_fields (f32.sign d) r1 hsd (by omega)
  -- ... * PI
  have hm := f32_mul_finite (f32.sign d * 2 ^ 31 + r1) 0x40490FD0 (by rw [g2]; exact e1)
    (by decide)
  rw [g1, g4, num_PI, show f32.sign 0x40490FD0 = 0 from by decide, hs1] at hm
  obtain ⟨f2, s2, e2, u2, l2⟩ := f32_round_rel (f32.num r1 * (13176784 * 2 ^ 127)) (2 ^ 298)
    (by positivity) (by omega) (by omega)
  generalize hr2 : f32.round (f32.num r1 * (13176784 * 2 ^ 127)) (2 ^ 298) = r2
    at hm f2 s2 e2 u2 l2
  obtain ⟨k1, k2, k3, k4⟩ := f32_fields (f32.sign d) r2 hsd (by omega)
  refine ⟨f32.sign d * 2 ^ 31 + r2, ?_, by omega, k1, by rw [k2]; exact e2, ?_, ?_⟩
  · simp only [DegToRad, c180_eq, PI_eq, hq, hm, Option.bind_eq_bind, Option.some_bind]
  · rw [k4]; omega
  · rw [k4]; omega
set_option exponentiation.threshold 1000 in
/-- The two conversions one after the other, on a float `a` of magnitude from `2^-100`
and below `2^101`: both are defined, the sign is kept, and the result differs from `a`
by no more than `5 * 2^-24` of `a`. -/
theorem angle_roundtrip_bound (a : Nat) (hlo : 27 ≤ f32.exp a) (hhi : f32.exp a ≤ 227) :
    (∃ d a', RadToDeg a = some d ∧ DegToRad d = some a' ∧
      f32.sign a' = f32.sign a ∧ f32.exp a' ≠ 255 ∧
      (2 ^ 24 - 5) * f32.num a ≤ 2 ^ 24 * f32.num a' ∧
      2 ^ 24 * f32.num a' ≤ (2 ^ 24 + 5) * f32.num a) ∧
    (∃ r a', DegToRad a = some r ∧ RadToDeg r = some a' ∧
      f32.sign a' = f32.sign a ∧ f32.exp a' ≠ 255 ∧
      (2 ^ 24 - 5) * f32.num a ≤ 2 ^ 24 * f32.num a' ∧
      2 ^ 24 * f32.num a' ≤ (2 ^ 24 + 5) * f32.num a) := by
  obtain ⟨b1, b2⟩ := f32_num_bounds a (by omega)
  have q1 : 2 ^ (f32.exp a + 29) = 2 ^ 6 * 2 ^ (f32.exp a + 23) := by
    have h : f32.exp a + 29 = 6 + (f32.exp a + 23) := by omega
    rw [h, Nat.pow_add]
  have q2 : 2 ^ (f32.exp a + 22) = 2 ^ 6 * 2 ^ (f32.exp a - 6 + 22) := by
    have h : f32.exp a + 22 = 6 + (f32.exp a - 6 + 22) := by omega
    rw [h, Nat.pow_add]
  have hpos : 0 < f32.num a := Nat.lt_of_lt_of_le (by positivity) b1
  constructor
  · obtain ⟨d, hd, _, sd, ed, ud, ld⟩ := RadToDeg_spec a (by omega) (by omega)
    have hN1 : f32.num a ≤ f32.num d := by omega
    have hN2 : f32.num d < 2 ^ 6 * f32.num a := by omega
    have e1 := exp_ge_of_num_ge d (f32.exp a) (by omega) (by omega)
    have e2 := exp_le_of_num_lt d (f32.exp a + 6)
      (by have : f32.exp a + 6 + 23 = f32.exp a + 29 := by omega
          rw [this, q1]; omega)
    obtain ⟨a', ha', _, sa, ea, ua, la⟩ := DegToRad_spec d (by omega) (by omega)
    exact ⟨d, a', hd, ha', by rw [sa, sd], ea, by omega, by omega⟩
  · obtain ⟨r, hr, _, sr, er, ur, lr⟩ := DegToRad_spec a (by omega) (by omega)
    have hN1 : f32.num r ≤ f32.num a := by omega
    have hN2 : f32.num a < 2 ^ 6 * f32.num r := by omega
    have e1 := exp_ge_of_num_ge r (f32.exp a - 6) (by omega) (by omega)
    have e2 := exp_le_of_num_lt r (f32.exp a) (by omega)
    obtain ⟨a', ha', _, sa, ea, ua, la⟩ := RadToDeg_spec r (by omega) (by omega)
    exact ⟨r, a', hr, ha', by rw [sa, sr], ea, by omega, by omega⟩

set_option exponentiation.threshold 1000 in
set_option maxRecDepth 100000 in
theorem f32_ofRat_zero : f32.ofRat 0 = 0 := by
  have h : f32.round 0 1 = 0 := by decide
  simp [f32.ofRat, h]

set_option exponentiation.threshold 1000 in
set_option maxRecDepth 100000 in
theorem f32_ofRat_one : f32.ofRat 1 = 0x3F800000 := by
  have h : f32.round 1 1 = 0x3F800000 := by decide
  simp [f32.ofRat, h]

/-- A float from `+0` to `1.0`: its fields. -/
theorem f32_unit_fields (t : Nat) (ht : t ≤ 0x3F800000) :
    f32.sign t = 0 ∧ f32.exp t ≠ 255 ∧ t < 0x7F800000 ∧ f32.num t ≤ 2 ^ 149 ∧
      (f32.num t = 2 ^ 149 → t = 0x3F800000) := by
  have hs : f32.sign t = 0 := by unfold f32.sign; omega
  have he : f32.exp t ≤ 127 := by unfold f32.exp; omega
  by_cases h1 : t = 0x3F800000
  · subst h1
    exact ⟨hs, by omega, by omega, by decide, fun _ => rfl⟩
  · have he' : f32.exp t ≤ 126 := by unfold f32.exp; omega
    have hlt : f32.num t < 2 ^ 149 := by
      by_cases h0 : f32.exp t = 0
      · have hm : f32.man t < 2 ^ 23 := Nat.mod_lt _ (by decide)
        have hN : f32.num t = f32.man t := by unfold f32.num; rw [if_pos h0]
        have : (2 : Nat) ^ 23 ≤ 2 ^ 149 := Nat.pow_le_pow_right (by decide) (by decide)
        omega
      · have := (f32_num_bounds t h0).2
        have h2 : 2 ^ (f32.exp t + 23) ≤ 2 ^ 149 :=
          Nat.pow_le_pow_right (by decide) (by omega)
        omega
    exact ⟨hs, by omega, by omega, by omega, fun h => by omega⟩

set_option exponentiation.threshold 1000 in
/-- `ImLerp(0, 1, t)` is `t`, for a float `t` from `+0` to `1.0`. -/
theorem ImLerp_zero_one (t : Nat) (ht : t ≤ 0x3F800000) : ImLerp 0 1 t = some t := by
  obtain ⟨hs, he, hfin, _, _⟩ := f32_unit_fields t ht
  have h1 : f32.sub 0x3F800000 0 = some 0x3F800000 := by decide
  have h2 : f32.mul 0x3F800000 t = some t := by
    rw [f32_mul_finite _ _ (by decide) he, hs,
      show f32.num 0x3F800000 = 2 ^ 149 from by decide,
      f32_round_exact (2 ^ 149 * f32.num t) (2 ^ 298) t (by positivity) hfin
        (by rw [show (2 : Nat) ^ 298 = 2 ^ 149 * 2 ^ 149 from by norm_num]; ring)]
    simp [show f32.sign 0x3F800000 = 0 from by decide]
  have h3 : f32.add 0 t = some t := by
    have hn : f32.isNaN t = false := by simp [f32.isNaN, he]
    have hi : f32.isInf t = false := by simp [f32.isInf, he]
    simp only [f32.add, show f32.isNaN 0 = false from by decide,
      show f32.isInf 0 = false from by decide, hn, hi, Bool.or_self, Bool.false_eq_true,
      if_false, show f32.sign 0 = 0 from by decide, hs, if_true,
      show f32.num 0 = 0 from by decide, Nat.zero_add, Nat.zero_mul]
    rw [f32_round_exact (f32.num t) (2 ^ 149) t (by positivity) hfin rfl]
  simp only [ImLerp, f32_ofRat_zero, f32_ofRat_one, h1, h2, h3, Option.bind_eq_bind,
    Option.some_bind]

/-- Only the zero has magnitude zero. -/
theorem f32_num_eq_zero (t : Nat) (ht : t < 2 ^ 31) (h : f32.num t = 0) : t = 0 := by
  have hb := f32_bits_eq t ht
  unfold f32.num at h
  by_cases h0 : f32.exp t = 0
  · rw [if_pos h0] at h
    rw [h0, h] at hb
    omega
  · rw [if_neg h0] at h
    have : 0 < (2 ^ 23 + f32.man t) * 2 ^ (f32.exp t - 1) := by positivity
    omega

set_option maxRecDepth 100000 in
set_option exponentiation.threshold 1000 in
/-- `ImLerp(1, 0, t)` for a float `t` from `+0` to `1.0`: the float nearest to `1 - t`,
within `2^-25` of it; `1.0` for `t = 0` and `0` for `t = 1.0`. -/
theorem ImLerp_one_zero (t : Nat) (ht : t ≤ 0x3F800000) :
    ∃ v, ImLerp 1 0 t = some v ∧ v < 2 ^ 31 ∧ f32.exp v ≠ 255 ∧
      2 * f32.num v ≤ 2 * (2 ^ 149 - f32.num t) + 2 ^ 125 ∧
      2 * (2 ^ 149 - f32.num t) ≤ 2 * f32.num v + 2 ^ 125 ∧
      (t = 0 → v = 0x3F800000) ∧ (t = 0x3F800000 → v = 0) := by
  by_cases ht0 : t = 0
  · subst ht0
    refine ⟨0x3F800000, by decide, by decide, by decide, ?_, ?_, fun _ => rfl,
      fun h => absurd h (by decide)⟩
    · rw [show f32.num 0x3F800000 = 2 ^ 149 from by decide, show f32.num 0 = 0 from by decide]
      omega
    · rw [show f32.num 0x3F800000 = 2 ^ 149 from by decide, show f32.num 0 = 0 from by decide]
      omega
  obtain ⟨hs, he, hfin, hle, hone⟩ := f32_unit_fields t ht
  have hpos : 0 < f32.num t := by
    rcases Nat.eq_zero_or_pos (f32.num t) with h | h
    · exact absurd (f32_num_eq_zero t (by omega) h) ht0
    · exact h
  have h1 : f32.sub 0 0x3F800000 = some 0xBF800000 := by decide
  have h2 : f32.mul 0xBF800000 t = some (1 * 2 ^ 31 + t) := by
    rw [f32_mul_finite _ _ (by decide) he, hs,
      show f32.num 0xBF800000 = 2 ^ 149 from by decide,
      f32_round_exact (2 ^ 149 * f32.num t) (2 ^ 298) t (by positivity) hfin
        (by rw [show (2 : Nat) ^ 298 = 2 ^ 149 * 2 ^ 149 from by norm_num]; ring)]
    simp [show f32.sign 0xBF800000 = 1 from by decide]
  obtain ⟨g1, g2, g3, g4⟩ := f32_fields 1 t (by omega) (by omega)
  have hn : f32.isNaN (1 * 2 ^ 31 + t) = false := by
    unfold f32.isNaN; rw [g2]; simp [he]
  have hi : f32.isInf (1 * 2 ^ 31 + t) = false := by
    unfold f32.isInf; rw [g2]; simp [he]
  have hadd : f32.add 0x3F800000 (1 * 2 ^ 31 + t) =
      if f32.num t = 2 ^ 149 then some 0
      else some (f32.round (2 ^ 149 - f32.num t) (2 ^ 149)) := by
    unfold f32.add
    rw [show f32.isNaN 0x3F800000 = false from by decide,
      show f32.isInf 0x3F800000 = false from by decide, hn, hi,
      show f32.sign 0x3F800000 = 0 from by decide, g1, g4,
      show f32.num 0x3F800000 = 2 ^ 149 from by decide]
    simp only [Bool.or_self, Bool.false_eq_true, if_false]
    rw [if_neg (by decide)]
    by_cases h : f32.num t = 2 ^ 149
    · rw [if_pos h, if_pos h.symm]
    · rw [if_neg h, if_neg (fun hh => h hh.symm), if_pos (by omega)]
      simp
  have hlerp : ImLerp 1 0 t = f32.add 0x3F800000 (1 * 2 ^ 31 + t) := by
    simp only [ImLerp, f32_ofRat_zero, f32_ofRat_one, h1, h2, Option.bind_eq_bind,
      Option.some_bind]
  rw [hlerp, hadd]
  by_cases h : f32.num t = 2 ^ 149
  · rw [if_pos h]
    have ht1 := hone h
    refine ⟨0, rfl, by decide, by decide, ?_, ?_, ?_, fun _ => rfl⟩
    · rw [h, show f32.num 0 = 0 from by decide]; omega
    · rw [h, show f32.num 0 = 0 from by decide]; omega
    · intro h0; omega
  · rw [if_neg h]
    obtain ⟨b, kk, hb1, hb2, hk1, hk2, hb3, hb4, hr, hrfin, hnum, hsg, hex, r1, r2⟩ :=
      f32_round_spec (2 ^ 149 - f32.num t) (2 ^ 149) (by positivity) (by omega)
    have hb148 : b ≤ 148 := by
      by_contra hgt
      have h3 := hb3 (by omega)
      have h4 := Nat.le_of_mul_le_mul_right h3 (by positivity)
      have h5 : 2 ^ 149 ≤ 2 ^ b := Nat.pow_le_pow_right (by decide) (by omega)
      omega
    have hU : 2 ^ (b - 23) ≤ 2 ^ 125 := Nat.pow_le_pow_right (by decide) (by omega)
    refine ⟨_, rfl, by omega, hex, by omega, by omega, ?_, ?_⟩
    · intro h0
      exact absurd h0 ht0
    · intro h0
      exact absurd (by rw [h0]; decide) h

theorem readFloat_congr (b b' : List Byte) (off k : Nat)
    (h : ∀ p, off + 4 * k ≤ p → p < off + 4 * k + 4 → b'[p]? = b[p]?) :
    readFloat b' off k = readFloat b off k := by
  simp only [readFloat, h (off + 4 * k) (by omega) (by omega),
    h (off + 4 * k + 1) (by omega) (by omega), h (off + 4 * k + 2) (by omega) (by omega),
    h (off + 4 * k + 3) (by omega) (by omega)]

theorem word32_bytes32 (w : Nat) :
    word32 (Fin.ofNat w) (Fin.ofNat (w / 2 ^ 8)) (Fin.ofNat (w / 2 ^ 16))
      (Fin.ofNat (w / 2 ^ 24)) = w % 2 ^ 32 := by
  simp only [word32, Fin.ofNat]
  omega

/-- The float read back at the offset of an assignment is the float assigned. -/
theorem readFloat_storeFloat (block : List Byte) (o bits : Nat) (b' : List Byte)
    (h : storeFloat (some block) o bits = some b') :
    readFloat b' o 0 = some (bits % 2 ^ 32) := by
  simp only [storeFloat] at h
  by_cases hlen : o + 4 ≤ block.length
  · rw [if_pos hlen] at h
    cases h
    have ht : (block.take o).length = o := by simp; omega
    have e : ∀ i, i < 4 → (block.take o ++ bytes32 bits ++ block.drop (o + 4))[o + i]?
        = (bytes32 bits)[i]? := by
      intro i hi
      rw [List.append_assoc, List.getElem?_append_right (by omega), ht,
        List.getElem?_append_left (by simpa [bytes32] using hi)]
      congr 1
      omega
    have e0 := e 0 (by omega)
    have e1 := e 1 (by omega)
    have e2 := e 2 (by omega)
    have e3 := e 3 (by omega)
    simp only [Nat.add_zero] at e0
    simp only [readFloat, Nat.mul_zero, Nat.add_zero, e0, e1, e2, e3]
    have hw := word32_bytes32 bits
    simp only [bytes32, List.getElem?_cons_zero, List.getElem?_cons_succ, Option.bind_eq_bind,
      Option.some_bind, Option.pure_def, hw]
  · rw [if_neg hlen] at h
    cases h

/-- The floats that `SetMouseRatios` leaves in the block, field by field: the first
float of a field with an X range is the result of `ImLerp` on that range and `rx`, the
second float of a field with a Y range the result of `ImLerp` on that range and `ry`. -/
theorem SetMouseRatios_onFields_values (lerp : ℚ → ℚ → Nat → Nat) (rx ry : Nat)
    (fields : List Con) :
    ∀ (off : Nat) (block block' : List Byte),
      (∀ c ∈ fields, (hasRangeX c → 4 ≤ ComputeParamMemSizeOfType c.mType) ∧
        (hasRangeY c → 8 ≤ ComputeParamMemSizeOfType c.mType)) →
      off + sumFieldSizes fields ≤ block.length →
      SetMouseRatios.onFields lerp rx ry fields off (some block) = some block' →
      ∀ j c, fields[j]? = some c →
        (hasRangeX c → readFloat block' (off + sumFieldSizes (fields.take j)) 0
            = some (lerp c.mRangeMinX c.mRangeMaxX rx % 2 ^ 32)) ∧
        (hasRangeY c → readFloat block' (off + sumFieldSizes (fields.take j)) 1
            = some (lerp c.mRangeMinY c.mRangeMaxY ry % 2 ^ 32)) := by
  induction fields with
  | nil =>
    intro off block block' _ _ _ j c h
    simp at h
  | cons c rest ih =>
    intro off block block' hsz hlen hrun j c' hj
    rw [sumFieldSizes_cons] at hlen
    obtain ⟨hx, hy⟩ := hsz c (List.mem_cons_self _ _)
    -- the X write
    have h1 : ∃ b1, (if c.mRangeMinX ≠ 0 ∨ c.mRangeMaxX ≠ 0 then
          storeFloat (some block) off (lerp c.mRangeMinX c.mRangeMaxX rx)
        else some block) = some b1 ∧ b1.length = block.length ∧
        (hasRangeX c → readFloat b1 off 0
          = some (lerp c.mRangeMinX c.mRangeMaxX rx % 2 ^ 32)) := by
      by_cases hX : c.mRangeMinX ≠ 0 ∨ c.mRangeMaxX ≠ 0
      · have := hx hX
        obtain ⟨b1, e1, l1, _⟩ := storeFloat_spec block off
          (lerp c.mRangeMinX c.mRangeMaxX rx) (by omega)
        exact ⟨b1, by rw [if_pos hX, e1], l1, fun _ => readFloat_storeFloat _ _ _ _ e1⟩
      · exact ⟨block, by rw [if_neg hX], rfl, fun h => absurd h hX⟩
    obtain ⟨b1, e1, l1, v1⟩ := h1
    -- the Y write
    have h2 : ∃ b2, (if c.mRangeMinY ≠ 0 ∨ c.mRangeMaxY ≠ 0 then
          storeFloat (some b1) (off + 4) (lerp c.mRangeMinY c.mRangeMaxY ry)
        else some b1) = some b2 ∧ b2.length = b1.length ∧
        (∀ p, b2[p]? ≠ b1[p]? → off + 4 ≤ p ∧ p < off + 8) ∧
        (hasRangeY c → readFloat b2 off 1
          = some (lerp c.mRangeMinY c.mRangeMaxY ry % 2 ^ 32)) := by
      by_cases hY : c.mRangeMinY ≠ 0 ∨ c.mRangeMaxY ≠ 0
      · have := hy hY
        obtain ⟨b2, e2, l2, f2⟩ := storeFloat_spec b1 (off + 4)
          (lerp c.mRangeMinY c.mRangeMaxY ry) (by omega)
        refine ⟨b2, by rw [if_pos hY, e2], l2, fun p hp => by have := f2 p hp; omega, fun _ => ?_⟩
        have := readFloat_storeFloat _ _ _ _ e2
        simpa [readFloat] using this
      · exact ⟨b1, by rw [if_neg hY], rfl, fun p hp => absurd rfl hp, fun h => absurd h hY⟩
    obtain ⟨b2, e2, l2, f2, v2⟩ := h2
    have hrest : SetMouseRatios.onFields lerp rx ry rest
        (off + ComputeParamMemSizeOfType c.mType) (some b2) = some block' := by
      simpa only [SetMouseRatios.onFields, e1, e2] using hrun
    have hsz' : ∀ d ∈ rest, (hasRangeX d → 4 ≤ ComputeParamMemSizeOfType d.mType) ∧
        (hasRangeY d → 8 ≤ ComputeParamMemSizeOfType d.mType) :=
      fun d hd => hsz d (List.mem_cons_of_mem _ hd)
    cases j with
    | zero =>
      simp only [List.getElem?_cons_zero, Option.some.injEq] at hj
      subst hj
      obtain ⟨b', e', l', f'⟩ := SetMouseRatios_onFields_bytes lerp rx ry rest
        (off + ComputeParamMemSizeOfType c.mType) b2 hsz' (by omega)
      rw [hrest] at e'
      cases e'
      have hkeep : ∀ p, p < off + ComputeParamMemSizeOfType c.mType →
          block'[p]? = b2[p]? := by
        intro p hp
        by_contra hne
        obtain ⟨j, d, _, hcase⟩ := f' p hne
        rcases hcase with ⟨_, ha, _⟩ | ⟨_, ha, _⟩ <;> omega
      have h0 : sumFieldSizes (List.take 0 (c :: rest)) = 0 := rfl
      rw [h0, Nat.add_zero]
      constructor
      · intro hX
        have := hx hX
        rw [← v1 hX]
        rw [readFloat_congr b2 block' off 0 (fun p hp1 hp2 => hkeep p (by omega))]
        apply readFloat_congr
        intro p hp1 hp2
        by_contra hne
        have := f2 p hne
        omega
      · intro hY
        have := hy hY
        rw [← v2 hY]
        exact readFloat_congr b2 block' off 1 (fun p hp1 hp2 => hkeep p (by omega))
    | succ j =>
      simp only [List.getElem?_cons_succ] at hj
      have := ih (off + ComputeParamMemSizeOfType c.mType) b2 block' hsz' (by omega) hrest j c' hj
      simp only [List.take_succ_cons, sumFieldSizes_cons]
      rw [← Nat.add_assoc]
      exact this

theorem f32_toRat_nonneg (v : Nat) (hv : v < 2 ^ 31) :
    f32.toRat v = (f32.num v : ℚ) / 2 ^ 149 := by
  have hs : f32.sign v = 0 := by unfold f32.sign; omega
  simp [f32.toRat, hs]

theorem f32_toRat_negZero : f32.toRat 0x80000000 = 0 := by
  have h : f32.num 0x80000000 = 0 := by decide
  simp [f32.toRat, h]

theorem f32_toRat_zero : f32.toRat 0 = 0 := by
  have h : f32.num 0 = 0 := by decide
  simp [f32.toRat, h]

set_option exponentiation.threshold 1000 in
theorem f32_toRat_one : f32.toRat 0x3F800000 = 1 := by
  have h : f32.num 0x3F800000 = 2 ^ 149 := by decide
  rw [f32_toRat_nonneg _ (by decide), h]
  norm_num

set_option maxRecDepth 100000 in
set_option exponentiation.threshold 1000 in
/-- `ImLerp` on a range (0,1) or (1,0) and a float `t` from zero to one: the result is a
finite float within `2^-25` of `a + t * (b - a)`; it is `t` for the range (0,1), `a` for
`t` zero and `b` for `t` one. -/
theorem ImLerp_unit_range (a b : ℚ) (hab : (a = 0 ∧ b = 1) ∨ (a = 1 ∧ b = 0)) (t : Nat)
    (ht : f32.inUnit t) :
    ∃ v, ImLerp a b t = some v ∧ v < 2 ^ 31 ∧ f32.exp v ≠ 255 ∧
      |f32.toRat v - (a + f32.toRat t * (b - a))| ≤ 1 / 2 ^ 25 ∧
      (a = 0 → f32.toRat v = f32.toRat t ∧ (t ≤ 0x3F800000 → v = t)) ∧
      (t = 0 ∨ t = 0x80000000 → f32.toRat v = a) ∧
      (t = 0x3F800000 → f32.toRat v = b) := by
  rcases ht with ht | ht
  · obtain ⟨hs, he, hfin, hle, hone⟩ := f32_unit_fields t ht
    rcases hab with ⟨ha, hb⟩ | ⟨ha, hb⟩
    · subst ha hb
      refine ⟨t, ImLerp_zero_one t ht, by omega, he, by simp, fun _ => ⟨rfl, fun _ => rfl⟩,
        ?_, ?_⟩
      · rintro (h | h)
        · rw [h]; exact f32_toRat_zero
        · omega
      · intro h
        rw [h]; exact f32_toRat_one
    · subst ha hb
      obtain ⟨v, hv, hlt, hex, b1, b2, h0, h1⟩ := ImLerp_one_zero t ht
      refine ⟨v, hv, hlt, hex, ?_, fun h => absurd h (by norm_num), ?_, ?_⟩
      · rw [f32_toRat_nonneg v hlt, f32_toRat_nonneg t (by omega)]
        obtain ⟨D, hD⟩ : ∃ D, D = 2 ^ 149 - f32.num t := ⟨_, rfl⟩
        rw [← hD] at b1 b2
        have hDN : D + f32.num t = 2 ^ 149 := by omega
        have hDN' : (D : ℚ) + (f32.num t : ℚ) = 2 ^ 149 := by exact_mod_cast hDN
        have c1 : (2 : ℚ) * (f32.num v : ℚ) ≤ 2 * (D : ℚ) + 2 ^ 125 := by exact_mod_cast b1
        have c2 : (2 : ℚ) * (D : ℚ) ≤ 2 * (f32.num v : ℚ) + 2 ^ 125 := by exact_mod_cast b2
        have key : (f32.num v : ℚ) / 2 ^ 149 - (1 + (f32.num t : ℚ) / 2 ^ 149 * (0 - 1))
            = ((f32.num v : ℚ) - (2 ^ 149 - (f32.num t : ℚ))) / 2 ^ 149 := by
          field_simp
          ring
        rw [key, abs_le]
        constructor
        · rw [le_div_iff₀ (by positivity)]
          norm_num at c1 c2 hDN' ⊢
          linarith
        · rw [div_le_iff₀ (by positivity)]
          norm_num at c1 c2 hDN' ⊢
          linarith
      · rintro (h | h)
        · rw [h0 h]; exact f32_toRat_one
        · omega
      · intro h
        rw [h1 h]; exact f32_toRat_zero
  · subst ht
    rcases hab with ⟨ha, hb⟩ | ⟨ha, hb⟩
    · subst ha hb
      have h : ImLerp 0 1 0x80000000 = some 0 := by
        simp only [ImLerp, f32_ofRat_zero, f32_ofRat_one]
        decide
      refine ⟨0, h, by decide, by decide, ?_, fun _ => ⟨?_, fun h => absurd h (by decide)⟩,
        fun _ => f32_toRat_zero, fun h => absurd h (by decide)⟩
      · rw [f32_toRat_zero, f32_toRat_negZero]; norm_num
      · rw [f32_toRat_zero, f32_toRat_negZero]
    · subst ha hb
      have h : ImLerp 1 0 0x80000000 = some 0x3F800000 := by
        simp only [ImLerp, f32_ofRat_zero, f32_ofRat_one]
        decide
      refine ⟨0x3F800000, h, by decide, by decide, ?_, fun h => absurd h (by norm_num),
        fun _ => f32_toRat_one, fun h => absurd h (by decide)⟩
      rw [f32_toRat_one, f32_toRat_negZero]; norm_num

/-- The ranges of the table: an axis with a range has the range (0,1) or (1,0). -/
theorem namedParams_unit_ranges {typeIndex : Nat} {m : MetaNode}
    (hm : GetMetaNodes typeIndex = some m) :
    ∀ c ∈ namedParams m,
      (hasRangeX c → (c.mRangeMinX = 0 ∧ c.mRangeMaxX = 1) ∨
        (c.mRangeMinX = 1 ∧ c.mRangeMaxX = 0)) ∧
      (hasRangeY c → (c.mRangeMinY = 0 ∧ c.mRangeMaxY = 1) ∨
        (c.mRangeMinY = 1 ∧ c.mRangeMaxY = 0)) := by
  have h : ∀ m ∈ metaNodes, ∀ c ∈ namedParams m,
      (hasRangeX c → (c.mRangeMinX = 0 ∧ c.mRangeMaxX = 1) ∨
        (c.mRangeMinX = 1 ∧ c.mRangeMaxX = 0)) ∧
      (hasRangeY c → (c.mRangeMinY = 0 ∧ c.mRangeMaxY = 1) ∨
        (c.mRangeMinY = 1 ∧ c.mRangeMaxY = 0)) := by
    simp [metaNodes, namedParams, con, conR, hasRangeX, hasRangeY]
  exact h m (GetMetaNodes_mem hm)

/-- A node type with a ranged field has no ramp field. -/
theorem namedParams_ranged_no_ramp {typeIndex : Nat} {m : MetaNode}
    (hm : GetMetaNodes typeIndex = some m)
    (h : ∃ c ∈ namedParams m, hasRangeX c ∨ hasRangeY c) :
    ∀ c ∈ namedParams m, c.mType ≠ Con_Ramp := by
  by_cases h15 : typeIndex = 15
  · subst h15
    cases hm
    exfalso
    revert h
    decide
  · exact namedParams_no_ramp hm h15

set_option exponentiation.threshold 1000 in
set_option maxRecDepth 100000 in
theorem ImLerp_tenth : ImLerp 1 0 0x3DCCCCCD = some 0x3F666666 := by
  simp only [ImLerp, f32_ofRat_zero, f32_ofRat_one]
  decide

set_option maxRecDepth 100000 in
set_option exponentiation.threshold 1000 in
/-- C9 (counterexample). The value that `SetMouseRatios` writes is not always
`min + r * (max - min)`: for a Transform node (type 1), whose field Translate has the X
range (1,0), and the ratio `rx = 0.1f` (bits `3DCCCCCD`), the float written at offset 0
has the bits `3F666666`, the result of `ImLerp(1, 0, 0.1f)` in binary32, and the number
it denotes is not `1 + 0.1f * (0 - 1)`, which no float denotes. -/
theorem C9_SetMouseRatios_counterexample :
    f32.inUnit 0x3DCCCCCD ∧
    ∃ m c block', GetMetaNodes 1 = some m ∧ (namedParams m)[0]? = some c ∧ hasRangeX c ∧
      c.mRangeMinX = 1 ∧ c.mRangeMaxX = 0 ∧
      ImLerp c.mRangeMinX c.mRangeMaxX 0x3DCCCCCD = some 0x3F666666 ∧
      SetMouseRatios.loop (fun a b t => (ImLerp a b t).getD 0) m.mParams 0x3DCCCCCD 0
        Env.sample.MaxCon 0 0 (some (List.replicate 16 0)) = some block' ∧
      readFloat block' 0 0 = some 0x3F666666 ∧
      f32.toRat 0x3F666666
        ≠ c.mRangeMinX + f32.toRat 0x3DCCCCCD * (c.mRangeMaxX - c.mRangeMinX) := by
  obtain ⟨m, hm⟩ := GetMetaNodes_isSome 1 (by decide)
  have hsum : sumFieldSizes (namedParams m) = 16 := by cases hm; rfl
  have hc : (namedParams m)[0]? = some (conR "Translate" Con_Float2 1 0 1 0) := by
    cases hm; rfl
  have hloop := SetMouseRatios_loop_eq (fun a b t => (ImLerp a b t).getD 0) m.mParams
    0x3DCCCCCD 0 Env.sample.MaxCon 0 0 (some (List.replicate 16 0))
    (by simpa [namedParams] using le_trans (namedParams_length_le_four hm) (by decide))
  simp only [List.drop_zero] at hloop
  obtain ⟨block', e', _, _⟩ := SetMouseRatios_onFields_bytes
    (fun a b t => (ImLerp a b t).getD 0) 0x3DCCCCCD 0 (namedParams m) 0 (List.replicate 16 0)
    (namedParams_range_sizes hm) (by rw [hsum]; decide)
  have hX : hasRangeX (conR "Translate" Con_Float2 1 0 1 0) := by
    unfold hasRangeX conR; simp
  have hv := (SetMouseRatios_onFields_values (fun a b t => (ImLerp a b t).getD 0)
    0x3DCCCCCD 0 (namedParams m) 0 (List.replicate 16 0) block' (namedParams_range_sizes hm)
    (by rw [hsum]; decide) e' 0 (conR "Translate" Con_Float2 1 0 1 0) hc).1 hX
  simp only [conR, ImLerp_tenth, Option.getD_some] at hv
  refine ⟨by decide, m, conR "Translate" Con_Float2 1 0 1 0, block', hm,
    hc, hX, rfl, rfl, ImLerp_tenth, by rw [hloop]; exact e', hv, ?_⟩
  rw [f32_toRat_nonneg _ (by decide), f32_toRat_nonneg _ (by decide),
    show f32.num 0x3F666666 = 120795952 * 2 ^ 122 from by decide,
    show f32.num 0x3DCCCCCD = 13421773 * 2 ^ 122 from by decide]
  simp only [conR]
  norm_num

/-- C9. In `SetMouseRatios`, on a selected node of a table type with its block of
`ComputeParamMemSize(type)` bytes, for every field with a range on an axis and every
ratio float from zero to one: the loop returns, and the float it leaves for that axis
(the first float of the field for X, the second for Y) is the result `v` of
`ImLerp(min, max, r) = min + (max - min) * r` computed in binary32, each operation
rounded to the nearest float. It is a finite float within `2^-25` of
`min + r * (max - min)`; it denotes `r` itself when `min` is 0; it denotes `min` for `r`
zero and `max` for `r` one. `SetMouseRatios` returns for every type with a ranged field,
and the selected node then holds the block of the loop. -/
theorem C9_SetMouseRatios_lerp (E : Env) (hMax : 4 ≤ E.MaxCon) (lerp : ℚ → ℚ → Nat → Nat)
    (hlerp : ∀ a b t v, ImLerp a b t = some v → lerp a b t = v)
    (d : TileNodeEditGraphDelegate) (rx ry : Nat) (hrx : f32.inUnit rx) (hry : f32.inUnit ry)
    (node : ImogenNode) (hsel : d.mNodes[d.mSelectedNodeIndex]? = some node)
    (m : MetaNode) (htype : GetMetaNodes node.mType = some m)
    (hsize : ComputeParamMemSize E node.mType = some node.mParams.length) :
    ∃ block',
      SetMouseRatios.loop lerp m.mParams rx ry E.MaxCon 0 0 (some node.mParams)
        = some block' ∧
      ((∃ c ∈ namedParams m, hasRangeX c ∨ hasRangeY c) →
        ∃ d', SetMouseRatios E lerp d rx ry = some d') ∧
      (∀ d', SetMouseRatios E lerp d rx ry = some d' →
        d'.mNodes[d.mSelectedNodeIndex]? = some { node with mParams := block' }) ∧
      ∀ j c, (namedParams m)[j]? = some c →
        (hasRangeX c → ∃ v,
          readFloat block' (sumFieldSizes ((namedParams m).take j)) 0 = some v ∧
          ImLerp c.mRangeMinX c.mRangeMaxX rx = some v ∧ f32.exp v ≠ 255 ∧
          |f32.toRat v - (c.mRangeMinX + f32.toRat rx * (c.mRangeMaxX - c.mRangeMinX))|
            ≤ 1 / 2 ^ 25 ∧
          (c.mRangeMinX = 0 → f32.toRat v = f32.toRat rx) ∧
          (rx = 0 ∨ rx = 0x80000000 → f32.toRat v = c.mRangeMinX) ∧
          (rx = 0x3F800000 → f32.toRat v = c.mRangeMaxX)) ∧
        (hasRangeY c → ∃ v,
          readFloat block' (sumFieldSizes ((namedParams m).take j)) 1 = some v ∧
          ImLerp c.mRangeMinY c.mRangeMaxY ry = some v ∧ f32.exp v ≠ 255 ∧
          |f32.toRat v - (c.mRangeMinY + f32.toRat ry * (c.mRangeMaxY - c.mRangeMinY))|
            ≤ 1 / 2 ^ 25 ∧
          (c.mRangeMinY = 0 → f32.toRat v = f32.toRat ry) ∧
          (ry = 0 ∨ ry = 0x80000000 → f32.toRat v = c.mRangeMinY) ∧
          (ry = 0x3F800000 → f32.toRat v = c.mRangeMaxY)) := by
  have hrange := namedParams_range_sizes htype
  have hunit := namedParams_unit_ranges htype
  have hcpms := ComputeParamMemSize_eq_sumFieldSizes E hMax htype
  rw [hcpms] at hsize
  have hsize' : node.mParams.length = sumFieldSizes (namedParams m) :=
    (Option.some.inj hsize).symm
  obtain ⟨block', hloop, l', f', hset⟩ :=
    SetMouseRatios_eq E hMax lerp d rx ry node hsel m htype hsize'
  have hi := getElem?_lt_length hsel
  have hlen := namedParams_length_le_four htype
  have hloop2 := SetMouseRatios_loop_eq lerp m.mParams
    rx ry E.MaxCon 0 0 (some node.mParams) (by simpa [namedParams] using le_trans hlen hMax)
  simp only [List.drop_zero] at hloop2
  rw [hloop] at hloop2
  have hvals := SetMouseRatios_onFields_values lerp rx ry (namedParams m) 0 node.mParams
    block' hrange (by omega) hloop2.symm
  refine ⟨block', hloop, ?_, ?_, ?_⟩
  · intro hr
    have hfit := literalsFit_of_no_ramp (namedParams m) block'
      (namedParams_ranged_no_ramp htype hr)
    rw [hset, if_pos hfit]
    exact ⟨_, rfl⟩
  · intro d' hd'
    rw [hset] at hd'
    split at hd'
    · cases hd'
      simp [hi]
    · cases hd'
  · intro j c hj
    have hmem : c ∈ namedParams m := List.getElem?_mem hj
    obtain ⟨ux, uy⟩ := hunit c hmem
    obtain ⟨vx, vy⟩ := hvals j c hj
    simp only [Nat.zero_add] at vx vy
    constructor
    · intro hX
      obtain ⟨v, hv, hlt, hex, hb, h0, hmin, hmax⟩ :=
        ImLerp_unit_range c.mRangeMinX c.mRangeMaxX (ux hX) rx hrx
      refine ⟨v, ?_, hv, hex, hb, fun h => (h0 h).1, hmin, hmax⟩
      rw [vx hX, hlerp _ _ _ _ hv, Nat.mod_eq_of_lt (by omega)]
    · intro hY
      obtain ⟨v, hv, hlt, hex, hb, h0, hmin, hmax⟩ :=
        ImLerp_unit_range c.mRangeMinY c.mRangeMaxY (uy hY) ry hry
      refine ⟨v, ?_, hv, hex, hb, fun h => (h0 h).1, hmin, hmax⟩
      rw [vy hY, hlerp _ _ _ _ hv, Nat.mod_eq_of_lt (by omega)]

theorem C9_SetMouseRatios_lerp_witness :
    (4 ≤ Env.sample.MaxCon ∧
      (∀ a b t v, ImLerp a b t = some v → (ImLerp a b t).getD 0 = v) ∧
      f32.inUnit 0x3DCCCCCD ∧ f32.inUnit 0x3F800000 ∧
      ([⟨1, 0, List.replicate 16 0⟩] : List ImogenNode)[0]?
        = some ⟨1, 0, List.replicate 16 0⟩ ∧
      GetMetaNodes 1 = some ⟨"Transform", hcTransform, [con "In" Con_Float4],
        [con "Out" Con_Float4],
        [conR "Translate" Con_Float2 1 0 1 0, con "Rotation" Con_Angle,
          con "Scale" Con_Float]⟩ ∧
      ComputeParamMemSize Env.sample 1 = some (List.replicate 16 (0 : Byte)).length) ∧
    ∃ block',
      SetMouseRatios.loop (fun a b t => (ImLerp a b t).getD 0)
        [conR "Translate" Con_Float2 1 0 1 0, con "Rotation" Con_Angle, con "Scale" Con_Float]
        0x3DCCCCCD 0x3F800000 Env.sample.MaxCon 0 0 (some (List.replicate 16 0))
        = some block' ∧
      ((∃ c ∈ namedParams ⟨"Transform", hcTransform, [con "In" Con_Float4],
          [con "Out" Con_Float4],
          [conR "Translate" Con_Float2 1 0 1 0, con "Rotation" Con_Angle,
            con "Scale" Con_Float]⟩, hasRangeX c ∨ hasRangeY c) →
        ∃ d', SetMouseRatios Env.sample (fun a b t => (ImLerp a b t).getD 0)
          ⟨[⟨1, 0, List.replicate 16 0⟩], 0, ⟨[⟨Input.new, ""⟩]⟩⟩ 0x3DCCCCCD 0x3F800000
            = some d') ∧
      (∀ d', SetMouseRatios Env.sample (fun a b t => (ImLerp a b t).getD 0)
          ⟨[⟨1, 0, List.replicate 16 0⟩], 0, ⟨[⟨Input.new, ""⟩]⟩⟩ 0x3DCCCCCD 0x3F800000
            = some d' →
        d'.mNodes[0]? = some ⟨1, 0, block'⟩) ∧
      ∀ j c, (namedParams ⟨"Transform", hcTransform, [con "In" Con_Float4],
          [con "Out" Con_Float4],
          [conR "Translate" Con_Float2 1 0 1 0, con "Rotation" Con_Angle,
            con "Scale" Con_Float]⟩)[j]? = some c →
        (hasRangeX c → ∃ v,
          readFloat block' (sumFieldSizes ((namedParams ⟨"Transform", hcTransform,
            [con "In" Con_Float4], [con "Out" Con_Float4],
            [conR "Translate" Con_Float2 1 0 1 0, con "Rotation" Con_Angle,
              con "Scale" Con_Float]⟩).take j)) 0 = some v ∧
          ImLerp c.mRangeMinX c.mRangeMaxX 0x3DCCCCCD = some v ∧ f32.exp v ≠ 255 ∧
          |f32.toRat v - (c.mRangeMinX
              + f32.toRat 0x3DCCCCCD * (c.mRangeMaxX - c.mRangeMinX))| ≤ 1 / 2 ^ 25 ∧
          (c.mRangeMinX = 0 → f32.toRat v = f32.toRat 0x3DCCCCCD) ∧
          ((0x3DCCCCCD : Nat) = 0 ∨ (0x3DCCCCCD : Nat) = 0x80000000 →
            f32.toRat v = c.mRangeMinX) ∧
          ((0x3DCCCCCD : Nat) = 0x3F800000 → f32.toRat v = c.mRangeMaxX)) ∧
        (hasRangeY c → ∃ v,
          readFloat block' (sumFieldSizes ((namedParams ⟨"Transform", hcTransform,
            [con "In" Con_Float4], [con "Out" Con_Float4],
            [conR "Translate" Con_Float2 1 0 1 0, con "Rotation" Con_Angle,
              con "Scale" Con_Float]⟩).take j)) 1 = some v ∧
          ImLerp c.mRangeMinY c.mRangeMaxY 0x3F800000 = some v ∧ f32.exp v ≠ 255 ∧
          |f32.toRat v - (c.mRangeMinY
              + f32.toRat 0x3F800000 * (c.mRangeMaxY - c.mRangeMinY))| ≤ 1 / 2 ^ 25 ∧
          (c.mRangeMinY = 0 → f32.toRat v = f32.toRat 0x3F800000) ∧
          ((0x3F800000 : Nat) = 0 ∨ (0x3F800000 : Nat) = 0x80000000 →
            f32.toRat v = c.mRangeMinY) ∧
          ((0x3F800000 : Nat) = 0x3F800000 → f32.toRat v = c.mRangeMaxY)) :=
  ⟨⟨by decide, fun a b t v h => by rw [h]; rfl, by decide, by decide, rfl, rfl, by decide⟩,
    C9_SetMouseRatios_lerp Env.sample (by decide) (fun a b t => (ImLerp a b t).getD 0)
      (fun a b t v h => by simp only [h, Option.getD_some])
      ⟨[⟨1, 0, List.replicate 16 0⟩], 0, ⟨[⟨Input.new, ""⟩]⟩⟩ 0x3DCCCCCD 0x3F800000
      (by decide) (by decide)
      ⟨1, 0, List.replicate 16 0⟩ rfl _ rfl (by decide)⟩

/-- Two finite floats of the same sign whose magnitudes differ by the fraction `k / 2^24`
of the first at most: the same holds of the numbers they denote. -/
theorem f32_toRat_close (a a' k : Nat) (hs : f32.sign a' = f32.sign a)
    (h1 : (2 ^ 24 - k) * f32.num a ≤ 2 ^ 24 * f32.num a')
    (h2 : 2 ^ 24 * f32.num a' ≤ (2 ^ 24 + k) * f32.num a) (hk : k ≤ 2 ^ 24) :
    |f32.toRat a' - f32.toRat a| ≤ (k : ℚ) / 2 ^ 24 * |f32.toRat a| := by
  have c1 : ((2 : ℚ) ^ 24 - k) * (f32.num a : ℚ) ≤ 2 ^ 24 * (f32.num a' : ℚ) := by
    have : (((2 ^ 24 - k) * f32.num a : Nat) : ℚ) ≤ ((2 ^ 24 * f32.num a' : Nat) : ℚ) := by
      exact_mod_cast h1
    rw [Nat.cast_mul, Nat.cast_sub hk] at this
    exact_mod_cast this
  have c2 : (2 : ℚ) ^ 24 * (f32.num a' : ℚ) ≤ ((2 : ℚ) ^ 24 + k) * (f32.num a : ℚ) := by
    exact_mod_cast h2
  have hna : (0 : ℚ) ≤ (f32.num a : ℚ) := Nat.cast_nonneg _
  have habs : |f32.toRat a| = (f32.num a : ℚ) / 2 ^ 149 := by
    unfold f32.toRat
    by_cases h : f32.sign a = 1
    · rw [if_pos h, neg_one_mul, neg_div, abs_neg, abs_of_nonneg (by positivity)]
    · rw [if_neg h, one_mul, abs_of_nonneg (by positivity)]
  have hdiff : |f32.toRat a' - f32.toRat a|
      = |(f32.num a' : ℚ) - (f32.num a : ℚ)| / 2 ^ 149 := by
    unfold f32.toRat
    rw [hs]
    by_cases h : f32.sign a = 1
    · rw [if_pos h, neg_one_mul, neg_one_mul, neg_div, neg_div, ← neg_sub', abs_neg, ← sub_div,
        abs_div, abs_of_pos (show (0 : ℚ) < 2 ^ 149 by positivity)]
    · rw [if_neg h, one_mul, one_mul, ← sub_div, abs_div,
        abs_of_pos (show (0 : ℚ) < 2 ^ 149 by positivity)]
  obtain ⟨t, ht⟩ : ∃ t : ℚ, t = (k : ℚ) * (f32.num a : ℚ) / 2 ^ 24 := ⟨_, rfl⟩
  have ht2 : t * 2 ^ 24 = (k : ℚ) * (f32.num a : ℚ) := by
    rw [ht]; field_simp
  have hX : |(f32.num a' : ℚ) - (f32.num a : ℚ)| ≤ t := by
    rw [abs_le]
    constructor <;> linarith
  have hrhs : (k : ℚ) / 2 ^ 24 * ((f32.num a : ℚ) / 2 ^ 149) = t / 2 ^ 149 := by
    rw [ht]; ring
  rw [habs, hdiff, hrhs]
  exact div_le_div_of_nonneg_right hX (by positivity)

set_option exponentiation.threshold 1000 in
set_option maxRecDepth 100000 in
theorem f32_ofRat_ninety : f32.ofRat 90 = 0x42B40000 := by
  have h : f32.round 90 1 = 0x42B40000 := by decide
  simp [f32.ofRat, h]

set_option maxRecDepth 100000 in
set_option exponentiation.threshold 1000 in
/-- C10 (counterexample). The conversions do not undo each other on floats. The stored
angle `0.7f` (bits `3F333333`) is shown as the float `42206DA6` and stored back as
`3F333334`, the next float, also when the widget leaves the value alone; one degree
(`3F800000`) becomes the radians `3C8EFA2E` and then the degrees `3F800001`; the largest
finite float becomes infinite and stays so. `PI` is the float `40490FD0`, which is not
3.14159, and `DegToRad(90)` is the float `3FC90FD0`, which is not 1.570795. -/
theorem C10_angle_roundtrip_counterexample :
    (RadToDeg 0x3F333333 = some 0x42206DA6 ∧ DegToRad 0x42206DA6 = some 0x3F333334 ∧
      EditNode.angle (fun shown => shown) 0x3F333333 = some 0x3F333334) ∧
    (DegToRad 0x3F800000 = some 0x3C8EFA2E ∧ RadToDeg 0x3C8EFA2E = some 0x3F800001) ∧
    (RadToDeg 0x7F7FFFFF = some 0x7F800000 ∧ DegToRad 0x7F800000 = some 0x7F800000) ∧
    (PI = 0x40490FD0 ∧ f32.toRat 0x40490FD0 ≠ 314159 / 100000) ∧
    (f32.ofRat 90 = 0x42B40000 ∧ DegToRad 0x42B40000 = some 0x3FC90FD0 ∧
      f32.toRat 0x3FC90FD0 ≠ 1570795 / 1000000) := by
  refine ⟨⟨by decide, by decide, by decide⟩, ⟨by decide, by decide⟩, ⟨by decide, by decide⟩,
    ⟨by decide, ?_⟩, ⟨f32_ofRat_ninety, by decide, ?_⟩⟩
  · rw [f32_toRat_nonneg _ (by decide), num_PI]
    norm_num
  · rw [f32_toRat_nonneg _ (by decide),
      show f32.num 0x3FC90FD0 = 26353568 * 2 ^ 125 from by decide]
    norm_num

set_option maxRecDepth 100000 in
set_option exponentiation.threshold 1000 in
/-- C10. On floats the two conversions undo each other up to rounding. For every stored
float `a` with an exponent field from 27 to 227 (a magnitude from `2^-100` to below
`2^101`): `RadToDeg(a)` and `DegToRad` of it are finite floats, the result `a'` has the
sign of `a` and differs from `a` by `5 * 2^-24 * |a|` at most, and this `a'` is what
`EditNode` stores back for an angle field that the widget leaves alone; the same holds of
`RadToDeg(DegToRad(a))`. Zero is kept. `DegToRad(90)` is the float `3FC90FD0`, within
`10^-7` of 1.570795, and `RadToDeg` of it is 90 again. -/
theorem C10_angle_roundtrip (a : Nat) (hlo : 27 ≤ f32.exp a) (hhi : f32.exp a ≤ 227) :
    (∃ d a', RadToDeg a = some d ∧ DegToRad d = some a' ∧
      EditNode.angle (fun shown => shown) a = some a' ∧
      f32.sign a' = f32.sign a ∧ f32.exp a' ≠ 255 ∧
      |f32.toRat a' - f32.toRat a| ≤ 5 / 2 ^ 24 * |f32.toRat a|) ∧
    (∃ r a', DegToRad a = some r ∧ RadToDeg r = some a' ∧
      f32.sign a' = f32.sign a ∧ f32.exp a' ≠ 255 ∧
      |f32.toRat a' - f32.toRat a| ≤ 5 / 2 ^ 24 * |f32.toRat a|) ∧
    (RadToDeg 0 = some 0 ∧ DegToRad 0 = some 0 ∧
      EditNode.angle (fun shown => shown) 0 = some 0) ∧
    (f32.ofRat 90 = 0x42B40000 ∧ DegToRad 0x42B40000 = some 0x3FC90FD0 ∧
      RadToDeg 0x3FC90FD0 = some 0x42B40000 ∧
      |f32.toRat 0x3FC90FD0 - 1570795 / 1000000| ≤ 1 / 10 ^ 7) := by
  obtain ⟨⟨d, a1, hd, ha1, s1, e1, l1, u1⟩, ⟨r, a2, hr, ha2, s2, e2, l2, u2⟩⟩ :=
    angle_roundtrip_bound a hlo hhi
  refine ⟨⟨d, a1, hd, ha1, ?_, s1, e1, ?_⟩, ⟨r, a2, hr, ha2, s2, e2, ?_⟩,
    ⟨by decide, by decide, by decide⟩, ⟨f32_ofRat_ninety, by decide, by decide, ?_⟩⟩
  · simp only [EditNode.angle, hd, Option.bind_eq_bind, Option.some_bind, ha1]
  · have := f32_toRat_close a a1 5 s1 l1 u1 (by decide)
    exact_mod_cast this
  · have := f32_toRat_close a a2 5 s2 l2 u2 (by decide)
    exact_mod_cast this
  · rw [f32_toRat_nonneg _ (by decide),
      show f32.num 0x3FC90FD0 = 26353568 * 2 ^ 125 from by decide, abs_le]
    constructor <;> norm_num

theorem C10_angle_roundtrip_witness :
    (27 ≤ f32.exp 0x3F333333 ∧ f32.exp 0x3F333333 ≤ 227) ∧
    ((∃ d a', RadToDeg 0x3F333333 = some d ∧ DegToRad d = some a' ∧
      EditNode.angle (fun shown => shown) 0x3F333333 = some a' ∧
      f32.sign a' = f32.sign 0x3F333333 ∧ f32.exp a' ≠ 255 ∧
      |f32.toRat a' - f32.toRat 0x3F333333| ≤ 5 / 2 ^ 24 * |f32.toRat 0x3F333333|) ∧
    (∃ r a', DegToRad 0x3F333333 = some r ∧ RadToDeg r = some a' ∧
      f32.sign a' = f32.sign 0x3F333333 ∧ f32.exp a' ≠ 255 ∧
      |f32.toRat a' - f32.toRat 0x3F333333| ≤ 5 / 2 ^ 24 * |f32.toRat 0x3F333333|) ∧
    (RadToDeg 0 = some 0 ∧ DegToRad 0 = some 0 ∧
      EditNode.angle (fun shown => shown) 0 = some 0) ∧
    (f32.ofRat 90 = 0x42B40000 ∧ DegToRad 0x42B40000 = some 0x3FC90FD0 ∧
      RadToDeg 0x3FC90FD0 = some 0x42B40000 ∧
      |f32.toRat 0x3FC90FD0 - 1570795 / 1000000| ≤ 1 / 10 ^ 7)) :=
  ⟨⟨by decide, by decide⟩, C10_angle_roundtrip 0x3F333333 (by decide) (by decide)⟩

end Imogen
